import Mathlib

/-!
# prompush: a verification development

A shallow embedding of `metrics.go`, `program.go` and the start of `main.go` of
`hansmi/prompush`, with the theorems that settle the claims C1 to C10 about
them.

Go functions that return `(value, error)` are embedded as functions returning a
pair whose second component is `Option GoError` (`none` is Go's `nil` error); a
nil slice is the empty list and a nil pointer is `none`.

Code outside the repository is treated in one of two ways.  Collaborators whose
answer the program only passes on (the file system, `url.Parse`, the PEM and
key-pair decoders, the exposition-format text parser, `strconv` and
`time.ParseDuration`) are fields of the records `World` and `Conversions`, so a
theorem quantified over them holds whatever they answer.  Library code whose
control flow decides a claim (`backoff.Retry` and `ExponentialBackOff` of
`github.com/cenkalti/backoff/v5`, `env.ParseWithOptions` of
`github.com/caarlos0/env/v11`, `FlagSet.Parse` of package `flag`) is embedded
function by function under the library's names.
-/

namespace Prompush

/-! ## Data model -/

/-- Go `error` values.  `msg` is an error created by `errors.New` or handed out
by a collaborator; `wrap format args inner` is
`fmt.Errorf(format, args..., inner)`, the last verb of `format` printing
`inner`; `aggregateCons` and `aggregateNil` spell the list of errors an
`env.AggregateError` holds. -/
inductive GoError where
  | msg (text : String)
  | wrap (format : String) (args : List String) (inner : GoError)
  | aggregateNil
  | aggregateCons (head : GoError) (tail : GoError)
deriving DecidableEq, Repr

/-- Contents of a file, a Go `[]byte`. -/
abbrev Bytes := List UInt8

/-- The `dto.MetricFamily` message the text parser produces: a metric name and
its samples, which this program never inspects. -/
structure MetricFamily where
  Name : String
  Samples : List String
deriving DecidableEq, Repr

/-- A Go `map[string]*dto.MetricFamily`.  Keys are pairwise distinct; the order
of `entries` is the order in which a `range` over the map visits them, which
the Go runtime chooses. -/
structure FamilyMap where
  entries : List (String × MetricFamily)
  nodup : (entries.map Prod.fst).Nodup

/-- The key set of a map, as `maps.Keys` would visit it. -/
def FamilyMap.keys (m : FamilyMap) : List String :=
  m.entries.map Prod.fst

/-- The sequence `maps.Values` yields, collected by `slices.Collect`. -/
def FamilyMap.values (m : FamilyMap) : List MetricFamily :=
  m.entries.map Prod.snd

/-- The empty map. -/
def FamilyMap.empty : FamilyMap :=
  ⟨[], List.nodup_nil⟩

/-- An X.509 certificate, identified by its DER bytes. -/
structure Certificate where
  der : Bytes
deriving DecidableEq, Repr

/-- A client identity as `tls.X509KeyPair` builds it. -/
structure KeyPair where
  certPEM : Bytes
  keyPEM : Bytes
deriving DecidableEq, Repr

/-- Observable effects of `newProgram`, in program order. -/
inductive Event where
  | readFile (path : String)
  | log (format : String) (args : List String)
deriving DecidableEq, Repr

/-- The collaborators `newProgram` and `readMetrics` call. -/
structure World where
  /-- Go `os.ReadFile`: the content, or the error. -/
  ReadFile : String → Except GoError Bytes
  /-- Go `url.Parse`; on success the value is what `(*URL).String` prints. -/
  Parse : String → Except GoError String
  /-- The certificates `(*x509.CertPool).AppendCertsFromPEM` decodes from its
  argument. -/
  pemCertificates : Bytes → List Certificate
  /-- Go `tls.X509KeyPair`. -/
  X509KeyPair : Bytes → Bytes → Except GoError KeyPair
  /-- The method `TextToMetricFamilies` of `expfmt.TextParser`; when it reports
  an error it still hands back the families parsed so far. -/
  TextToMetricFamilies : Bytes → FamilyMap × Option GoError

/-- A computation that appends to the effect log. -/
abbrev Eff (α : Type) := StateM (List Event) α

/-- Record one effect. -/
def emit (e : Event) : Eff Unit :=
  modify (fun log => log ++ [e])

/-- Reading a file through the world, recording the access. -/
def osReadFile (w : World) (path : String) : Eff (Except GoError Bytes) := do
  emit (.readFile path)
  pure (w.ReadFile path)

/-! ## metrics.go -/

/-- Source function `readMetrics` (metrics.go). -/
def readMetrics (w : World) (path : String) : Eff (List MetricFamily × Option GoError) := do
  match ← osReadFile w path with
  | .error err => return ([], some err)
  | .ok content =>
    let (families, err) := w.TextToMetricFamilies content
    if let some err := err then
      return ([], some (.wrap "parsing: %w" [] err))
    return (families.values, none)

/-- Source type `gatherer` (metrics.go): a slice of metric families. -/
abbrev gatherer := List MetricFamily

/-- Source method `gatherer.Gather` (metrics.go). -/
def gatherer.Gather (g : gatherer) : List MetricFamily × Option GoError :=
  (g, none)

/-- The results of `n` successive calls of `Gather` on the snapshot `g`, and
the snapshot after them.  The receiver is passed by value and the method body
assigns nothing, so each call is made on the snapshot the previous one left. -/
def gatherTimes (g : gatherer) : Nat → List (List MetricFamily × Option GoError) × gatherer
  | 0 => ([], g)
  | n + 1 =>
    let result := g.Gather
    let (results, g) := gatherTimes g n
    (result :: results, g)

/-! ## program.go: construction -/

/-- Source type `programOptions` (program.go).  `Retries` is a Go `uint`,
`RetryDelay` a `time.Duration` in nanoseconds. -/
structure programOptions where
  URL : String
  RootCAFile : String
  CertFile : String
  KeyFile : String
  Retries : Nat
  RetryDelay : Int
  Job : String
  Instance : String
  MetricsFile : String
deriving DecidableEq, Repr

/-- Go constant `tls.VersionTLS12`. -/
def VersionTLS12 : Nat := 0x0303

/-- The fields of `tls.Config` that `newProgram` sets.  `RootCAs = none` is the
nil pool, which makes the TLS stack use the host's root CA set. -/
structure TLSConfig where
  MinVersion : Nat
  RootCAs : Option (List Certificate)
  Certificates : List KeyPair
deriving DecidableEq, Repr

/-- The state of a `push.Pusher` after the builder calls `newProgram` makes:
`push.New(url, job)`, `Client`, `Gatherer` and `Grouping`.  `url` and `job` are
the arguments handed to `push.New`, `client` the TLS configuration of the HTTP
client. -/
structure Pusher where
  url : String
  job : String
  client : TLSConfig
  gatherer : gatherer
  grouping : List (String × String)
deriving DecidableEq, Repr

/-- Source type `program` (program.go). -/
structure program where
  retries : Nat
  retryDelay : Int
  pusher : Pusher
deriving DecidableEq, Repr

/-- Go `tls.LoadX509KeyPair`: reads the certificate file, then the key file,
then pairs them with `tls.X509KeyPair`. -/
def LoadX509KeyPair (w : World) (certFile keyFile : String) : Eff (Except GoError KeyPair) := do
  match ← osReadFile w certFile with
  | .error err => return .error err
  | .ok certPEMBlock =>
    match ← osReadFile w keyFile with
    | .error err => return .error err
    | .ok keyPEMBlock => return w.X509KeyPair certPEMBlock keyPEMBlock

/-- Go `(*x509.CertPool).AppendCertsFromPEM`: adds every certificate found in
the PEM data and reports whether at least one was found. -/
def AppendCertsFromPEM (w : World) (pool : List Certificate) (pemCerts : Bytes) :
    List Certificate × Bool :=
  (pool ++ w.pemCertificates pemCerts, !(w.pemCertificates pemCerts).isEmpty)

/-- Library function `push.New` followed by the builder calls `Client` and
`Gatherer`, as `newProgram` chains them. -/
def Pusher.New (url job : String) (client : TLSConfig) (g : Prompush.gatherer) : Pusher :=
  { url := url, job := job, client := client, gatherer := g, grouping := [] }

/-- Library method `Pusher.Grouping`. -/
def Pusher.Grouping (p : Pusher) (name value : String) : Pusher :=
  { p with grouping := p.grouping ++ [(name, value)] }

/-- The block `if opts.RootCAFile != ""` of `newProgram` (program.go, lines
98 to 111): the TLS configuration it leaves, or the error `newProgram` returns
from inside it. -/
def newProgram.rootCAs (w : World) (opts : programOptions) (tlsConfig : TLSConfig) :
    Eff (Except GoError TLSConfig) := do
  if opts.RootCAFile ≠ "" then
    match ← osReadFile w opts.RootCAFile with
    | .error err => return .error (.wrap "CA certificate file: %w" [] err)
    | .ok content =>
      let (pool, ok) := AppendCertsFromPEM w [] content
      if !ok then
        emit (.log "WARNING: Failed to parse CA certificates read from %q." [opts.RootCAFile])
      return .ok { tlsConfig with RootCAs := some pool }
  else
    return .ok tlsConfig

/-- The block `if opts.CertFile != "" || opts.KeyFile != ""` of `newProgram`
(program.go, lines 113 to 120): the TLS configuration it leaves, or the error
`newProgram` returns from inside it.  The format of that error names the key
first and the certificate second while its arguments are the certificate file
and then the key file, so the message prints each under the label of the
other; the order of the source is kept here. -/
def newProgram.clientCertificate (w : World) (opts : programOptions) (tlsConfig : TLSConfig) :
    Eff (Except GoError TLSConfig) := do
  if opts.CertFile ≠ "" ∨ opts.KeyFile ≠ "" then
    match ← LoadX509KeyPair w opts.CertFile opts.KeyFile with
    | .error err =>
      return .error (.wrap "loading client key %q, certificate %q: %w"
        [opts.CertFile, opts.KeyFile] err)
    | .ok clientCert =>
      return .ok { tlsConfig with Certificates := tlsConfig.Certificates ++ [clientCert] }
  else
    return .ok tlsConfig

/-- The rest of `newProgram` once the HTTP client is built (program.go, lines
128 to 145). -/
def newProgram.push (w : World) (opts : programOptions) (parsedUrl : String)
    (tlsConfig : TLSConfig) : Eff (Option program × Option GoError) := do
  let (metrics, err) ← readMetrics w opts.MetricsFile
  match err with
  | some err => return (none, some (.wrap "metrics from %q: %w" [opts.MetricsFile] err))
  | none =>
    let pusher := Pusher.New parsedUrl opts.Job tlsConfig metrics
    let pusher := if opts.Instance ≠ "" then pusher.Grouping "instance" opts.Instance else pusher
    return (some { retries := opts.Retries, retryDelay := opts.RetryDelay, pusher := pusher },
      none)

/-- Source function `newProgram` (program.go).  Its two TLS blocks and its tail
are the three definitions above, run in source order; an error returned from
inside a block is returned here. -/
def newProgram (w : World) (opts : programOptions) : Eff (Option program × Option GoError) := do
  if opts.URL = "" then
    return (none, some (.msg "gateway URL is required"))
  if opts.Job = "" then
    return (none, some (.msg "job name is required"))
  if opts.MetricsFile = "" then
    return (none, some (.msg "metrics file is required"))
  match w.Parse opts.URL with
  | .error err => return (none, some (.wrap "gateway URL: %w" [] err))
  | .ok parsedUrl =>
    let tlsConfig : TLSConfig :=
      { MinVersion := VersionTLS12, RootCAs := none, Certificates := [] }
    match ← newProgram.rootCAs w opts tlsConfig with
    | .error err => return (none, some err)
    | .ok tlsConfig =>
      match ← newProgram.clientCertificate w opts tlsConfig with
      | .error err => return (none, some err)
      | .ok tlsConfig => newProgram.push w opts parsedUrl tlsConfig

/-- Whether a log contains a file access. -/
def readsAnyFile (log : List Event) : Bool :=
  log.any fun e => match e with
    | .readFile _ => true
    | .log _ _ => false

/-! ## github.com/cenkalti/backoff/v5, as `program.run` uses it

Durations are `time.Duration` values, whole nanoseconds.  The library computes
its intervals in `float64`.  A `float64` value is embedded as the rational
number it denotes, and each floating-point operation of the library is the
exact operation followed by `round64`, the rounding of IEEE 754 binary64: to
the nearest value with a 53-bit significand, ties to the even significand.
Every operation is rounded on its own, as the Go compiler does for amd64; no
multiplication is fused with an addition.  The exponent is not bounded: the
magnitudes that occur (nanosecond counts below `2^63`, factors between `0.1` and
`1.5`, random draws that are multiples of `2^-53`) are far from the overflow and
underflow thresholds of binary64. -/

/-- The number of binary digits of `n`, counting at most `fuel` of them; `n`
itself is fuel enough. -/
def bitLength : Nat → Nat → Nat
  | 0, _ => 0
  | fuel + 1, n => if n = 0 then 0 else bitLength fuel (n / 2) + 1

/-- The exponent `e` with `2^e ≤ x < 2^(e+1)`, for positive `x`: the difference
of the lengths of numerator and denominator, or one less. -/
def binade (x : ℚ) : ℤ :=
  let e : ℤ := (bitLength x.num.natAbs x.num.natAbs : ℤ) - (bitLength x.den x.den : ℤ)
  if x < 2 ^ e then e - 1 else e

/-- The integer nearest to `x`, the even one of the two when `x` is halfway. -/
def roundHalfEven (x : ℚ) : ℤ :=
  let f := ⌊x⌋
  if x - f < 1 / 2 then f
  else if 1 / 2 < x - f then f + 1
  else if f % 2 = 0 then f else f + 1

/-- The `float64` nearest to `x`: `x` is scaled so that its integer part has 53
bits, rounded to an integer, and scaled back. -/
def round64 (x : ℚ) : ℚ :=
  if x = 0 then 0
  else
    let e := binade |x| - 52
    roundHalfEven (x / 2 ^ e) * 2 ^ e

/-- The Go conversion `float64(d)` of a `time.Duration`. -/
def float64 (d : Int) : ℚ :=
  round64 d

/-- The Go conversion `time.Duration(x)` of a `float64`, which discards the
fraction (truncation toward zero).  For a value outside the range of `int64`
the language leaves the result to the implementation; it is the smallest
`int64` on amd64. -/
def toDuration (x : ℚ) : Int :=
  let t : Int := if 0 ≤ x then ⌊x⌋ else ⌈x⌉
  if -2 ^ 63 ≤ t ∧ t < 2 ^ 63 then t else -2 ^ 63

/-- Nanoseconds in one second. -/
def Second : Int := 1000000000

/-- Nanoseconds in one minute. -/
def Minute : Int := 60 * Second

/-- Nanoseconds in one millisecond. -/
def Millisecond : Int := 1000000

/-- Multiplication of two `int64` values, which wraps around. -/
def mulInt64 (a b : Int) : Int :=
  (a * b + 2 ^ 63) % 2 ^ 64 - 2 ^ 63

/-- Addition of two Go `uint` values (64 bits), which wraps around. -/
def addUint (a b : Nat) : Nat :=
  (a + b) % 2 ^ 64

/-- Library type `ExponentialBackOff`. -/
structure ExponentialBackOff where
  InitialInterval : Int
  RandomizationFactor : ℚ
  Multiplier : ℚ
  MaxInterval : Int
  currentInterval : Int
deriving DecidableEq, Repr

/-- Library constant `Stop`. -/
def Stop : Int := -1

/-- Library constant `DefaultMaxElapsedTime`. -/
def DefaultMaxElapsedTime : Int := 15 * Minute

/-- Library function `NewExponentialBackOff`, with the constants
`DefaultInitialInterval` (500ms), `DefaultRandomizationFactor` (0.5),
`DefaultMultiplier` (1.5) and `DefaultMaxInterval` (60s). -/
def NewExponentialBackOff : ExponentialBackOff :=
  { InitialInterval := 500 * Millisecond
    RandomizationFactor := 1 / 2
    Multiplier := 3 / 2
    MaxInterval := 60 * Second
    currentInterval := 0 }

/-- Library method `ExponentialBackOff.Reset`. -/
def ExponentialBackOff.Reset (b : ExponentialBackOff) : ExponentialBackOff :=
  { b with currentInterval := b.InitialInterval }

/-- Library function `getRandomValueFromInterval`; `random` is the value
`rand.Float64` returned.  The four statements of the source, each `float64`
operation rounded. -/
def getRandomValueFromInterval (randomizationFactor random : ℚ) (currentInterval : Int) : Int :=
  if randomizationFactor = 0 then
    currentInterval
  else
    let delta := round64 (randomizationFactor * float64 currentInterval)
    let minInterval := round64 (float64 currentInterval - delta)
    let maxInterval := round64 (float64 currentInterval + delta)
    toDuration (round64 (minInterval +
      round64 (random * round64 (round64 (maxInterval - minInterval) + 1))))

/-- Library method `ExponentialBackOff.incrementCurrentInterval`. -/
def ExponentialBackOff.incrementCurrentInterval (b : ExponentialBackOff) :
    ExponentialBackOff :=
  if float64 b.currentInterval ≥ round64 (float64 b.MaxInterval / b.Multiplier) then
    { b with currentInterval := b.MaxInterval }
  else
    { b with currentInterval := toDuration (round64 (float64 b.currentInterval * b.Multiplier)) }

/-- Library method `ExponentialBackOff.NextBackOff`, given the random draw. -/
def ExponentialBackOff.NextBackOff (b : ExponentialBackOff) (random : ℚ) :
    Int × ExponentialBackOff :=
  let b := if b.currentInterval = 0 then { b with currentInterval := b.InitialInterval } else b
  let next := getRandomValueFromInterval b.RandomizationFactor random b.currentInterval
  (next, b.incrementCurrentInterval)

/-- What an operation passed to `Retry` returns as its error: an ordinary error
or one wrapped by `backoff.Permanent`. -/
inductive OpError where
  | transient (err : GoError)
  | permanent (err : GoError)
deriving DecidableEq, Repr

/-- The error inside an `OpError`.  `program.run` never marks an error as
permanent, so the loop below only ever unwraps ordinary errors. -/
def OpError.unwrap : OpError → GoError
  | .transient err => err
  | .permanent err => err

/-- Library type `retryOptions`, without the timer.  `Notify` tells whether a
notify function is installed; the one `program.run` installs only logs its
two arguments. -/
structure retryOptions where
  BackOff : ExponentialBackOff
  Notify : Bool
  MaxTries : Nat
  MaxElapsedTime : Int
deriving DecidableEq, Repr

/-- What surrounds one call of `Retry`. -/
structure RetryEnv where
  /-- The error of the n-th execution of the operation, counted from 1; `none`
  is success. -/
  operation : Nat → Option OpError
  /-- Nanoseconds the n-th execution of the operation takes. -/
  latency : Nat → Nat
  /-- The n-th value of `rand.Float64`, counted from 0, as its numerator over
  `2^53`: the function returns a multiple of `2^-53`. -/
  Float64 : Nat → Nat
  /-- Go `rand.Float64` returns a value in `[0, 1)`. -/
  Float64_lt : ∀ n, Float64 n < 2 ^ 53
  /-- The instant, in nanoseconds after `Retry` starts, at which the context is
  cancelled, with the error `ctx.Err()` then reports; `none` for a context that
  is never cancelled, such as `context.Background()`.  A cancellation at the
  very instant the timer fires is taken to lose against the timer. -/
  cancel : Option (Nat × GoError)

/-- What `Retry` does between its call and its return, as seen from outside:
it executes the operation for the n-th time, or it starts the timer with a
duration and waits for it. -/
inductive Step where
  | attempt (n : Nat)
  | wait (d : Int)
deriving DecidableEq, Repr

/-- Running state of the loop in `Retry`. -/
structure RetryState where
  numTries : Nat
  /-- Nanoseconds since `startedAt`. -/
  now : Nat
  BackOff : ExponentialBackOff
  /-- Number of random draws so far. -/
  draws : Nat
  /-- Arguments of the calls of the notify function, in order. -/
  notified : List (GoError × Int)
  /-- Durations the timer was started with, in order. -/
  slept : List Int
  /-- The executions of the operation and the waits so far, in program order. -/
  trace : List Step
deriving DecidableEq, Repr

/-- Outcome of `Retry`: the error returned, the number of executions of the
operation, the notifications made, the delays waited, and the executions and
waits in the order they happened. -/
structure RetryResult where
  err : Option GoError
  tries : Nat
  notified : List (GoError × Int)
  slept : List Int
  trace : List Step
deriving DecidableEq, Repr

/-- The result for a loop leaving in state `s` with error `err`. -/
def RetryState.finish (s : RetryState) (err : Option GoError) : RetryResult :=
  { err := err, tries := s.numTries, notified := s.notified, slept := s.slept,
    trace := s.trace }

/-- Go `ctx.Err()` at instant `now`. -/
def RetryEnv.ctxErr (env : RetryEnv) (now : Nat) : Option GoError :=
  match env.cancel with
  | some (instant, err) => if instant ≤ now then some err else none
  | none => none

/-- The loop of library function `Retry`, entered with `s.numTries` the number
of the execution about to start.  Each unit of `fuel` pays for one iteration;
`none` means the fuel ran out. -/
def retryLoop (env : RetryEnv) (args : retryOptions) : Nat → RetryState → Option RetryResult
  | 0, _ => none
  | fuel + 1, s =>
    -- res, err := operation()
    let s := { s with now := s.now + env.latency s.numTries,
                      trace := s.trace ++ [Step.attempt s.numTries] }
    match env.operation s.numTries with
    | none => some (s.finish none)
    | some err =>
      -- Stop retrying if maximum tries exceeded.
      if args.MaxTries > 0 ∧ s.numTries ≥ args.MaxTries then
        some (s.finish (some err.unwrap))
      else
        match err with
        -- Handle permanent errors without retrying.
        | .permanent inner => some (s.finish (some inner))
        | .transient e =>
          -- Stop retrying if context is cancelled.
          match env.ctxErr s.now with
          | some ctxErr => some (s.finish (some ctxErr))
          | none =>
            -- Calculate next backoff duration.
            let (next, b) := s.BackOff.NextBackOff ((env.Float64 s.draws : ℚ) / 2 ^ 53)
            let s := { s with BackOff := b, draws := s.draws + 1 }
            if next = Stop then
              some (s.finish (some e))
            -- Stop retrying if maximum elapsed time exceeded.
            else if args.MaxElapsedTime > 0 ∧ (s.now : Int) + next > args.MaxElapsedTime then
              some (s.finish (some e))
            else
              -- Notify on error if a notifier function is provided.
              let s := if args.Notify then { s with notified := s.notified ++ [(e, next)] } else s
              -- Wait for the next backoff period or context cancellation.
              let s := { s with slept := s.slept ++ [next], trace := s.trace ++ [Step.wait next] }
              match env.ctxErr (s.now + next.toNat - 1) with
              | some ctxErr => some (s.finish (some ctxErr))
              | none =>
                retryLoop env args fuel
                  { s with now := s.now + next.toNat, numTries := s.numTries + 1 }

/-- Library function `Retry` with the options `WithBackOff`, `WithNotify` and
`WithMaxTries` applied over the defaults. -/
def Retry (env : RetryEnv) (b : ExponentialBackOff) (maxTries : Nat) (fuel : Nat) :
    Option RetryResult :=
  let args : retryOptions :=
    { BackOff := b, Notify := true, MaxTries := maxTries,
      MaxElapsedTime := DefaultMaxElapsedTime }
  retryLoop env args fuel
    { numTries := 1, now := 0, BackOff := args.BackOff.Reset, draws := 0,
      notified := [], slept := [], trace := [] }

/-! ## program.go: run -/

/-- Source function `isRetryable` (program.go). -/
def isRetryable (_err : GoError) : Bool :=
  true

/-- What surrounds one call of `program.run`. -/
structure RunEnv where
  /-- The error of the n-th call of `PushContext` on the pusher, counted from
  1; `none` is a successful push. -/
  PushContext : Pusher → Nat → Option GoError
  /-- Nanoseconds the n-th push takes. -/
  latency : Nat → Nat
  /-- Numerator over `2^53` of the n-th value of `rand.Float64`. -/
  Float64 : Nat → Nat
  /-- Go `rand.Float64` returns a value in `[0, 1)`. -/
  Float64_lt : ∀ n, Float64 n < 2 ^ 53
  /-- Cancellation of the context passed to `run`. -/
  cancel : Option (Nat × GoError)

/-- The closure `op` of `program.run`. -/
def program.op (p : program) (env : RunEnv) (n : Nat) : Option OpError :=
  match env.PushContext p.pusher n with
  | none => none
  | some err => if !isRetryable err then some (.permanent err) else some (.transient err)

/-- Source method `program.run` (program.go).  The constant `0.1` of the source
is the `float64` nearest to one tenth. -/
def program.run (p : program) (env : RunEnv) (fuel : Nat) : Option RetryResult :=
  let b := NewExponentialBackOff
  let b := { b with InitialInterval := p.retryDelay }
  let b := { b with MaxInterval := mulInt64 10 p.retryDelay }
  let b := { b with RandomizationFactor := round64 (1 / 10) }
  Retry
    { operation := p.op env, latency := env.latency, Float64 := env.Float64,
      Float64_lt := env.Float64_lt, cancel := env.cancel }
    b (addUint 1 p.retries) fuel

/-! ## Configuration: github.com/caarlos0/env/v11 and package flag -/

/-- The string conversions consulted while options are resolved. -/
structure Conversions where
  /-- The parser `env` applies to the text of a `uint` field. -/
  envUint : String → Except GoError Nat
  /-- The parser `flag` applies to the text of a `uint` flag;
  the error is what `Set` returns. -/
  flagUint : String → Except GoError Nat
  /-- The number `strconv.ParseUint` hands back together with an error: 0 for
  text that is no number, the largest `uint` for a number out of range. -/
  flagUintFailed : String → Nat
  /-- Go `time.ParseDuration`. -/
  ParseDuration : String → Except GoError Int

/-- Library function `getOr` of `env`: the text for a key, whether the key
exists and whether the text is the default. -/
def getOr (key defaultValue : String) (defExists : Bool) (envs : String → Option String) :
    String × Bool × Bool :=
  let value := (envs key).getD ""
  let present := (envs key).isSome
  if (!present || key = "") && defExists then
    (defaultValue, true, true)
  else if present && value = "" && defExists then
    (defaultValue, true, true)
  else if !present then
    ("", false, false)
  else
    (value, true, false)

/-- The struct tags of one field of `programOptions` and the store into it. -/
structure FieldParams where
  OwnKey : String
  DefaultValue : String
  HasDefaultValue : Bool
  set : String → programOptions → Except GoError programOptions

/-- Library type `env.Options`: the fields `registerFlags` fills in. -/
structure Options where
  Environment : String → Option String
  Prefix : String

/-- Library function `setField` of `env` for one field: look the text up and,
when it is not empty, convert and store it; a failed conversion is reported
as the parse error of the field. -/
def setField (opts : Options) (f : FieldParams) (o : programOptions) :
    programOptions × Option GoError :=
  let (value, _, _) := getOr (opts.Prefix ++ f.OwnKey) f.DefaultValue f.HasDefaultValue
    opts.Environment
  if value ≠ "" then
    match f.set value o with
    | .ok o => (o, none)
    | .error err => (o, some (.wrap "parse error on field: %v" [f.OwnKey] err))
  else
    (o, none)

/-- The tagged fields of `programOptions` (program.go), in declaration order. -/
def programOptions.fields (c : Conversions) : List FieldParams :=
  [ ⟨"URL", "", false, fun v o => .ok { o with URL := v }⟩,
    ⟨"CACERT_FILE", "", false, fun v o => .ok { o with RootCAFile := v }⟩,
    ⟨"CERT_FILE", "", false, fun v o => .ok { o with CertFile := v }⟩,
    ⟨"KEY_FILE", "", false, fun v o => .ok { o with KeyFile := v }⟩,
    ⟨"RETRIES", "2", true, fun v o => (c.envUint v).map fun n => { o with Retries := n }⟩,
    ⟨"RETRY_DELAY", "10s", true,
      fun v o => (c.ParseDuration v).map fun d => { o with RetryDelay := d }⟩,
    ⟨"JOB_NAME", "", false, fun v o => .ok { o with Job := v }⟩,
    ⟨"INSTANCE_NAME", "", false, fun v o => .ok { o with Instance := v }⟩,
    ⟨"METRICS_FILE", "", false, fun v o => .ok { o with MetricsFile := v }⟩ ]

/-- The loop of library function `doParse` of `env`: every field is processed,
the errors are collected. -/
def doParse (opts : Options) : List FieldParams → programOptions → programOptions × List GoError
  | [], o => (o, [])
  | f :: fs, o =>
    match setField opts f o with
    | (o, none) => doParse opts fs o
    | (o, some err) =>
      let (o, errs) := doParse opts fs o
      (o, err :: errs)

/-- An `env.AggregateError` with the given errors. -/
def aggregateError : List GoError → GoError
  | [] => .aggregateNil
  | e :: es => .aggregateCons e (aggregateError es)

/-- Library function `env.ParseWithOptions` on a `*programOptions`. -/
def ParseWithOptions (c : Conversions) (o : programOptions) (opts : Options) :
    programOptions × Option GoError :=
  match doParse opts (programOptions.fields c) o with
  | (o, []) => (o, none)
  | (o, errs) => (o, some (aggregateError errs))

/-- The `flag.Value` implementations `registerFlags` creates, each holding the
store through its pointer into the options. -/
inductive Value where
  | stringValue (p : String → programOptions → programOptions)
  | uintValue (p : Nat → programOptions → programOptions)
  | durationValue (p : Int → programOptions → programOptions)

/-- Method `Set` of the three `flag.Value` implementations.  The number and the
duration are stored through the pointer before the error is returned: after a
failed conversion the option holds what the conversion handed back, which for
`time.ParseDuration` is 0. -/
def Value.Set (c : Conversions) : Value → String → programOptions →
    programOptions × Option GoError
  | .stringValue p, s, o => (p s o, none)
  | .uintValue p, s, o =>
    match c.flagUint s with
    | .ok v => (p v o, none)
    | .error err => (p (c.flagUintFailed s) o, some err)
  | .durationValue p, s, o =>
    match c.ParseDuration s with
    | .ok v => (p v o, none)
    | .error _ => (p 0 o, some (.msg "parse error"))

/-- Library type `flag.Flag`: name and value. -/
structure Flag where
  Name : String
  Value : Value

/-- Library type `flag.FlagSet`: the defined flags, latest first, and the
arguments left after parsing. -/
structure FlagSet where
  formal : List Flag
  args : List String

/-- Go `flag.NewFlagSet`. -/
def NewFlagSet : FlagSet :=
  { formal := [], args := [] }

/-- Library method `FlagSet.Var`. -/
def FlagSet.Var (fs : FlagSet) (value : Value) (name : String) : FlagSet :=
  { fs with formal := ⟨name, value⟩ :: fs.formal }

/-- Library method `FlagSet.StringVar`: stores the default through the pointer
and defines the flag. -/
def FlagSet.StringVar (fs : FlagSet) (p : String → programOptions → programOptions)
    (name : String) (value : String) (o : programOptions) : FlagSet × programOptions :=
  (fs.Var (.stringValue p) name, p value o)

/-- Library method `FlagSet.UintVar`. -/
def FlagSet.UintVar (fs : FlagSet) (p : Nat → programOptions → programOptions)
    (name : String) (value : Nat) (o : programOptions) : FlagSet × programOptions :=
  (fs.Var (.uintValue p) name, p value o)

/-- Library method `FlagSet.DurationVar`. -/
def FlagSet.DurationVar (fs : FlagSet) (p : Int → programOptions → programOptions)
    (name : String) (value : Int) (o : programOptions) : FlagSet × programOptions :=
  (fs.Var (.durationValue p) name, p value o)

/-- The lookup `f.formal[name]`. -/
def FlagSet.lookup (fs : FlagSet) (name : String) : Option Flag :=
  fs.formal.find? fun f => f.Name = name

/-- The loop of `parseOne` that cuts `name` at its first `=` after the first
character: the name, and the value when there is one. -/
def cutValue : List Char → List Char × Option (List Char)
  | [] => ([], none)
  | c :: cs =>
    if c = '=' then ([], some cs)
    else
      let (name, value) := cutValue cs
      (c :: name, value)

/-- Library method `FlagSet.Parse` with error handling `ContinueOnError`: the
loop over `parseOne`, on the arguments still to read.  The bytes `parseOne`
tests are ASCII, so reading characters instead of bytes changes nothing.
Returns the options, the arguments left over and the error. -/
def FlagSet.parseArgs (c : Conversions) (fs : FlagSet) :
    List String → programOptions → programOptions × List String × Option GoError
  | [], o => (o, [], none)
  | s :: rest, o =>
    match s.toList with
    | '-' :: c1 :: cs =>
      if c1 = '-' ∧ cs = [] then
        -- "--" terminates the flags
        (o, rest, none)
      else
        let name := if c1 = '-' then cs else c1 :: cs
        match name with
        | [] => (o, s :: rest, some (.msg ("bad flag syntax: " ++ s)))
        | n0 :: ns =>
          if n0 = '-' ∨ n0 = '=' then
            (o, s :: rest, some (.msg ("bad flag syntax: " ++ s)))
          else
            -- it's a flag. does it have an argument?
            let (tail, value) := cutValue ns
            let name := String.mk (n0 :: tail)
            match fs.lookup name with
            | none =>
              if name = "help" ∨ name = "h" then
                (o, rest, some (.msg "flag: help requested"))
              else
                (o, rest, some (.msg ("flag provided but not defined: -" ++ name)))
            | some flag =>
              -- It must have a value, which might be the next argument.
              match value, rest with
              | some v, rest =>
                match flag.Value.Set c (String.mk v) o with
                | (o, some err) =>
                  (o, rest, some (.wrap "invalid value %q for flag -%s: %v" [String.mk v, name] err))
                | (o, none) => parseArgs c fs rest o
              | none, v :: rest =>
                match flag.Value.Set c v o with
                | (o, some err) =>
                  (o, rest, some (.wrap "invalid value %q for flag -%s: %v" [v, name] err))
                | (o, none) => parseArgs c fs rest o
              | none, [] => (o, [], some (.msg ("flag needs an argument: -" ++ name)))
    | _ => (o, s :: rest, none)

/-- Library method `FlagSet.Parse`. -/
def FlagSet.Parse (c : Conversions) (fs : FlagSet) (arguments : List String)
    (o : programOptions) : programOptions × FlagSet × Option GoError :=
  let (o, args, err) := fs.parseArgs c arguments o
  (o, { fs with args := args }, err)

/-- Source method `programOptions.registerFlags` (program.go).  The receiver is
a pointer, so the updated options are returned with the error, and so is the
flag set. -/
def programOptions.registerFlags (c : Conversions) (o : programOptions) (fs : FlagSet)
    (environ : String → Option String) : programOptions × FlagSet × Option GoError :=
  match ParseWithOptions c o { Environment := environ, Prefix := "PROMPUSH_" } with
  | (o, some err) => (o, fs, some err)
  | (o, none) =>
    let (fs, o) := fs.StringVar (fun v o => { o with URL := v }) "gateway" o.URL o
    let (fs, o) := fs.StringVar (fun v o => { o with RootCAFile := v }) "cacert" o.RootCAFile o
    let (fs, o) := fs.StringVar (fun v o => { o with CertFile := v }) "cert" o.CertFile o
    let (fs, o) := fs.StringVar (fun v o => { o with KeyFile := v }) "key" o.KeyFile o
    let (fs, o) := fs.UintVar (fun v o => { o with Retries := v }) "retries" o.Retries o
    let (fs, o) := fs.DurationVar (fun v o => { o with RetryDelay := v }) "retry_delay"
      o.RetryDelay o
    let (fs, o) := fs.StringVar (fun v o => { o with Job := v }) "job" o.Job o
    let (fs, o) := fs.StringVar (fun v o => { o with Instance := v }) "instance" o.Instance o
    let (fs, o) := fs.StringVar (fun v o => { o with MetricsFile := v }) "metrics"
      o.MetricsFile o
    (o, fs, none)

/-- The zero value of `programOptions`, as `var opts programOptions` declares it. -/
def programOptions.zero : programOptions :=
  { URL := "", RootCAFile := "", CertFile := "", KeyFile := "", Retries := 0,
    RetryDelay := 0, Job := "", Instance := "", MetricsFile := "" }

/-! ## Sample surroundings, taken from the repository's tests -/

/-- The bytes of `"foo 1\nbar 2\n"`, the valid content of `TestReadMetrics`. -/
def fooBarContent : Bytes :=
  [102, 111, 111, 32, 49, 10, 98, 97, 114, 32, 50, 10]

/-- The bytes of `"hello<world>\x7b nope"`, the bad content of `TestReadMetrics`. -/
def badContent : Bytes :=
  [104, 101, 108, 108, 111, 60, 119, 111, 114, 108, 100, 62, 123, 32, 110, 111, 112, 101]

/-- The families the text parser returns for `fooBarContent`: two untyped
metrics with one sample each. -/
def fooBarFamilies : FamilyMap :=
  ⟨[("foo", ⟨"foo", ["foo 1"]⟩), ("bar", ⟨"bar", ["bar 2"]⟩)], by decide⟩

/-- What the text parser has collected when it gives up on `badContent`: it
has read the name `hello`, created the family and added a sample to it, and
then fails to read `<world>\x7b` as the value of the sample. -/
def helloFamilies : FamilyMap :=
  ⟨[("hello", ⟨"hello", ["hello"]⟩)], by decide⟩

/-- The error of the text parser on `badContent`. -/
def badContentError : GoError :=
  .msg "text format parsing error in line 1: expected float as value, got \"<world>\x7b\""

/-- A world with three metrics files and one certificate file without any
certificate in it.  `ReadFile`, `Parse` and `TextToMetricFamilies` answer as the
Go library does on the inputs listed and with an error on any other input; no
input holds a certificate or a key. -/
def sampleWorld : World where
  ReadFile := fun path =>
    if path = "/tmp/metrics/valid" then .ok fooBarContent
    else if path = "/tmp/metrics/empty" then .ok []
    else if path = "/tmp/metrics/bad" then .ok badContent
    else if path = "/tmp/garbage.pem" then .ok [222, 173, 190, 239]
    else .error (.msg "no such file or directory")
  Parse := fun rawURL =>
    if rawURL = "http://localhost:9091" ∨ rawURL = "pushgateway" then .ok rawURL
    else .error (.msg "not in the table")
  pemCertificates := fun _ => []
  X509KeyPair := fun _ _ => .error (.msg "tls: failed to find any PEM data in certificate input")
  TextToMetricFamilies := fun content =>
    if content = fooBarContent then (fooBarFamilies, none)
    else if content = [] then (FamilyMap.empty, none)
    else if content = badContent then (helloFamilies, some badContentError)
    else (FamilyMap.empty, some (.msg "not in the table"))

/-- Options naming the gateway, a job and the valid metrics file. -/
def sampleOptions : programOptions :=
  { programOptions.zero with
    URL := "http://localhost:9091", Job := "backup", MetricsFile := "/tmp/metrics/valid" }

/-! ## The backoff schedule of `program.run` -/

/-- The interval the backoff of `program.run` is at when it computes its n-th
delay, counted from 0: it starts at `retryDelay`, is multiplied by 1.5 and cut
to whole nanoseconds after each delay, and is capped at `10 * retryDelay`. -/
def nominalInterval (retryDelay : Int) : Nat → Int
  | 0 => retryDelay
  | n + 1 => min (nominalInterval retryDelay n * 3 / 2) (10 * retryDelay)

/-- The interval the specification gives for the n-th delay, counted from 0:
`retryDelay` doubled n times and capped at `10 * retryDelay`. -/
def doublingInterval (retryDelay : Int) (n : Nat) : Int :=
  min (retryDelay * 2 ^ n) (10 * retryDelay)

/-- The backoff of `program.run` after it has computed `n` delays. -/
def backOffAfter (retryDelay : Int) (n : Nat) : ExponentialBackOff :=
  { InitialInterval := retryDelay
    RandomizationFactor := round64 (1 / 10)
    Multiplier := 3 / 2
    MaxInterval := 10 * retryDelay
    currentInterval := nominalInterval retryDelay n }

/-- The trace of executions of the operation that were each followed by the
wait for a delay, for the given delays, the first execution being number
`first`. -/
def attemptsAndWaits : Nat → List Int → List Step
  | _, [] => []
  | first, d :: ds => .attempt first :: .wait d :: attemptsAndWaits (first + 1) ds

/-- The n-th delay of `program.run`, counted from 0, for the given random draws. -/
def jitteredDelay (draw : Nat → Nat) (retryDelay : Int) (n : Nat) : Int :=
  getRandomValueFromInterval (round64 (1 / 10)) ((draw n : ℚ) / 2 ^ 53)
    (nominalInterval retryDelay n)

/-- A pusher for the sample gateway. -/
def samplePusher : Pusher :=
  Pusher.New "http://localhost:9091" "backup"
    { MinVersion := VersionTLS12, RootCAs := none, Certificates := [] } []

/-- An endpoint that answers every push with status 418 after one millisecond;
every random draw is 0.75 and the context is never cancelled. -/
def teapotForever : RunEnv where
  PushContext := fun _ _ => some (.msg "unexpected status code 418")
  latency := fun _ => 1000000
  Float64 := fun _ => 3 * 2 ^ 51
  Float64_lt := fun _ => (by decide : 3 * 2 ^ 51 < 2 ^ 53)
  cancel := none

/-- The endpoint that always fails, with every random draw the largest
`float64` below 1. -/
def teapotLargestDraw : RunEnv where
  PushContext := fun _ _ => some (.msg "unexpected status code 418")
  latency := fun _ => 1000000
  Float64 := fun _ => 2 ^ 53 - 1
  Float64_lt := fun _ => (by decide : 2 ^ 53 - 1 < 2 ^ 53)
  cancel := none

/-- The endpoint of `TestProgramRun`: status 418 for the first push, success
afterwards. -/
def teapotOnce : RunEnv where
  PushContext := fun _ n => if n = 1 then some (.msg "unexpected status code 418") else none
  latency := fun _ => 1000000
  Float64 := fun _ => 3 * 2 ^ 51
  Float64_lt := fun _ => (by decide : 3 * 2 ^ 51 < 2 ^ 53)
  cancel := none

/-! ## Resolving the options as `main` does -/

/-- The first steps of `main` (main.go), as `TestProgramOptionsRegisterFlags`
repeats them: `registerFlags` on the zero options and a fresh flag set, then
`Parse` on the arguments. -/
def resolveOptions (c : Conversions) (environ : String → Option String)
    (arguments : List String) : programOptions × Option GoError :=
  match programOptions.registerFlags c programOptions.zero NewFlagSet environ with
  | (o, _, some err) => (o, some err)
  | (o, fs, none) =>
    let (o, _, err) := fs.Parse c arguments o
    (o, err)

/-- The names of the flags `registerFlags` defines. -/
def flagNames : List String :=
  ["gateway", "cacert", "cert", "key", "retries", "retry_delay", "job", "instance", "metrics"]

/-- Command-line arguments supplying the given flags, each as `-name=value`. -/
def renderFlags (flags : List (String × String)) : List String :=
  flags.map fun f => "-" ++ f.1 ++ "=" ++ f.2

/-- The value of the last occurrence of flag `name` among the flags supplied. -/
def lastValue : List (String × String) → String → Option String
  | [], _ => none
  | f :: rest, name =>
    match lastValue rest name with
    | some v => some v
    | none => if f.1 = name then some f.2 else none

/-- The value the specification gives a string option: the flag when supplied,
otherwise the environment variable when set, otherwise the empty string. -/
def stringOption (flags : List (String × String)) (environ : String → Option String)
    (name key : String) : String :=
  match lastValue flags name with
  | some v => v
  | none =>
    match environ key with
    | some v => v
    | none => ""

/-- The number a run of decimal digits denotes, continuing from `acc`. -/
def decimalDigits : List Char → Nat → Option Nat
  | [], acc => some acc
  | ch :: rest, acc =>
    if '0' ≤ ch ∧ ch ≤ '9' then decimalDigits rest (acc * 10 + (ch.toNat - '0'.toNat))
    else none

/-- The number a non-empty text of decimal digits denotes. -/
def decimalNumber (s : String) : Option Nat :=
  match s.toList with
  | [] => none
  | digits => decimalDigits digits 0

/-- Conversions that read decimal digits as a number and know the durations
used in `TestProgramOptionsRegisterFlags`; any other text is an error, and so
is the empty text, as in Go. -/
def sampleConversions : Conversions where
  envUint := fun s =>
    match decimalNumber s with
    | some n => .ok n
    | none => .error (.msg "invalid syntax")
  flagUint := fun s =>
    match decimalNumber s with
    | some n => .ok n
    | none => .error (.msg "parse error")
  flagUintFailed := fun _ => 0
  ParseDuration := fun s =>
    if s = "10s" then .ok (10 * Second)
    else if s = "2h" then .ok (7200 * Second)
    else if s = "4h" then .ok (14400 * Second)
    else .error (.msg "time: invalid duration")

/-- An environment in which `PROMPUSH_RETRIES` is set to the empty string. -/
def emptyRetriesEnviron : String → Option String :=
  fun key => if key = "PROMPUSH_RETRIES" then some "" else none

/-- The environment of the case "env only" of `TestProgramOptionsRegisterFlags`. -/
def testEnviron : String → Option String :=
  fun key =>
    if key = "PROMPUSH_URL" then some "http://localhost:9876"
    else if key = "PROMPUSH_RETRIES" then some "123"
    else if key = "PROMPUSH_RETRY_DELAY" then some "4h"
    else if key = "PROMPUSH_METRICS_FILE" then some "/not/found"
    else none

/-- The flags `registerFlags` has defined when it returns, latest first. -/
def definedFlags : List Flag :=
  [ ⟨"metrics", .stringValue fun v o => { o with MetricsFile := v }⟩,
    ⟨"instance", .stringValue fun v o => { o with Instance := v }⟩,
    ⟨"job", .stringValue fun v o => { o with Job := v }⟩,
    ⟨"retry_delay", .durationValue fun v o => { o with RetryDelay := v }⟩,
    ⟨"retries", .uintValue fun v o => { o with Retries := v }⟩,
    ⟨"key", .stringValue fun v o => { o with KeyFile := v }⟩,
    ⟨"cert", .stringValue fun v o => { o with CertFile := v }⟩,
    ⟨"cacert", .stringValue fun v o => { o with RootCAFile := v }⟩,
    ⟨"gateway", .stringValue fun v o => { o with URL := v }⟩ ]

/-- What supplying one flag does to the options: the store of its value,
converted where the flag is a number or a duration. -/
def applyFlag (c : Conversions) (f : String × String) (o : programOptions) :
    programOptions × Option GoError :=
  match definedFlags.find? fun flag => flag.Name = f.1 with
  | some flag => flag.Value.Set c f.2 o
  | none => (o, some (.msg ("flag provided but not defined: -" ++ f.1)))

/-! # Theorems -/

/-! ## readMetrics and Gather -/

/-- What `readMetrics` does once the file has been read: the log gains the
access, the result is decided by the parser. -/
theorem readMetrics_run (w : World) (path : String) (log : List Event) :
    (readMetrics w path).run log =
      (match w.ReadFile path with
        | .error err => ([], some err)
        | .ok content =>
          match w.TextToMetricFamilies content with
          | (_, some err) => ([], some (.wrap "parsing: %w" [] err))
          | (families, none) => (families.values, none),
       log ++ [.readFile path]) := by
  cases hread : w.ReadFile path with
  | error err => simp [readMetrics, osReadFile, emit, hread]
  | ok content =>
    rcases hparse : w.TextToMetricFamilies content with ⟨families, _ | err⟩ <;>
      simp [readMetrics, osReadFile, emit, hread, hparse]

/-- C7: when the file is readable and the parser accepts its content with the
family map `m`, `readMetrics` returns without error the values of `m`: as many
families as `m` has distinct names, the i-th family being the one `m` holds
under the i-th name, so none is missing and none is duplicated; it has two
families when `m` has two names and is the empty list when `m` is empty, as for
an empty file. -/
theorem readMetrics_one_family_per_name (w : World) (path : String) (log : List Event)
    (content : Bytes) (m : FamilyMap)
    (hread : w.ReadFile path = .ok content)
    (hparse : w.TextToMetricFamilies content = (m, none)) :
    ∃ families,
      (readMetrics w path).run log = ((families, none), log ++ [.readFile path]) ∧
      families.length = m.keys.toFinset.card ∧
      m.keys.Nodup ∧
      m.keys.zip families = m.entries ∧
      (∀ name family, (name, family) ∈ m.entries → family ∈ families) ∧
      (∀ family ∈ families, ∃ name, (name, family) ∈ m.entries) ∧
      (m.keys.length = 2 → families.length = 2) ∧
      (m.entries = [] → families = []) := by
  refine ⟨m.values, ?_, ?_, m.nodup, ?_, ?_, ?_, ?_, ?_⟩
  · rw [readMetrics_run, hread]
    simp [hparse]
  · rw [FamilyMap.keys, List.toFinset_card_of_nodup m.nodup]
    simp [FamilyMap.values]
  · exact (List.zip_of_prod rfl rfl).symm
  · intro name family h
    exact List.mem_map.mpr ⟨(name, family), h, rfl⟩
  · intro family h
    obtain ⟨⟨name, f⟩, hmem, rfl⟩ := List.mem_map.mp h
    exact ⟨name, hmem⟩
  · intro h
    simpa [FamilyMap.values, FamilyMap.keys] using h
  · intro h
    simp [FamilyMap.values, h]

/-- C7 at the contents of `TestReadMetrics`: two families for the valid file,
the empty list for the empty file. -/
theorem readMetrics_one_family_per_name_witness :
    (∃ families,
      (readMetrics sampleWorld "/tmp/metrics/valid").run [] =
        ((families, none), [] ++ [.readFile "/tmp/metrics/valid"]) ∧
      families.length = fooBarFamilies.keys.toFinset.card ∧
      fooBarFamilies.keys.Nodup ∧
      fooBarFamilies.keys.zip families = fooBarFamilies.entries ∧
      (∀ name family, (name, family) ∈ fooBarFamilies.entries → family ∈ families) ∧
      (∀ family ∈ families, ∃ name, (name, family) ∈ fooBarFamilies.entries) ∧
      (fooBarFamilies.keys.length = 2 → families.length = 2) ∧
      (fooBarFamilies.entries = [] → families = [])) ∧
    (readMetrics sampleWorld "/tmp/metrics/valid").run [] =
      (([⟨"foo", ["foo 1"]⟩, ⟨"bar", ["bar 2"]⟩], none), [.readFile "/tmp/metrics/valid"]) ∧
    (readMetrics sampleWorld "/tmp/metrics/empty").run [] =
      (([], none), [.readFile "/tmp/metrics/empty"]) :=
  ⟨readMetrics_one_family_per_name sampleWorld "/tmp/metrics/valid" [] fooBarContent
      fooBarFamilies rfl rfl,
    by rw [readMetrics_run]; rfl, by rw [readMetrics_run]; rfl⟩

/-- C8: when the parser rejects the content of the file with error `e`,
`readMetrics` returns the error `parsing: e` wrapping `e` and the nil list,
whatever families the parser had collected before it failed. -/
theorem readMetrics_parse_error (w : World) (path : String) (log : List Event)
    (content : Bytes) (m : FamilyMap) (e : GoError)
    (hread : w.ReadFile path = .ok content)
    (hparse : w.TextToMetricFamilies content = (m, some e)) :
    (readMetrics w path).run log =
      (([], some (.wrap "parsing: %w" [] e)), log ++ [.readFile path]) := by
  rw [readMetrics_run, hread]
  simp [hparse]

/-- C8 at the bad content of `TestReadMetrics`: the parser fails after it has
collected the family `hello`, and `readMetrics` returns the nil list with the
wrapped error. -/
theorem readMetrics_parse_error_witness :
    (readMetrics sampleWorld "/tmp/metrics/bad").run [] =
      (([], some (.wrap "parsing: %w" [] badContentError)),
        [] ++ [.readFile "/tmp/metrics/bad"]) :=
  readMetrics_parse_error sampleWorld "/tmp/metrics/bad" [] badContent helloFamilies
    badContentError rfl rfl

/-- C9: `Gather` on a snapshot `g` returns `g` and no error, and any number of
calls in a row return that same pair each time and leave the snapshot they are
made on equal to `g`. -/
theorem gather_returns_snapshot (g : gatherer) :
    g.Gather = (g, none) ∧
    ∀ n, gatherTimes g n = (List.replicate n (g, none), g) := by
  refine ⟨rfl, fun n => ?_⟩
  induction n with
  | zero => rfl
  | succ n ih => simp [gatherTimes, ih, gatherer.Gather, List.replicate_succ]

/-! ## newProgram -/

/-- The block of the root CA file, run: what it returns and what it logs. -/
theorem rootCAs_run (w : World) (opts : programOptions) (cfg : TLSConfig) (log : List Event) :
    (newProgram.rootCAs w opts cfg).run log =
      if opts.RootCAFile = "" then (.ok cfg, log)
      else match w.ReadFile opts.RootCAFile with
        | .error err =>
          (.error (.wrap "CA certificate file: %w" [] err), log ++ [.readFile opts.RootCAFile])
        | .ok content =>
          (.ok { cfg with RootCAs := some (w.pemCertificates content) },
            if w.pemCertificates content = [] then
              log ++ [.readFile opts.RootCAFile,
                .log "WARNING: Failed to parse CA certificates read from %q." [opts.RootCAFile]]
            else log ++ [.readFile opts.RootCAFile]) := by
  by_cases h0 : opts.RootCAFile = ""
  · simp [newProgram.rootCAs, h0]
  · rcases hca : w.ReadFile opts.RootCAFile with e | content
    · simp [newProgram.rootCAs, h0, osReadFile, emit, hca]
    · by_cases hp : w.pemCertificates content = []
        <;> simp [newProgram.rootCAs, h0, osReadFile, emit, hca, AppendCertsFromPEM, hp]

/-- The block of the client certificate, run. -/
theorem clientCertificate_run (w : World) (opts : programOptions) (cfg : TLSConfig)
    (log : List Event) :
    (newProgram.clientCertificate w opts cfg).run log =
      if opts.CertFile = "" ∧ opts.KeyFile = "" then (.ok cfg, log)
      else match w.ReadFile opts.CertFile with
        | .error err =>
          (.error (.wrap "loading client key %q, certificate %q: %w"
            [opts.CertFile, opts.KeyFile] err), log ++ [.readFile opts.CertFile])
        | .ok certPEMBlock =>
          match w.ReadFile opts.KeyFile with
          | .error err =>
            (.error (.wrap "loading client key %q, certificate %q: %w"
              [opts.CertFile, opts.KeyFile] err),
              log ++ [.readFile opts.CertFile, .readFile opts.KeyFile])
          | .ok keyPEMBlock =>
            match w.X509KeyPair certPEMBlock keyPEMBlock with
            | .error err =>
              (.error (.wrap "loading client key %q, certificate %q: %w"
                [opts.CertFile, opts.KeyFile] err),
                log ++ [.readFile opts.CertFile, .readFile opts.KeyFile])
            | .ok clientCert =>
              (.ok { cfg with Certificates := cfg.Certificates ++ [clientCert] },
                log ++ [.readFile opts.CertFile, .readFile opts.KeyFile]) := by
  by_cases h0 : opts.CertFile = "" ∧ opts.KeyFile = ""
  · simp [newProgram.clientCertificate, h0]
  · have h1 : ¬opts.CertFile = "" ∨ ¬opts.KeyFile = "" := by tauto
    rcases hc : w.ReadFile opts.CertFile with e | c
    · simp [newProgram.clientCertificate, h0, h1, LoadX509KeyPair, osReadFile, emit, hc]
    · rcases hk : w.ReadFile opts.KeyFile with e | k
      · simp [newProgram.clientCertificate, h0, h1, LoadX509KeyPair, osReadFile, emit, hc, hk]
      · rcases hx : w.X509KeyPair c k with e | pair
          <;> simp [newProgram.clientCertificate, h0, h1, LoadX509KeyPair, osReadFile, emit,
            hc, hk, hx]

/-- The tail of `newProgram`, run. -/
theorem push_run (w : World) (opts : programOptions) (u : String) (cfg : TLSConfig)
    (log : List Event) :
    (newProgram.push w opts u cfg).run log =
      (match (readMetrics w opts.MetricsFile).run log with
        | ((_, some err), _) =>
          (none, some (.wrap "metrics from %q: %w" [opts.MetricsFile] err))
        | ((metrics, none), _) =>
          (some { retries := opts.Retries, retryDelay := opts.RetryDelay,
                  pusher := if opts.Instance ≠ "" then
                      (Pusher.New u opts.Job cfg metrics).Grouping "instance" opts.Instance
                    else Pusher.New u opts.Job cfg metrics }, none),
        log ++ [.readFile opts.MetricsFile]) := by
  rw [readMetrics_run]
  rcases hm : w.ReadFile opts.MetricsFile with e | content
  · simp [newProgram.push, readMetrics, osReadFile, emit, hm]
  · rcases hp : w.TextToMetricFamilies content with ⟨families, _ | err⟩ <;>
      simp [newProgram.push, readMetrics, osReadFile, emit, hm, hp]

/-- An error of the root CA block is a CA-certificate-file error. -/
theorem rootCAs_error (w : World) (opts : programOptions) (cfg : TLSConfig)
    (log : List Event) (err : GoError) (log1 : List Event)
    (h : (newProgram.rootCAs w opts cfg).run log = (.error err, log1)) :
    ∃ e, err = .wrap "CA certificate file: %w" [] e := by
  rw [rootCAs_run] at h
  by_cases h0 : opts.RootCAFile = ""
  · rw [if_pos h0] at h
    cases h
  · rw [if_neg h0] at h
    rcases hca : w.ReadFile opts.RootCAFile with e | content
    · rw [hca] at h
      cases h
      exact ⟨e, rfl⟩
    · rw [hca] at h
      cases h

/-- An error of the client certificate block is a key-loading error. -/
theorem clientCertificate_error (w : World) (opts : programOptions) (cfg : TLSConfig)
    (log : List Event) (err : GoError) (log1 : List Event)
    (h : (newProgram.clientCertificate w opts cfg).run log = (.error err, log1)) :
    ∃ e, err = .wrap "loading client key %q, certificate %q: %w"
      [opts.CertFile, opts.KeyFile] e := by
  rw [clientCertificate_run] at h
  by_cases h0 : opts.CertFile = "" ∧ opts.KeyFile = ""
  · rw [if_pos h0] at h
    cases h
  · rw [if_neg h0] at h
    rcases hc : w.ReadFile opts.CertFile with e | c
    · rw [hc] at h
      cases h
      exact ⟨e, rfl⟩
    · rcases hk : w.ReadFile opts.KeyFile with e | k
      · rw [hc, hk] at h
        cases h
        exact ⟨e, rfl⟩
      · rcases hx : w.X509KeyPair c k with e | pair
        · rw [hc, hk] at h
          simp only [hx] at h
          cases h
          exact ⟨e, rfl⟩
        · rw [hc, hk] at h
          simp only [hx] at h
          cases h

/-- An error of the tail of `newProgram` is a metrics error. -/
theorem push_error (w : World) (opts : programOptions) (u : String) (cfg : TLSConfig)
    (log : List Event) (err : GoError)
    (h : ((newProgram.push w opts u cfg).run log).1.2 = some err) :
    ∃ e, err = .wrap "metrics from %q: %w" [opts.MetricsFile] e := by
  rw [push_run, readMetrics_run] at h
  rcases hm : w.ReadFile opts.MetricsFile with e | content
  · simp [hm] at h
    exact ⟨e, h.symm⟩
  · rcases hp : w.TextToMetricFamilies content with ⟨families, _ | e⟩
    · simp [hm, hp] at h
    · simp [hm, hp] at h
      exact ⟨_, h.symm⟩

/-- How `newProgram` runs once its three checks have passed and the URL has
been parsed. -/
theorem newProgram_run (w : World) (opts : programOptions) (log : List Event) (u : String)
    (hURL : opts.URL ≠ "") (hJob : opts.Job ≠ "") (hMetrics : opts.MetricsFile ≠ "")
    (hu : w.Parse opts.URL = .ok u) :
    (newProgram w opts).run log =
      match (newProgram.rootCAs w opts
        { MinVersion := VersionTLS12, RootCAs := none, Certificates := [] }).run log with
      | (.error err, log) => ((none, some err), log)
      | (.ok cfg, log) =>
        match (newProgram.clientCertificate w opts cfg).run log with
        | (.error err, log) => ((none, some err), log)
        | (.ok cfg, log) => (newProgram.push w opts u cfg).run log := by
  simp only [newProgram, hURL, hJob, hMetrics, hu, if_false]
  simp only [StateT.run_bind]
  rcases h1 : (newProgram.rootCAs w opts
    { MinVersion := VersionTLS12, RootCAs := none, Certificates := [] }).run log with ⟨e | cfg, log1⟩
  · simp [h1]
  · rcases h2 : (newProgram.clientCertificate w opts cfg).run log1 with ⟨e | cfg2, log2⟩
      <;> simp [h1, h2]

/-- C3: when URL, Job or MetricsFile is empty, `newProgram` returns no program
and the error naming the first empty one in that order, and the effect log is
left as it was: no file has been read. -/
theorem newProgram_required_fields (w : World) (opts : programOptions) (log : List Event)
    (h : opts.URL = "" ∨ opts.Job = "" ∨ opts.MetricsFile = "") :
    (newProgram w opts).run log =
      ((none, some (.msg (if opts.URL = "" then "gateway URL is required"
          else if opts.Job = "" then "job name is required"
          else "metrics file is required"))), log) ∧
    readsAnyFile ((newProgram w opts).run []).2 = false := by
  by_cases hURL : opts.URL = ""
  · simp [newProgram, hURL, readsAnyFile]
  · by_cases hJob : opts.Job = ""
    · simp [newProgram, hURL, hJob, readsAnyFile]
    · have hMetrics : opts.MetricsFile = "" := by
        rcases h with h | h | h
        · exact absurd h hURL
        · exact absurd h hJob
        · exact h
      simp [newProgram, hURL, hJob, hMetrics, readsAnyFile]

/-- C3 at options without a gateway URL, the CA file and the metrics file being
named. -/
theorem newProgram_required_fields_witness :
    (newProgram sampleWorld { sampleOptions with URL := "", RootCAFile := "/tmp/garbage.pem" }).run
        [] = ((none, some (.msg "gateway URL is required")), []) ∧
    readsAnyFile ((newProgram sampleWorld
      { sampleOptions with URL := "", RootCAFile := "/tmp/garbage.pem" }).run []).2 = false :=
  newProgram_required_fields sampleWorld
    { sampleOptions with URL := "", RootCAFile := "/tmp/garbage.pem" } [] (Or.inl rfl)

/-- C4, refuted: the gateway URL `pushgateway` has neither scheme nor host, yet
`newProgram` returns a program and no error. -/
theorem newProgram_accepts_relative_url :
    ((newProgram sampleWorld { sampleOptions with URL := "pushgateway" }).run []).1.2 = none ∧
    (((newProgram sampleWorld { sampleOptions with URL := "pushgateway" }).run []).1.1.map
      fun p => p.pusher.url) = some "pushgateway" := by
  constructor <;> rfl

/-- C4, amended: with URL, Job and MetricsFile not empty, `newProgram` fails
with a gateway-URL error exactly when `url.Parse` rejects the URL; the error
wraps the one of `url.Parse`, no program is returned and nothing has been read.
When `url.Parse` accepts the URL, absolute or not, no gateway-URL error is
returned. -/
theorem newProgram_gateway_url (w : World) (opts : programOptions) (log : List Event)
    (hURL : opts.URL ≠ "") (hJob : opts.Job ≠ "") (hMetrics : opts.MetricsFile ≠ "") :
    (∀ e, w.Parse opts.URL = .error e →
      (newProgram w opts).run log = ((none, some (.wrap "gateway URL: %w" [] e)), log)) ∧
    (∀ u, w.Parse opts.URL = .ok u →
      ∀ e, ((newProgram w opts).run log).1.2 ≠ some (.wrap "gateway URL: %w" [] e)) := by
  constructor
  · intro e he
    simp [newProgram, hURL, hJob, hMetrics, he]
  · intro u hu e
    rw [newProgram_run w opts log u hURL hJob hMetrics hu]
    rcases h1 : (newProgram.rootCAs w opts
      { MinVersion := VersionTLS12, RootCAs := none, Certificates := [] }).run log
      with ⟨e1 | cfg, log1⟩
    · obtain ⟨e', rfl⟩ := rootCAs_error w opts _ log e1 log1 h1
      simp
    · rcases h2 : (newProgram.clientCertificate w opts cfg).run log1 with ⟨e2 | cfg2, log2⟩
      · obtain ⟨e', rfl⟩ := clientCertificate_error w opts _ log1 e2 log2 h2
        simp only [h2]
        simp
      · simp only [h2]
        intro h
        obtain ⟨e', he'⟩ := push_error w opts u cfg2 log2 _ h
        simp at he'

/-- C4, amended, where the URL is the relative reference `pushgateway`. -/
theorem newProgram_gateway_url_witness :
    (∀ e, sampleWorld.Parse "pushgateway" = .error e →
      (newProgram sampleWorld { sampleOptions with URL := "pushgateway" }).run [] =
        ((none, some (.wrap "gateway URL: %w" [] e)), [])) ∧
    (∀ u, sampleWorld.Parse "pushgateway" = .ok u →
      ∀ e, ((newProgram sampleWorld { sampleOptions with URL := "pushgateway" }).run []).1.2 ≠
        some (.wrap "gateway URL: %w" [] e)) :=
  newProgram_gateway_url sampleWorld { sampleOptions with URL := "pushgateway" } []
    (by decide) (by decide) (by decide)

/-- The client certificate block only appends to the log. -/
theorem clientCertificate_log (w : World) (opts : programOptions) (cfg : TLSConfig)
    (log : List Event) :
    ∃ reads, ((newProgram.clientCertificate w opts cfg).run log).2 = log ++ reads := by
  rw [clientCertificate_run]
  by_cases h0 : opts.CertFile = "" ∧ opts.KeyFile = ""
  · exact ⟨[], by rw [if_pos h0]; simp⟩
  · rw [if_neg h0]
    rcases hc : w.ReadFile opts.CertFile with e | c
    · exact ⟨_, rfl⟩
    · rcases hk : w.ReadFile opts.KeyFile with e | k
      · exact ⟨_, rfl⟩
      · rcases hx : w.X509KeyPair c k with e | pair
        · exact ⟨[.readFile opts.CertFile, .readFile opts.KeyFile], by simp only [hx]⟩
        · exact ⟨[.readFile opts.CertFile, .readFile opts.KeyFile], by simp only [hx]⟩

/-- The client certificate block leaves the trust roots as they are. -/
theorem clientCertificate_rootCAs (w : World) (opts : programOptions) (cfg cfg2 : TLSConfig)
    (log log2 : List Event)
    (h : (newProgram.clientCertificate w opts cfg).run log = (.ok cfg2, log2)) :
    cfg2.RootCAs = cfg.RootCAs := by
  rw [clientCertificate_run] at h
  by_cases h0 : opts.CertFile = "" ∧ opts.KeyFile = ""
  · rw [if_pos h0] at h
    cases h
    rfl
  · rw [if_neg h0] at h
    rcases hc : w.ReadFile opts.CertFile with e | c
    · rw [hc] at h
      cases h
    · rcases hk : w.ReadFile opts.KeyFile with e | k
      · rw [hc, hk] at h
        cases h
      · rcases hx : w.X509KeyPair c k with e | pair
        · rw [hc, hk] at h
          simp only [hx] at h
          cases h
        · rw [hc, hk] at h
          simp only [hx] at h
          cases h
          rfl

/-- A program returned by the tail of `newProgram` carries the TLS
configuration the tail was given. -/
theorem push_client (w : World) (opts : programOptions) (u : String) (cfg : TLSConfig)
    (log : List Event) (p : program)
    (h : ((newProgram.push w opts u cfg).run log).1.1 = some p) :
    p.pusher.client = cfg := by
  rw [push_run, readMetrics_run] at h
  rcases hm : w.ReadFile opts.MetricsFile with e | content
  · simp [hm] at h
  · rcases hp : w.TextToMetricFamilies content with ⟨families, _ | e⟩
    · simp [hm, hp] at h
      subst h
      by_cases hi : opts.Instance = "" <;> simp [hi, Pusher.New, Pusher.Grouping]
    · simp [hm, hp] at h

/-- C10, refuted: with a CA file that cannot be read, `newProgram` fails with a
CA-certificate-file error and returns no program. -/
theorem newProgram_unreadable_ca_fails :
    (newProgram sampleWorld { sampleOptions with RootCAFile := "/tmp/missing.pem" }).run [] =
      ((none, some (.wrap "CA certificate file: %w" [] (.msg "no such file or directory"))),
        [.readFile "/tmp/missing.pem"]) := by
  rfl

/-- C10, amended: for options that pass the checks of `newProgram` and name a
CA file, a CA file that cannot be read makes `newProgram` fail with a
CA-certificate-file error wrapping the read error; a CA file that is read and
yields no certificate never does: the warning is logged right after the read,
no CA-certificate-file error is returned, every program returned has the empty
pool as its trust root, and a program is returned when no client certificate
is asked for and the metrics file loads. -/
theorem newProgram_ca_file (w : World) (opts : programOptions) (log : List Event) (u : String)
    (hURL : opts.URL ≠ "") (hJob : opts.Job ≠ "") (hMetrics : opts.MetricsFile ≠ "")
    (hu : w.Parse opts.URL = .ok u) (hCA : opts.RootCAFile ≠ "") :
    (∀ e, w.ReadFile opts.RootCAFile = .error e →
      (newProgram w opts).run log =
        ((none, some (.wrap "CA certificate file: %w" [] e)),
          log ++ [.readFile opts.RootCAFile])) ∧
    (∀ content, w.ReadFile opts.RootCAFile = .ok content → w.pemCertificates content = [] →
      (∃ rest, ((newProgram w opts).run log).2 =
        log ++ [.readFile opts.RootCAFile,
          .log "WARNING: Failed to parse CA certificates read from %q." [opts.RootCAFile]]
          ++ rest) ∧
      (∀ e, ((newProgram w opts).run log).1.2 ≠ some (.wrap "CA certificate file: %w" [] e)) ∧
      (∀ p, ((newProgram w opts).run log).1.1 = some p →
        p.pusher.client.RootCAs = some []) ∧
      (opts.CertFile = "" → opts.KeyFile = "" →
        ∀ metrics m, w.ReadFile opts.MetricsFile = .ok metrics →
          w.TextToMetricFamilies metrics = (m, none) →
          ((newProgram w opts).run log).1.2 = none ∧
          (((newProgram w opts).run log).1.1.map fun p => p.pusher.client) =
            some { MinVersion := VersionTLS12, RootCAs := some [], Certificates := [] })) := by
  constructor
  · intro e he
    rw [newProgram_run w opts log u hURL hJob hMetrics hu, rootCAs_run, if_neg hCA, he]
  · intro content hc hpem
    rw [newProgram_run w opts log u hURL hJob hMetrics hu, rootCAs_run, if_neg hCA, hc]
    simp only [hpem, if_true]
    obtain ⟨reads, hreads⟩ := clientCertificate_log w opts
      { MinVersion := VersionTLS12, RootCAs := some [], Certificates := [] }
      (log ++ [.readFile opts.RootCAFile,
          .log "WARNING: Failed to parse CA certificates read from %q." [opts.RootCAFile]])
    rcases h2 : (newProgram.clientCertificate w opts
      { MinVersion := VersionTLS12, RootCAs := some [], Certificates := [] }).run
      (log ++ [.readFile opts.RootCAFile,
          .log "WARNING: Failed to parse CA certificates read from %q." [opts.RootCAFile]])
      with ⟨e2 | cfg2, log2⟩
    · obtain ⟨e', rfl⟩ := clientCertificate_error w opts _ _ e2 log2 h2
      rw [h2] at hreads
      simp only [h2]
      refine ⟨⟨reads, hreads⟩, ?_, ?_, ?_⟩
      · simp
      · simp
      · intro h1 h3
        rw [clientCertificate_run, if_pos ⟨h1, h3⟩] at h2
        cases h2
    · rw [h2] at hreads
      have hroot := clientCertificate_rootCAs w opts _ cfg2 _ log2 h2
      simp only [h2]
      refine ⟨?_, ?_, ?_, ?_⟩
      · refine ⟨reads ++ [.readFile opts.MetricsFile], ?_⟩
        simp only [push_run]
        simp only at hreads
        rw [hreads]
        simp
      · intro e h
        obtain ⟨e', he'⟩ := push_error w opts u cfg2 log2 _ h
        simp at he'
      · intro p hp
        rw [push_client w opts u cfg2 log2 p hp, hroot]
      · intro h1 h3 metrics m hm hp
        rw [clientCertificate_run, if_pos ⟨h1, h3⟩] at h2
        cases h2
        simp only [push_run, readMetrics_run, hm, hp]
        by_cases hi : opts.Instance = "" <;> simp [hi, Pusher.New, Pusher.Grouping]

/-- C10, amended, at the sample CA file, which holds no certificate. -/
theorem newProgram_ca_file_witness :
    ((newProgram sampleWorld { sampleOptions with RootCAFile := "/tmp/garbage.pem" }).run []).1.2
      = none ∧
    (((newProgram sampleWorld { sampleOptions with RootCAFile := "/tmp/garbage.pem" }).run
      []).1.1.map fun p => p.pusher.client) =
        some { MinVersion := VersionTLS12, RootCAs := some [], Certificates := [] } :=
  ((newProgram_ca_file sampleWorld { sampleOptions with RootCAFile := "/tmp/garbage.pem" } []
    "http://localhost:9091" (by decide) (by decide) (by decide) rfl (by decide)).2
    [222, 173, 190, 239] rfl rfl).2.2.2 rfl rfl fooBarContent fooBarFamilies rfl rfl

/-! ## float64 rounding -/

/-- Powers of two are positive. -/
theorem two_zpow_pos (e : ℤ) : (0 : ℚ) < 2 ^ e := zpow_pos (by norm_num) e

/-- With enough fuel the number of binary digits of a positive number is one
more than its binary logarithm. -/
theorem bitLength_eq (fuel n : Nat) (h : n ≤ fuel) (hn : n ≠ 0) :
    bitLength fuel n = Nat.log2 n + 1 := by
  induction fuel generalizing n with
  | zero => omega
  | succ fuel ih =>
    simp only [bitLength, if_neg hn]
    by_cases h2 : 2 ≤ n
    · rw [ih (n / 2) (by omega) (by omega)]
      conv_rhs => rw [Nat.log2]
      rw [if_pos h2]
    · have h1 : n = 1 := by omega
      subst h1
      have h0 : bitLength fuel (1 / 2) = 0 := by
        cases fuel <;> simp [bitLength]
      rw [h0]
      conv_rhs => rw [Nat.log2]
      simp

/-- The binade of a positive number brackets it between two powers of two. -/
theorem binade_spec (x : ℚ) (hx : 0 < x) :
    (2 : ℚ) ^ binade x ≤ x ∧ x < 2 ^ (binade x + 1) := by
  have hnum : 0 < x.num := Rat.num_pos.mpr hx
  have ha0 : x.num.natAbs ≠ 0 := by
    intro h
    rw [Int.natAbs_eq_zero] at h
    omega
  have hb0 : x.den ≠ 0 := x.den_nz
  have ha1 := Nat.log2_self_le ha0
  have ha2 := @Nat.lt_log2_self x.num.natAbs
  have hb1 := Nat.log2_self_le hb0
  have hb2 := @Nat.lt_log2_self x.den
  have hxeq : x = (x.num.natAbs : ℚ) / (x.den : ℚ) := by
    have h2 : ((x.num.natAbs : ℕ) : ℚ) = (x.num : ℚ) := by
      rw [Nat.cast_natAbs, abs_of_pos hnum]
    rw [h2]
    exact (Rat.num_div_den x).symm
  set a := x.num.natAbs with ha
  set b := x.den with hb
  set la := Nat.log2 a with hla
  set lb := Nat.log2 b with hlb
  have hbpos : (0 : ℚ) < b := by exact_mod_cast Nat.pos_of_ne_zero hb0
  have qa1 : (2 : ℚ) ^ (la : ℤ) ≤ a := by
    rw [zpow_natCast]
    exact_mod_cast ha1
  have qa2 : (a : ℚ) < 2 ^ ((la : ℤ) + 1) := by
    rw [show ((la : ℤ) + 1) = ((la + 1 : ℕ) : ℤ) by push_cast; ring, zpow_natCast]
    exact_mod_cast ha2
  have qb1 : (2 : ℚ) ^ (lb : ℤ) ≤ b := by
    rw [zpow_natCast]
    exact_mod_cast hb1
  have qb2 : (b : ℚ) < 2 ^ ((lb : ℤ) + 1) := by
    rw [show ((lb : ℤ) + 1) = ((lb + 1 : ℕ) : ℤ) by push_cast; ring, zpow_natCast]
    exact_mod_cast hb2
  have hlow : (2 : ℚ) ^ ((la : ℤ) - lb - 1) < x := by
    rw [hxeq, lt_div_iff₀ hbpos]
    have h1 : (2 : ℚ) ^ ((la : ℤ) - lb - 1) * 2 ^ ((lb : ℤ) + 1) = 2 ^ (la : ℤ) := by
      rw [← zpow_add₀ (by norm_num : (2 : ℚ) ≠ 0)]
      congr 1
      ring
    calc (2 : ℚ) ^ ((la : ℤ) - lb - 1) * b
        < 2 ^ ((la : ℤ) - lb - 1) * 2 ^ ((lb : ℤ) + 1) :=
          mul_lt_mul_of_pos_left qb2 (two_zpow_pos _)
      _ = 2 ^ (la : ℤ) := h1
      _ ≤ a := qa1
  have hhigh : x < (2 : ℚ) ^ ((la : ℤ) - lb + 1) := by
    rw [hxeq, div_lt_iff₀ hbpos]
    have h1 : (2 : ℚ) ^ ((la : ℤ) - lb + 1) * 2 ^ (lb : ℤ) = 2 ^ ((la : ℤ) + 1) := by
      rw [← zpow_add₀ (by norm_num : (2 : ℚ) ≠ 0)]
      congr 1
      ring
    calc (a : ℚ) < 2 ^ ((la : ℤ) + 1) := qa2
      _ = (2 : ℚ) ^ ((la : ℤ) - lb + 1) * 2 ^ (lb : ℤ) := h1.symm
      _ ≤ (2 : ℚ) ^ ((la : ℤ) - lb + 1) * b :=
          mul_le_mul_of_nonneg_left qb1 (two_zpow_pos _).le
  have hea : bitLength x.num.natAbs x.num.natAbs = la + 1 := bitLength_eq _ _ le_rfl ha0
  have heb : bitLength x.den x.den = lb + 1 := bitLength_eq _ _ le_rfl hb0
  have he : ((bitLength x.num.natAbs x.num.natAbs : ℕ) : ℤ) - ((bitLength x.den x.den : ℕ) : ℤ)
      = (la : ℤ) - lb := by
    rw [hea, heb]
    push_cast
    ring
  simp only [binade, he]
  split
  · rename_i h
    refine ⟨hlow.le, ?_⟩
    rw [show ((la : ℤ) - lb - 1 + 1) = (la : ℤ) - lb by ring]
    exact h
  · rename_i h
    exact ⟨not_lt.mp h, hhigh⟩

/-- Rounding to an integer does not go below an integer below the argument. -/
theorem roundHalfEven_ge (x : ℚ) (n : ℤ) (h : (n : ℚ) ≤ x) : n ≤ roundHalfEven x := by
  have hf : n ≤ ⌊x⌋ := Int.le_floor.mpr h
  simp only [roundHalfEven]
  split
  · exact hf
  · split
    · omega
    · split
      · exact hf
      · omega

/-- Rounding to an integer does not go above an integer above the argument. -/
theorem roundHalfEven_le (x : ℚ) (n : ℤ) (h : x ≤ (n : ℚ)) : roundHalfEven x ≤ n := by
  have hf : ⌊x⌋ ≤ n := by
    have := Int.floor_le x
    exact_mod_cast (this.trans h)
  have hstep : 0 < x - ⌊x⌋ → ⌊x⌋ + 1 ≤ n := by
    intro hpos
    have h1 : (⌊x⌋ : ℚ) < n := by linarith
    have h2 : ⌊x⌋ < n := by exact_mod_cast h1
    omega
  simp only [roundHalfEven]
  split
  · exact hf
  · rename_i h1
    have hpos : 0 < x - ⌊x⌋ := by
      have := not_lt.mp h1
      linarith
    split
    · exact hstep hpos
    · split
      · exact hf
      · exact hstep hpos

/-- A positive rational is a float64 when it is `m * 2 ^ e` with `m < 2 ^ 53`;
such a value can be written with `2 ^ 52 ≤ m`. -/
theorem normalize_mantissa (m : ℕ) (e : ℤ) (hm : m < 2 ^ 53) (h0 : 0 < m) :
    ∃ (M : ℕ) (E : ℤ), 2 ^ 52 ≤ M ∧ M < 2 ^ 53 ∧ (m : ℚ) * 2 ^ e = (M : ℚ) * 2 ^ E := by
  have hm0 : m ≠ 0 := by omega
  have h1 := Nat.log2_self_le hm0
  have h2 := @Nat.lt_log2_self m
  have hl : Nat.log2 m < 53 := (Nat.log2_lt hm0).mpr hm
  refine ⟨m * 2 ^ (52 - Nat.log2 m), e - ((52 - Nat.log2 m : ℕ) : ℤ), ?_, ?_, ?_⟩
  · calc 2 ^ 52 = 2 ^ Nat.log2 m * 2 ^ (52 - Nat.log2 m) := by
          rw [← pow_add]
          congr 1
          omega
      _ ≤ m * 2 ^ (52 - Nat.log2 m) := Nat.mul_le_mul_right _ h1
  · calc m * 2 ^ (52 - Nat.log2 m)
        < 2 ^ (Nat.log2 m + 1) * 2 ^ (52 - Nat.log2 m) :=
          Nat.mul_lt_mul_of_pos_right h2 (Nat.pow_pos (by norm_num))
      _ = 2 ^ 53 := by
          rw [← pow_add]
          congr 1
          omega
  · rw [zpow_sub₀ (by norm_num : (2 : ℚ) ≠ 0), zpow_natCast]
    push_cast
    field_simp
    ring

/-- Zero is a `float64`. -/
theorem round64_zero : round64 0 = 0 := by
  simp [round64]

/-- The rounding of a positive number. -/
theorem round64_pos_eq (x : ℚ) (hx : 0 < x) :
    round64 x = roundHalfEven (x / 2 ^ (binade x - 52)) * 2 ^ (binade x - 52) := by
  simp only [round64, abs_of_pos hx, if_neg hx.ne.symm]

/-- The scaled argument of `round64` has 53 bits before the point. -/
theorem scaled_bounds (x : ℚ) (hx : 0 < x) :
    (2 : ℚ) ^ (52 : ℕ) ≤ x / 2 ^ (binade x - 52) ∧ x / 2 ^ (binade x - 52) < 2 ^ (53 : ℕ) := by
  obtain ⟨h1, h2⟩ := binade_spec x hx
  have hp := two_zpow_pos (binade x - 52)
  constructor
  · rw [le_div_iff₀ hp, ← zpow_natCast, ← zpow_add₀ (by norm_num : (2 : ℚ) ≠ 0)]
    rw [show (((52 : ℕ) : ℤ) + (binade x - 52)) = binade x by push_cast; ring]
    exact h1
  · rw [div_lt_iff₀ hp, ← zpow_natCast, ← zpow_add₀ (by norm_num : (2 : ℚ) ≠ 0)]
    rw [show (((53 : ℕ) : ℤ) + (binade x - 52)) = binade x + 1 by push_cast; ring]
    exact h2

/-- Rounding is monotone against a `float64` below: a value `m * 2^e` with
`m < 2^53` that is at most `x` is at most the rounding of `x`. -/
theorem round64_ge_float (m : ℕ) (e : ℤ) (hm : m < 2 ^ 53) (x : ℚ)
    (hx : 0 ≤ x) (h : (m : ℚ) * 2 ^ e ≤ x) : (m : ℚ) * 2 ^ e ≤ round64 x := by
  rcases Nat.eq_zero_or_pos m with h0 | h0
  · subst h0
    rcases eq_or_lt_of_le hx with hx0 | hx0
    · rw [← hx0, round64_zero]
      simp
    · rw [round64_pos_eq x hx0]
      have := (scaled_bounds x hx0).1
      have h2 : (0 : ℤ) ≤ roundHalfEven (x / 2 ^ (binade x - 52)) :=
        roundHalfEven_ge _ 0 (by push_cast; exact le_trans (by positivity) this)
      have h3 : (0 : ℚ) ≤ (roundHalfEven (x / 2 ^ (binade x - 52)) : ℚ) := by exact_mod_cast h2
      simp only [Nat.cast_zero, zero_mul]
      exact mul_nonneg h3 (two_zpow_pos _).le
  · obtain ⟨M, E, hM1, hM2, hME⟩ := normalize_mantissa m e hm h0
    rw [hME] at h ⊢
    have hMq1 : (2 : ℚ) ^ (52 : ℕ) ≤ M := by exact_mod_cast hM1
    have hMq2 : (M : ℚ) < 2 ^ (53 : ℕ) := by exact_mod_cast hM2
    have hx0 : 0 < x := lt_of_lt_of_le
      (mul_pos (lt_of_lt_of_le (by positivity) hMq1) (two_zpow_pos E)) h
    rw [round64_pos_eq x hx0]
    obtain ⟨hb1, hb2⟩ := binade_spec x hx0
    obtain ⟨hs1, hs2⟩ := scaled_bounds x hx0
    set b := binade x with hb
    have hEe : E ≤ b - 52 := by
      by_contra hcon
      have hcon2 : b + 1 ≤ E + 52 := by omega
      have : x < x := calc
        x < 2 ^ (b + 1) := hb2
        _ ≤ 2 ^ (E + 52) := zpow_le_zpow_right₀ (by norm_num) hcon2
        _ = 2 ^ (52 : ℕ) * 2 ^ E := by
            rw [← zpow_natCast, ← zpow_add₀ (by norm_num : (2 : ℚ) ≠ 0)]
            congr 1
            push_cast
            ring
        _ ≤ M * 2 ^ E := mul_le_mul_of_nonneg_right hMq1 (two_zpow_pos E).le
        _ ≤ x := h
      exact lt_irrefl _ this
    rcases eq_or_lt_of_le hEe with heq | hlt
    · rw [← heq]
      have h1 : ((M : ℤ) : ℚ) ≤ x / 2 ^ E := by
        rw [le_div_iff₀ (two_zpow_pos E)]
        exact_mod_cast h
      have h2 := roundHalfEven_ge _ _ h1
      have h3 : (M : ℚ) ≤ (roundHalfEven (x / 2 ^ E) : ℚ) := by exact_mod_cast h2
      exact mul_le_mul_of_nonneg_right h3 (two_zpow_pos E).le
    · have h2 : ((2 ^ 52 : ℕ) : ℤ) ≤ roundHalfEven (x / 2 ^ (b - 52)) :=
        roundHalfEven_ge _ _ (by push_cast; exact_mod_cast hs1)
      have h3 : (2 : ℚ) ^ (52 : ℕ) ≤ (roundHalfEven (x / 2 ^ (b - 52)) : ℚ) := by
        exact_mod_cast h2
      have hE1 : E + 1 ≤ b - 52 := by omega
      calc (M : ℚ) * 2 ^ E ≤ 2 ^ (53 : ℕ) * 2 ^ E :=
            mul_le_mul_of_nonneg_right hMq2.le (two_zpow_pos E).le
        _ = 2 ^ (52 : ℕ) * 2 ^ (E + 1) := by
            rw [zpow_add₀ (by norm_num : (2 : ℚ) ≠ 0)]
            norm_num
            ring
        _ ≤ 2 ^ (52 : ℕ) * 2 ^ (b - 52) :=
            mul_le_mul_of_nonneg_left (zpow_le_zpow_right₀ (by norm_num) hE1) (by positivity)
        _ ≤ (roundHalfEven (x / 2 ^ (b - 52)) : ℚ) * 2 ^ (b - 52) :=
            mul_le_mul_of_nonneg_right h3 (two_zpow_pos _).le

/-- Rounding is monotone against a `float64` above. -/
theorem round64_le_float (m : ℕ) (e : ℤ) (hm : m < 2 ^ 53) (x : ℚ)
    (hx : 0 ≤ x) (h : x ≤ (m : ℚ) * 2 ^ e) : round64 x ≤ (m : ℚ) * 2 ^ e := by
  rcases eq_or_lt_of_le hx with hx0 | hx0
  · rw [← hx0, round64_zero]
    exact mul_nonneg (by positivity) (two_zpow_pos e).le
  · have h0 : 0 < m := by
      rcases Nat.eq_zero_or_pos m with h0 | h0
      · subst h0
        simp at h
        linarith
      · exact h0
    obtain ⟨M, E, hM1, hM2, hME⟩ := normalize_mantissa m e hm h0
    rw [hME] at h ⊢
    have hMq1 : (2 : ℚ) ^ (52 : ℕ) ≤ M := by exact_mod_cast hM1
    have hMq2 : (M : ℚ) < 2 ^ (53 : ℕ) := by exact_mod_cast hM2
    rw [round64_pos_eq x hx0]
    obtain ⟨hb1, hb2⟩ := binade_spec x hx0
    obtain ⟨hs1, hs2⟩ := scaled_bounds x hx0
    set b := binade x with hb
    have hEe : b - 52 ≤ E := by
      by_contra hcon
      have hcon2 : E + 53 ≤ b := by omega
      have : x < x := calc
        x ≤ M * 2 ^ E := h
        _ < 2 ^ (53 : ℕ) * 2 ^ E := mul_lt_mul_of_pos_right hMq2 (two_zpow_pos E)
        _ = 2 ^ (E + 53) := by
            rw [← zpow_natCast, ← zpow_add₀ (by norm_num : (2 : ℚ) ≠ 0)]
            congr 1
            push_cast
            ring
        _ ≤ 2 ^ b := zpow_le_zpow_right₀ (by norm_num) hcon2
        _ ≤ x := hb1
      exact lt_irrefl _ this
    rcases eq_or_lt_of_le hEe with heq | hlt
    · rw [heq]
      have h1 : x / 2 ^ E ≤ ((M : ℤ) : ℚ) := by
        rw [div_le_iff₀ (two_zpow_pos E)]
        exact_mod_cast h
      have h2 := roundHalfEven_le _ _ h1
      have h3 : (roundHalfEven (x / 2 ^ E) : ℚ) ≤ (M : ℚ) := by exact_mod_cast h2
      exact mul_le_mul_of_nonneg_right h3 (two_zpow_pos E).le
    · have h2 : roundHalfEven (x / 2 ^ (b - 52)) ≤ ((2 ^ 53 : ℕ) : ℤ) :=
        roundHalfEven_le _ _ (by push_cast; exact_mod_cast hs2.le)
      have h3 : (roundHalfEven (x / 2 ^ (b - 52)) : ℚ) ≤ (2 : ℚ) ^ (53 : ℕ) := by
        exact_mod_cast h2
      have hE1 : b - 52 + 1 ≤ E := by omega
      calc (roundHalfEven (x / 2 ^ (b - 52)) : ℚ) * 2 ^ (b - 52)
          ≤ 2 ^ (53 : ℕ) * 2 ^ (b - 52) :=
            mul_le_mul_of_nonneg_right h3 (two_zpow_pos _).le
        _ = 2 ^ (52 : ℕ) * 2 ^ (b - 52 + 1) := by
            rw [zpow_add₀ (by norm_num : (2 : ℚ) ≠ 0)]
            norm_num
            ring
        _ ≤ 2 ^ (52 : ℕ) * 2 ^ E :=
            mul_le_mul_of_nonneg_left (zpow_le_zpow_right₀ (by norm_num) hE1) (by positivity)
        _ ≤ (M : ℚ) * 2 ^ E := mul_le_mul_of_nonneg_right hMq1 (two_zpow_pos E).le

/-- The rounding of a number that is not negative is not negative. -/
theorem round64_nonneg (x : ℚ) (hx : 0 ≤ x) : 0 ≤ round64 x := by
  have h := round64_ge_float 0 0 (by norm_num) x hx (by simpa using hx)
  simpa using h

/-- An integer below `2^53` that is at most `x` is at most the rounding of `x`. -/
theorem round64_ge_int (N : ℤ) (hN : N < 2 ^ 53) (x : ℚ) (hx : 0 ≤ x) (h : (N : ℚ) ≤ x) :
    (N : ℚ) ≤ round64 x := by
  rcases le_or_lt N 0 with h0 | h0
  · exact le_trans (by exact_mod_cast h0) (round64_nonneg x hx)
  · obtain ⟨n, rfl⟩ := Int.eq_ofNat_of_zero_le h0.le
    have hn : n < 2 ^ 53 := by exact_mod_cast hN
    have h2 := round64_ge_float n 0 hn x hx (by simpa using h)
    simpa using h2

/-- An integer below `2^53` that is at least `x` is at least the rounding of `x`. -/
theorem round64_le_int (N : ℤ) (hN : N < 2 ^ 53) (x : ℚ) (hx : 0 ≤ x) (h : x ≤ (N : ℚ)) :
    round64 x ≤ (N : ℚ) := by
  have h0 : (0 : ℤ) ≤ N := by exact_mod_cast (le_trans hx h)
  obtain ⟨n, rfl⟩ := Int.eq_ofNat_of_zero_le h0
  have hn : n < 2 ^ 53 := by exact_mod_cast hN
  have h2 := round64_le_float n 0 hn x hx (by simpa using h)
  simpa using h2

/-- An integer from 0 to below `2^53` is a `float64`. -/
theorem round64_int (N : ℤ) (h0 : 0 ≤ N) (hN : N < 2 ^ 53) : round64 (N : ℚ) = N :=
  le_antisymm (round64_le_int N hN _ (by exact_mod_cast h0) le_rfl)
    (round64_ge_int N hN _ (by exact_mod_cast h0) le_rfl)

/-- Half of an integer from 0 to below `2^53` is a `float64`. -/
theorem round64_half (N : ℤ) (h0 : 0 ≤ N) (hN : N < 2 ^ 53) :
    round64 ((N : ℚ) / 2) = (N : ℚ) / 2 := by
  obtain ⟨n, rfl⟩ := Int.eq_ofNat_of_zero_le h0
  have hn : n < 2 ^ 53 := by exact_mod_cast hN
  have hx : (0 : ℚ) ≤ ((n : ℤ) : ℚ) / 2 := by positivity
  have e : ((n : ℤ) : ℚ) / 2 = (n : ℚ) * 2 ^ (-1 : ℤ) := by
    rw [zpow_neg_one]
    push_cast
    ring
  apply le_antisymm
  · have := round64_le_float n (-1) hn _ hx (le_of_eq e)
    rw [← e] at this
    exact this
  · have := round64_ge_float n (-1) hn _ hx (le_of_eq e.symm)
    rw [← e] at this
    exact this

/-- A quarter of an integer below `2^53` that is at most `x` is at most the
rounding of `x`. -/
theorem round64_ge_quarter (N : ℤ) (h0 : 0 ≤ N) (hN : N < 2 ^ 53) (x : ℚ)
    (h : (N : ℚ) / 4 ≤ x) : (N : ℚ) / 4 ≤ round64 x := by
  obtain ⟨n, rfl⟩ := Int.eq_ofNat_of_zero_le h0
  have hn : n < 2 ^ 53 := by exact_mod_cast hN
  have hq : (0 : ℚ) ≤ ((n : ℤ) : ℚ) / 4 := by positivity
  have e : ((n : ℤ) : ℚ) / 4 = (n : ℚ) * 2 ^ (-2 : ℤ) := by
    rw [zpow_neg, zpow_ofNat]
    push_cast
    ring
  have := round64_ge_float n (-2) hn x (le_trans hq h) (by rw [← e]; exact h)
  rw [← e] at this
  exact this

/-- The rounding of a number between two integers below `2^53` lies between
them. -/
theorem round64_between (lo hi : ℤ) (hhi : hi < 2 ^ 53) (x : ℚ) (hx : 0 ≤ x)
    (h1 : (lo : ℚ) ≤ x) (h2 : x ≤ (hi : ℚ)) :
    (lo : ℚ) ≤ round64 x ∧ round64 x ≤ (hi : ℚ) ∧ 0 ≤ round64 x := by
  have hlo : lo ≤ hi := by exact_mod_cast (le_trans h1 h2)
  exact ⟨round64_ge_int lo (by omega) x hx h1, round64_le_int hi hhi x hx h2,
    round64_nonneg x hx⟩

/-- The conversion to a duration of a value from 0 to below `2^63` is its
integer part. -/
theorem toDuration_floor (x : ℚ) (h0 : 0 ≤ x) (h1 : x < 2 ^ 63) : toDuration x = ⌊x⌋ := by
  have hf0 : 0 ≤ ⌊x⌋ := Int.floor_nonneg.mpr h0
  have hf1 : ⌊x⌋ < 2 ^ 63 := by
    have h2 : ((⌊x⌋ : ℤ) : ℚ) < ((2 ^ 63 : ℤ) : ℚ) := by
      push_cast
      exact lt_of_le_of_lt (Int.floor_le x) h1
    exact_mod_cast h2
  simp only [toDuration, if_pos h0]
  rw [if_pos ⟨by omega, hf1⟩]

/-- The `float64` nearest to one tenth. -/
theorem round64_tenth : round64 (1 / 10) = 3602879701896397 / 36028797018963968 := by
  decide!

/-- The statements of `getRandomValueFromInterval` for a factor `rf` that is one
tenth up to the rounding of `0.1`, a draw `r` between 0 and 1 and an interval
`c` below a third of `2^53`: the result lies within a tenth of `c`, up to three
nanoseconds. -/
theorem jitter_chain (rf r : ℚ) (c : ℤ) (hrf1 : 1 / 10 ≤ rf)
    (hrf2 : rf ≤ 1 / 10 + 1 / 180143985094819840) (hr0 : 0 ≤ r) (hr1 : r ≤ 1)
    (hc : 0 ≤ c) (hc3 : 3 * c < 2 ^ 53) :
    c - c / 10 - 1 ≤ toDuration (round64 (round64 ((c : ℚ) - round64 (rf * (c : ℚ))) +
      round64 (r * round64 (round64 (round64 ((c : ℚ) + round64 (rf * (c : ℚ))) -
        round64 ((c : ℚ) - round64 (rf * (c : ℚ)))) + 1)))) ∧
    toDuration (round64 (round64 ((c : ℚ) - round64 (rf * (c : ℚ))) +
      round64 (r * round64 (round64 (round64 ((c : ℚ) + round64 (rf * (c : ℚ))) -
        round64 ((c : ℚ) - round64 (rf * (c : ℚ)))) + 1)))) ≤ c + c / 10 + 3 ∧
    0 ≤ toDuration (round64 (round64 ((c : ℚ) - round64 (rf * (c : ℚ))) +
      round64 (r * round64 (round64 (round64 ((c : ℚ) + round64 (rf * (c : ℚ))) -
        round64 ((c : ℚ) - round64 (rf * (c : ℚ)))) + 1)))) := by
  have hk1 : 10 * (c / 10) ≤ c := by omega
  have hk2 : c ≤ 10 * (c / 10) + 9 := by omega
  have hk0 : 0 ≤ c / 10 := by omega
  have qk1 : (10 : ℚ) * ((c / 10 : ℤ) : ℚ) ≤ (c : ℚ) := by exact_mod_cast hk1
  have qk2 : (c : ℚ) ≤ 10 * ((c / 10 : ℤ) : ℚ) + 9 := by exact_mod_cast hk2
  have qk0 : (0 : ℚ) ≤ ((c / 10 : ℤ) : ℚ) := by exact_mod_cast hk0
  have qc0 : (0 : ℚ) ≤ (c : ℚ) := by exact_mod_cast hc
  have qc3 : (3 : ℚ) * (c : ℚ) < 9007199254740992 := by exact_mod_cast hc3
  have p1 : 0 ≤ (rf - 1 / 10) * (c : ℚ) := mul_nonneg (by linarith) qc0
  have p2 : 0 ≤ (1 / 10 + 1 / 180143985094819840 - rf) * (c : ℚ) :=
    mul_nonneg (by linarith) qc0
  have x1a : ((c / 10 : ℤ) : ℚ) ≤ rf * (c : ℚ) := by linarith
  have x1b : rf * (c : ℚ) ≤ ((c / 10 + 1 : ℤ) : ℚ) := by
    push_cast
    linarith
  have x1c : rf * (c : ℚ) ≤ (c : ℚ) := by linarith
  have x10 : 0 ≤ rf * (c : ℚ) := by linarith
  obtain ⟨a1, a2, a0⟩ := round64_between (c / 10) (c / 10 + 1) (by omega) _ x10 x1a x1b
  have a3 := round64_le_int c (by omega) _ x10 x1c
  push_cast at a2
  generalize round64 (rf * (c : ℚ)) = delta at a1 a2 a0 a3 ⊢
  obtain ⟨b1, b2, b0⟩ := round64_between (c - c / 10 - 1) (c - c / 10) (by omega)
    ((c : ℚ) - delta) (by linarith) (by push_cast; linarith) (by push_cast; linarith)
  push_cast at b1 b2
  generalize round64 ((c : ℚ) - delta) = minI at b1 b2 b0 ⊢
  obtain ⟨m1, m2, m0⟩ := round64_between (c + c / 10) (c + c / 10 + 1) (by omega)
    ((c : ℚ) + delta) (by linarith) (by push_cast; linarith) (by push_cast; linarith)
  push_cast at m1 m2
  generalize round64 ((c : ℚ) + delta) = maxI at m1 m2 m0 ⊢
  obtain ⟨t1, t2, t0⟩ := round64_between (2 * (c / 10)) (2 * (c / 10) + 2) (by omega)
    (maxI - minI) (by linarith) (by push_cast; linarith) (by push_cast; linarith)
  push_cast at t1 t2
  generalize round64 (maxI - minI) = w1 at t1 t2 t0 ⊢
  obtain ⟨u1, u2, u0⟩ := round64_between (2 * (c / 10) + 1) (2 * (c / 10) + 3) (by omega)
    (w1 + 1) (by linarith) (by push_cast; linarith) (by push_cast; linarith)
  push_cast at u1 u2
  generalize round64 (w1 + 1) = w2 at u1 u2 u0 ⊢
  have y0 : 0 ≤ r * w2 := mul_nonneg hr0 u0
  have y1 : r * w2 ≤ w2 := mul_le_of_le_one_left u0 hr1
  obtain ⟨v1, v2, v0⟩ := round64_between 0 (2 * (c / 10) + 3) (by omega)
    (r * w2) y0 (by push_cast; linarith) (by push_cast; linarith)
  push_cast at v1 v2
  generalize round64 (r * w2) = w3 at v1 v2 v0 ⊢
  obtain ⟨z1, z2, z0⟩ := round64_between (c - c / 10 - 1) (c + c / 10 + 3) (by omega)
    (minI + w3) (by linarith) (by push_cast; linarith) (by push_cast; linarith)
  generalize round64 (minI + w3) = w4 at z1 z2 z0 ⊢
  have z3 : w4 < 2 ^ 63 := by
    have h3 : ((c + c / 10 + 3 : ℤ) : ℚ) < ((2 ^ 63 : ℤ) : ℚ) := by
      have : c + c / 10 + 3 < 2 ^ 63 := by omega
      exact_mod_cast this
    push_cast at h3 z2
    linarith
  rw [toDuration_floor w4 z0 z3]
  refine ⟨Int.le_floor.mpr z1, ?_, Int.floor_nonneg.mpr z0⟩
  have := Int.floor_le w4
  have h2 : ((⌊w4⌋ : ℤ) : ℚ) ≤ ((c + c / 10 + 3 : ℤ) : ℚ) := le_trans this z2
  exact_mod_cast h2

/-- A jittered delay of `program.run` lies within a tenth of the interval, up
to three nanoseconds of rounding. -/
theorem getRandomValueFromInterval_bounds (random : Nat) (hr : random < 2 ^ 53) (c : Int)
    (hc : 0 ≤ c) (hc3 : 3 * c < 2 ^ 53) :
    c - c / 10 - 1 ≤ getRandomValueFromInterval (round64 (1 / 10)) ((random : ℚ) / 2 ^ 53) c ∧
    getRandomValueFromInterval (round64 (1 / 10)) ((random : ℚ) / 2 ^ 53) c ≤ c + c / 10 + 3 ∧
    0 ≤ getRandomValueFromInterval (round64 (1 / 10)) ((random : ℚ) / 2 ^ 53) c := by
  have hr0 : (0 : ℚ) ≤ (random : ℚ) / 2 ^ 53 := by positivity
  have hr1 : (random : ℚ) / 2 ^ 53 ≤ 1 := by
    rw [div_le_one (by positivity)]
    exact_mod_cast hr.le
  have hne : round64 (1 / 10) ≠ 0 := by
    rw [round64_tenth]
    norm_num
  simp only [getRandomValueFromInterval, float64, if_neg hne]
  rw [round64_int c hc (by omega)]
  exact jitter_chain (round64 (1 / 10)) _ c (by rw [round64_tenth]; norm_num)
    (by rw [round64_tenth]; norm_num) hr0 hr1 hc hc3

/-! ## The retry loop -/

/-- The interval stays between `retryDelay` and ten times it. -/
theorem nominalInterval_bounds (d : Int) (hd : 0 ≤ d) (n : Nat) :
    d ≤ nominalInterval d n ∧ nominalInterval d n ≤ 10 * d := by
  induction n with
  | zero => simp only [nominalInterval]; omega
  | succ n ih =>
    simp only [nominalInterval]
    omega

/-- The step of `incrementCurrentInterval` on an interval `c` with cap `10 * d`,
for durations small enough that `float64` holds them and their multiples
exactly: the comparison is that of `3 * c` with `20 * d`, and the product is
`c * 3 / 2` cut to whole nanoseconds. -/
theorem increment_exact (d c : Int) (hc : 0 ≤ c) (hcd : c ≤ 10 * d) (hmax : 30 * d < 2 ^ 53) :
    (float64 c ≥ round64 (float64 (10 * d) / (3 / 2)) ↔ 20 * d ≤ 3 * c) ∧
    toDuration (round64 (float64 c * (3 / 2))) = c * 3 / 2 := by
  have hd : 0 ≤ d := by omega
  have qc0 : (0 : ℚ) ≤ (c : ℚ) := by exact_mod_cast hc
  have qd0 : (0 : ℚ) ≤ (d : ℚ) := by exact_mod_cast hd
  have e1 : float64 c = (c : ℚ) := round64_int c hc (by omega)
  have e2 : float64 (10 * d) = ((10 * d : ℤ) : ℚ) := round64_int (10 * d) (by omega) (by omega)
  rw [e1, e2]
  have hy0 : (0 : ℚ) ≤ ((10 * d : ℤ) : ℚ) / (3 / 2) := by
    push_cast
    positivity
  constructor
  · constructor
    · intro h
      by_contra hcon
      have hlt : 3 * c + 1 ≤ 20 * d := by omega
      have q : (3 : ℚ) * (c : ℚ) + 1 ≤ 20 * (d : ℚ) := by exact_mod_cast hlt
      have hq : ((4 * c + 1 : ℤ) : ℚ) / 4 ≤ ((10 * d : ℤ) : ℚ) / (3 / 2) := by
        push_cast
        rw [div_le_div_iff₀ (by norm_num) (by norm_num)]
        linarith
      have := round64_ge_quarter (4 * c + 1) (by omega) (by omega) _ hq
      have h' : round64 (((10 * d : ℤ) : ℚ) / (3 / 2)) ≤ (c : ℚ) := h
      push_cast at this h'
      linarith
    · intro h
      have q : (20 : ℚ) * (d : ℚ) ≤ 3 * (c : ℚ) := by exact_mod_cast h
      have hq : ((10 * d : ℤ) : ℚ) / (3 / 2) ≤ (c : ℚ) := by
        push_cast
        rw [div_le_iff₀ (by norm_num)]
        linarith
      exact round64_le_int c (by omega) _ hy0 hq
  · have e3 : (c : ℚ) * (3 / 2) = ((c * 3 : ℤ) : ℚ) / 2 := by
      push_cast
      ring
    rw [e3, round64_half (c * 3) (by omega) (by omega)]
    have h0 : (0 : ℚ) ≤ ((c * 3 : ℤ) : ℚ) / 2 := by
      push_cast
      positivity
    have h1 : ((c * 3 : ℤ) : ℚ) / 2 < 2 ^ 63 := by
      have h2 : ((c * 3 : ℤ) : ℚ) < ((2 ^ 63 : ℤ) : ℚ) := by
        have : c * 3 < 2 ^ 63 := by omega
        exact_mod_cast this
      push_cast at h2 ⊢
      linarith
    rw [toDuration_floor _ h0 h1]
    exact_mod_cast Rat.floor_intCast_div_natCast (c * 3) 2

/-- One call of `NextBackOff` in `program.run`. -/
theorem NextBackOff_backOffAfter (d : Int) (hd : 0 ≤ d) (hmax : 30 * d < 2 ^ 53)
    (n : Nat) (random : ℚ) :
    (backOffAfter d n).NextBackOff random =
      (getRandomValueFromInterval (round64 (1 / 10)) random (nominalInterval d n),
        backOffAfter d (n + 1)) := by
  have hb := nominalInterval_bounds d hd n
  obtain ⟨hcmp, hmul⟩ := increment_exact d (nominalInterval d n) (by omega) hb.2 hmax
  have h0 : (if (backOffAfter d n).currentInterval = 0 then
      { backOffAfter d n with currentInterval := (backOffAfter d n).InitialInterval }
      else backOffAfter d n) = backOffAfter d n := by
    split
    · rename_i h
      simp only [backOffAfter] at h ⊢
      have : d = 0 := by omega
      rw [h, this]
    · rfl
  simp only [ExponentialBackOff.NextBackOff, h0]
  refine Prod.ext rfl ?_
  simp only [backOffAfter, ExponentialBackOff.incrementCurrentInterval, nominalInterval]
  by_cases hge : 20 * d ≤ 3 * nominalInterval d n
  · rw [if_pos (hcmp.mpr hge)]
    simp only [ExponentialBackOff.mk.injEq, true_and]
    omega
  · rw [if_neg (fun h => hge (hcmp.mp h)), hmul]
    simp only [ExponentialBackOff.mk.injEq, true_and]
    omega

/-- One iteration of the loop of `Retry` under the backoff of `program.run`. -/
theorem retryLoop_succ (env : RetryEnv) (args : retryOptions) (d : Int) (hd : 0 ≤ d)
    (hmax : 30 * d < 2 ^ 53)
    (fuel : Nat) (s : RetryState) (hb : s.BackOff = backOffAfter d s.draws) :
    retryLoop env args (fuel + 1) s =
      match env.operation s.numTries with
      | none => some ⟨none, s.numTries, s.notified, s.slept,
          s.trace ++ [Step.attempt s.numTries]⟩
      | some err =>
        if args.MaxTries > 0 ∧ s.numTries ≥ args.MaxTries then
          some ⟨some err.unwrap, s.numTries, s.notified, s.slept,
            s.trace ++ [Step.attempt s.numTries]⟩
        else
          match err with
          | .permanent inner => some ⟨some inner, s.numTries, s.notified, s.slept,
              s.trace ++ [Step.attempt s.numTries]⟩
          | .transient e =>
            match env.ctxErr (s.now + env.latency s.numTries) with
            | some ctxErr => some ⟨some ctxErr, s.numTries, s.notified, s.slept,
                s.trace ++ [Step.attempt s.numTries]⟩
            | none =>
              if jitteredDelay env.Float64 d s.draws = Stop then
                some ⟨some e, s.numTries, s.notified, s.slept,
                  s.trace ++ [Step.attempt s.numTries]⟩
              else if args.MaxElapsedTime > 0 ∧
                  ((s.now + env.latency s.numTries : Nat) : Int)
                    + jitteredDelay env.Float64 d s.draws > args.MaxElapsedTime then
                some ⟨some e, s.numTries, s.notified, s.slept,
                  s.trace ++ [Step.attempt s.numTries]⟩
              else
                match env.ctxErr (s.now + env.latency s.numTries
                    + (jitteredDelay env.Float64 d s.draws).toNat - 1) with
                | some ctxErr =>
                  some ⟨some ctxErr, s.numTries,
                    if args.Notify then
                      s.notified ++ [(e, jitteredDelay env.Float64 d s.draws)]
                    else s.notified,
                    s.slept ++ [jitteredDelay env.Float64 d s.draws],
                    s.trace ++ [Step.attempt s.numTries,
                      Step.wait (jitteredDelay env.Float64 d s.draws)]⟩
                | none =>
                  retryLoop env args fuel
                    { numTries := s.numTries + 1
                      now := s.now + env.latency s.numTries
                        + (jitteredDelay env.Float64 d s.draws).toNat
                      BackOff := backOffAfter d (s.draws + 1)
                      draws := s.draws + 1
                      notified := if args.Notify then
                          s.notified ++ [(e, jitteredDelay env.Float64 d s.draws)]
                        else s.notified
                      slept := s.slept ++ [jitteredDelay env.Float64 d s.draws]
                      trace := s.trace ++ [Step.attempt s.numTries,
                        Step.wait (jitteredDelay env.Float64 d s.draws)] } := by
  have hnb : (backOffAfter d s.draws).NextBackOff ((env.Float64 s.draws : ℚ) / 2 ^ 53) =
      (jitteredDelay env.Float64 d s.draws, backOffAfter d (s.draws + 1)) :=
    NextBackOff_backOffAfter d hd hmax s.draws _
  rcases hop : env.operation s.numTries with _ | err
  · simp [retryLoop, hop, RetryState.finish]
  · by_cases hmaxTries : args.MaxTries > 0 ∧ s.numTries ≥ args.MaxTries
    · simp [retryLoop, hop, RetryState.finish, hmaxTries]
    · cases err with
      | permanent inner => simp [retryLoop, hop, RetryState.finish, hmaxTries]
      | transient e =>
        rcases hctx : env.ctxErr (s.now + env.latency s.numTries) with _ | c
        · by_cases hstop : jitteredDelay env.Float64 d s.draws = Stop
          · simp [retryLoop, hop, RetryState.finish, hmaxTries, hctx, hb, hnb, hstop]
          · by_cases hpos : args.MaxElapsedTime > 0 <;>
            by_cases hel : args.MaxElapsedTime < (s.now : Int) + (env.latency s.numTries : Int)
              + jitteredDelay env.Float64 d s.draws <;>
            rcases hn : args.Notify <;>
            rcases hctx2 : env.ctxErr (s.now + env.latency s.numTries
                  + (jitteredDelay env.Float64 d s.draws).toNat - 1) with _ | c2 <;>
            simp [retryLoop, hop, RetryState.finish, hmaxTries, hctx, hb, hnb, hstop, hel,
              hpos, hn, hctx2]
        · simp [retryLoop, hop, RetryState.finish, hmaxTries, hctx]

/-- A context that is never cancelled reports no error. -/
theorem ctxErr_none (env : RetryEnv) (h : env.cancel = none) (now : Nat) :
    env.ctxErr now = none := by
  simp [RetryEnv.ctxErr, h]

/-- One more delay adds one execution and one wait to the trace. -/
theorem attemptsAndWaits_append (first : Nat) (l : List Int) (d : Int) :
    attemptsAndWaits first (l ++ [d]) =
      attemptsAndWaits first l ++ [Step.attempt (first + l.length), Step.wait d] := by
  induction l generalizing first with
  | nil => simp [attemptsAndWaits]
  | cons a l ih =>
    have e : first + 1 + l.length = first + (l.length + 1) := by omega
    have h := ih (first + 1)
    rw [e] at h
    show Step.attempt first :: Step.wait a :: attemptsAndWaits (first + 1) (l ++ [d]) = _
    rw [h]
    rfl

/-- The delays a run of the loop has waited are the jittered delays of the
schedule, in order, and its trace alternates executions and waits: it ends
with the execution after the last wait, or with a wait that the cancellation
of the context has cut short. -/
theorem retryLoop_trace (env : RetryEnv) (args : retryOptions) (d : Int) (hd : 0 ≤ d)
    (hmax : 30 * d < 2 ^ 53) (fuel : Nat) (s : RetryState) (r : RetryResult)
    (hb : s.BackOff = backOffAfter d s.draws)
    (hs : s.slept = (List.range s.draws).map (jitteredDelay env.Float64 d))
    (ht : s.trace = attemptsAndWaits 1 s.slept)
    (hn : s.numTries = s.draws + 1)
    (h : retryLoop env args fuel s = some r) :
    ∃ m, r.slept = (List.range m).map (jitteredDelay env.Float64 d) ∧
      ((r.tries = m + 1 ∧ r.trace = attemptsAndWaits 1 r.slept ++ [Step.attempt r.tries]) ∨
        (r.tries = m ∧ r.trace = attemptsAndWaits 1 r.slept ∧ env.cancel ≠ none)) := by
  induction fuel generalizing s with
  | zero => simp [retryLoop] at h
  | succ fuel ih =>
    have hlen : s.slept.length = s.draws := by
      rw [hs, List.length_map, List.length_range]
    have hs' : s.slept ++ [jitteredDelay env.Float64 d s.draws] =
        (List.range (s.draws + 1)).map (jitteredDelay env.Float64 d) := by
      rw [List.range_succ, List.map_append, hs]
      rfl
    have ht' : s.trace ++ [Step.attempt s.numTries,
          Step.wait (jitteredDelay env.Float64 d s.draws)] =
        attemptsAndWaits 1 (s.slept ++ [jitteredDelay env.Float64 d s.draws]) := by
      rw [attemptsAndWaits_append, ht, hlen, hn, Nat.add_comm 1 s.draws]
    have hdone : ∀ e ns, ∃ m,
        (RetryResult.mk e s.numTries ns s.slept (s.trace ++ [Step.attempt s.numTries])).slept =
          (List.range m).map (jitteredDelay env.Float64 d) ∧
        (((RetryResult.mk e s.numTries ns s.slept
              (s.trace ++ [Step.attempt s.numTries])).tries = m + 1 ∧
            (RetryResult.mk e s.numTries ns s.slept
              (s.trace ++ [Step.attempt s.numTries])).trace =
              attemptsAndWaits 1 (RetryResult.mk e s.numTries ns s.slept
                (s.trace ++ [Step.attempt s.numTries])).slept ++
                [Step.attempt (RetryResult.mk e s.numTries ns s.slept
                  (s.trace ++ [Step.attempt s.numTries])).tries]) ∨
          ((RetryResult.mk e s.numTries ns s.slept
              (s.trace ++ [Step.attempt s.numTries])).tries = m ∧
            (RetryResult.mk e s.numTries ns s.slept
              (s.trace ++ [Step.attempt s.numTries])).trace =
              attemptsAndWaits 1 (RetryResult.mk e s.numTries ns s.slept
                (s.trace ++ [Step.attempt s.numTries])).slept ∧ env.cancel ≠ none)) := by
      intro e ns
      exact ⟨s.draws, hs, Or.inl ⟨hn, by simp only [ht]⟩⟩
    rw [retryLoop_succ env args d hd hmax fuel s hb] at h
    split at h
    · cases h
      exact hdone _ _
    · split at h
      · cases h
        exact hdone _ _
      · split at h
        · cases h
          exact hdone _ _
        · split at h
          · cases h
            exact hdone _ _
          · split at h
            · cases h
              exact hdone _ _
            · split at h
              · cases h
                exact hdone _ _
              · split at h
                · rename_i hctx2
                  cases h
                  refine ⟨s.draws + 1, hs', Or.inr ⟨by simp only [hn], ht', ?_⟩⟩
                  intro hc
                  rw [ctxErr_none env hc] at hctx2
                  cases hctx2
                · exact ih _ rfl hs' ht' (by simp only [hn]) h

/-- With a positive bound on the tries the loop returns within that many
iterations. -/
theorem retryLoop_total (env : RetryEnv) (args : retryOptions) (d : Int) (hd : 0 ≤ d)
    (hmax : 30 * d < 2 ^ 53)
    (hM : 0 < args.MaxTries) (fuel : Nat) (s : RetryState)
    (hb : s.BackOff = backOffAfter d s.draws)
    (hfuel : args.MaxTries - s.numTries < fuel) :
    ∃ r, retryLoop env args fuel s = some r := by
  induction fuel generalizing s with
  | zero => omega
  | succ fuel ih =>
    rw [retryLoop_succ env args d hd hmax fuel s hb]
    split
    · exact ⟨_, rfl⟩
    · split
      · exact ⟨_, rfl⟩
      · rename_i hmaxTries
        split
        · exact ⟨_, rfl⟩
        · split
          · exact ⟨_, rfl⟩
          · split
            · exact ⟨_, rfl⟩
            · split
              · exact ⟨_, rfl⟩
              · split
                · exact ⟨_, rfl⟩
                · apply ih _ rfl
                  simp only
                  have : ¬ s.numTries ≥ args.MaxTries := fun h => hmaxTries ⟨hM, h⟩
                  omega

/-- Multiplying by ten does not wrap when the product fits an `int64`. -/
theorem mulInt64_ten (d : Int) (hd : 0 ≤ d) (hmax : 10 * d < 2 ^ 63) :
    mulInt64 10 d = 10 * d := by
  simp only [mulInt64]
  omega

/-- Adding one to the retries does not wrap below the largest `uint`. -/
theorem addUint_one (n : Nat) (h : n + 1 < 2 ^ 64) : addUint 1 n = n + 1 := by
  simp only [addUint]
  omega

/-- The surroundings `program.run` hands to `Retry`. -/
theorem run_eq_retryLoop (p : program) (env : RunEnv) (fuel : Nat)
    (hd : 0 ≤ p.retryDelay) (hmax : 30 * p.retryDelay < 2 ^ 53) :
    p.run env fuel =
      retryLoop
        { operation := p.op env, latency := env.latency, Float64 := env.Float64,
          Float64_lt := env.Float64_lt, cancel := env.cancel }
        { BackOff := { backOffAfter p.retryDelay 0 with currentInterval := 0 }
          Notify := true
          MaxTries := addUint 1 p.retries
          MaxElapsedTime := DefaultMaxElapsedTime }
        fuel
        { numTries := 1, now := 0, BackOff := backOffAfter p.retryDelay 0, draws := 0,
          notified := [], slept := [], trace := [] } := by
  simp only [program.run, Retry, NewExponentialBackOff, ExponentialBackOff.Reset,
    mulInt64_ten p.retryDelay hd (by omega), backOffAfter, nominalInterval]

/-- The n-th delay of `program.run` is not negative, at most `11 * retryDelay`
plus three nanoseconds, and within a tenth of the nominal interval up to three
nanoseconds. -/
theorem jitteredDelay_bounds (draw : Nat → Nat) (hdraw : ∀ n, draw n < 2 ^ 53) (d : Int)
    (hd : 0 ≤ d) (hmax : 30 * d < 2 ^ 53) (n : Nat) :
    0 ≤ jitteredDelay draw d n ∧ jitteredDelay draw d n ≤ 11 * d + 3 ∧
    9 * nominalInterval d n - 10 ≤ 10 * jitteredDelay draw d n ∧
    10 * jitteredDelay draw d n ≤ 11 * nominalInterval d n + 30 := by
  have hb := nominalInterval_bounds d hd n
  have hj := getRandomValueFromInterval_bounds (draw n) (hdraw n) (nominalInterval d n)
    (by omega) (by omega)
  simp only [jitteredDelay]
  omega

/-- The loop within its budget of tries and of time: it ends at `j`, the first
successful execution or the last one allowed. -/
theorem retryLoop_ends (env : RetryEnv) (args : retryOptions) (d : Int) (hd : 0 ≤ d)
    (hmax : 30 * d < 2 ^ 53)
    (D : Nat) (hElapsed : args.MaxElapsedTime = DefaultMaxElapsedTime)
    (hcancel : env.cancel = none) (hlat : ∀ n, env.latency n ≤ D)
    (hbudget : ((args.MaxTries : Int) - 1) * (D + (11 * d + 3)) ≤ DefaultMaxElapsedTime)
    (fuel : Nat) (s : RetryState) (j : Nat)
    (hb : s.BackOff = backOffAfter d s.draws)
    (hnow : (s.now : Int) ≤ ((s.numTries : Int) - 1) * (D + (11 * d + 3)))
    (h1 : 1 ≤ s.numTries) (hj : s.numTries ≤ j) (hjM : j ≤ args.MaxTries)
    (hfail : ∀ n, s.numTries ≤ n → n < j → ∃ e, env.operation n = some (.transient e))
    (hend : env.operation j = none ∨
      (j = args.MaxTries ∧ ∃ e, env.operation j = some (.transient e)))
    (hfuel : j - s.numTries < fuel) :
    ∃ r, retryLoop env args fuel s = some r ∧ r.tries = j ∧
      r.err = (env.operation j).map OpError.unwrap := by
  induction fuel generalizing s with
  | zero => omega
  | succ fuel ih =>
    rw [retryLoop_succ env args d hd hmax fuel s hb]
    by_cases hlast : s.numTries = j
    · rcases hend with hok | ⟨hjmax, e, he⟩
      · rw [hlast, hok]
        exact ⟨_, rfl, rfl, rfl⟩
      · rw [hlast, he]
        have hcond : args.MaxTries > 0 ∧ j ≥ args.MaxTries := by omega
        simp only [if_pos hcond]
        exact ⟨_, rfl, rfl, rfl⟩
    · have hlt : s.numTries < j := by omega
      obtain ⟨e, he⟩ := hfail s.numTries (le_refl _) hlt
      have hcond : ¬ (args.MaxTries > 0 ∧ s.numTries ≥ args.MaxTries) := by omega
      obtain ⟨hnext0, hnext1, -, -⟩ :=
        jitteredDelay_bounds env.Float64 env.Float64_lt d hd hmax s.draws
      have hstop : ¬ jitteredDelay env.Float64 d s.draws = Stop := by
        simp only [Stop]
        omega
      have hl := hlat s.numTries
      have hstep : ((s.now + env.latency s.numTries : Nat) : Int)
          + jitteredDelay env.Float64 d s.draws ≤ (s.numTries : Int) * (D + (11 * d + 3)) := by
        push_cast
        have : (env.latency s.numTries : Int) ≤ D := by exact_mod_cast hl
        linarith
      have hmono : (s.numTries : Int) * (D + (11 * d + 3)) ≤
          ((args.MaxTries : Int) - 1) * (D + (11 * d + 3)) := by
        apply mul_le_mul_of_nonneg_right
        · omega
        · have : (0 : Int) ≤ D := Int.ofNat_nonneg _
          omega
      have helapsed : ¬ (args.MaxElapsedTime > 0 ∧
          ((s.now + env.latency s.numTries : Nat) : Int)
            + jitteredDelay env.Float64 d s.draws > args.MaxElapsedTime) := by
        rw [hElapsed]
        intro hcon
        linarith [hcon.2]
      simp only [he, if_neg hcond, ctxErr_none env hcancel, if_neg hstop, if_neg helapsed]
      apply ih
      · rfl
      · simp only
        push_cast
        rw [Int.toNat_of_nonneg hnext0]
        push_cast at hstep
        linarith
      · simp only
        omega
      · simp only
        omega
      · intro n hn1 hn2
        exact hfail n (by simp only at hn1; omega) hn2
      · simp only
        omega

/-! ## program.run -/

/-- The closure `op` reports a failed push as an ordinary error, never as a
permanent one. -/
theorem op_eq (p : program) (env : RunEnv) (n : Nat) :
    p.op env n = (env.PushContext p.pusher n).map OpError.transient := by
  cases h : env.PushContext p.pusher n <;> simp [program.op, h, isRetryable]

/-- The delays `program.run` has waited are the jittered delays of its
schedule, and its trace alternates pushes and waits. -/
theorem run_trace (p : program) (env : RunEnv) (fuel : Nat) (r : RetryResult)
    (hd : 0 ≤ p.retryDelay) (hmax : 30 * p.retryDelay < 2 ^ 53)
    (h : p.run env fuel = some r) :
    ∃ m, r.slept = (List.range m).map (jitteredDelay env.Float64 p.retryDelay) ∧
      ((r.tries = m + 1 ∧ r.trace = attemptsAndWaits 1 r.slept ++ [Step.attempt r.tries]) ∨
        (r.tries = m ∧ r.trace = attemptsAndWaits 1 r.slept ∧ env.cancel ≠ none)) := by
  rw [run_eq_retryLoop p env fuel hd hmax] at h
  have key := retryLoop_trace
    { operation := p.op env, latency := env.latency, Float64 := env.Float64,
      Float64_lt := env.Float64_lt, cancel := env.cancel }
    { BackOff := { backOffAfter p.retryDelay 0 with currentInterval := 0 }
      Notify := true
      MaxTries := addUint 1 p.retries
      MaxElapsedTime := DefaultMaxElapsedTime }
    p.retryDelay hd hmax fuel
    { numTries := 1, now := 0, BackOff := backOffAfter p.retryDelay 0, draws := 0,
      notified := [], slept := [], trace := [] }
    r rfl rfl rfl rfl h
  exact key

/-- Every retry of `program.run` comes after a wait: the trace of a run that
returns is push 1, wait, push 2, wait, and so on, with one wait less than
pushes, unless the context is cancelled during the last wait. -/
theorem run_waits_before_retries (p : program) (env : RunEnv) (fuel : Nat) (r : RetryResult)
    (hd : 0 ≤ p.retryDelay) (hmax : 30 * p.retryDelay < 2 ^ 53)
    (h : p.run env fuel = some r) :
    (r.tries = r.slept.length + 1 ∧
      r.trace = attemptsAndWaits 1 r.slept ++ [Step.attempt r.tries]) ∨
    (r.tries = r.slept.length ∧ r.trace = attemptsAndWaits 1 r.slept ∧ env.cancel ≠ none) := by
  obtain ⟨m, hm, hcase⟩ := run_trace p env fuel r hd hmax h
  have hlen : r.slept.length = m := by
    rw [hm, List.length_map, List.length_range]
  rw [hlen]
  exact hcase

/-- The n-th delay of a run that returns is the n-th jittered delay of the
schedule. -/
theorem run_slept_get (p : program) (env : RunEnv) (fuel : Nat) (r : RetryResult)
    (hd : 0 ≤ p.retryDelay) (hmax : 30 * p.retryDelay < 2 ^ 53)
    (h : p.run env fuel = some r) (n : Nat) (v : Int) (hv : r.slept[n]? = some v) :
    v = jitteredDelay env.Float64 p.retryDelay n := by
  obtain ⟨m, hm, -⟩ := run_trace p env fuel r hd hmax h
  rw [hm] at hv
  have hn : n < m := by
    by_contra hcon
    rw [List.getElem?_eq_none (by simpa using Nat.le_of_not_lt hcon)] at hv
    cases hv
  rw [List.getElem?_map, List.getElem?_range hn] at hv
  cases hv
  rfl

/-- Below the largest `uint`, `program.run` returns within `1 + retries`
iterations. -/
theorem run_total (p : program) (env : RunEnv)
    (hd : 0 ≤ p.retryDelay) (hmax : 30 * p.retryDelay < 2 ^ 53)
    (hretries : p.retries + 1 < 2 ^ 64) :
    ∃ r, p.run env (p.retries + 1) = some r := by
  rw [run_eq_retryLoop p env _ hd hmax]
  apply retryLoop_total _ _ p.retryDelay hd hmax
  · simp only [addUint_one p.retries hretries]
    omega
  · rfl
  · simp only [addUint_one p.retries hretries]
    omega

/-- Within the 15 minutes that `Retry` allows, `program.run` ends at push `j`,
the first one that succeeds or the last one allowed. -/
theorem run_ends (p : program) (env : RunEnv) (D : Nat) (fuel : Nat)
    (hd : 0 ≤ p.retryDelay) (hmax : 30 * p.retryDelay < 2 ^ 53)
    (hretries : p.retries + 1 < 2 ^ 64)
    (hcancel : env.cancel = none) (hlat : ∀ n, env.latency n ≤ D)
    (hbudget : (p.retries : Int) * (D + (11 * p.retryDelay + 3)) ≤ DefaultMaxElapsedTime)
    (hfuel : 1 + p.retries ≤ fuel)
    (j : Nat) (hj1 : 1 ≤ j) (hj2 : j ≤ 1 + p.retries)
    (hfail : ∀ n, 1 ≤ n → n < j → env.PushContext p.pusher n ≠ none)
    (hend : env.PushContext p.pusher j = none ∨
      (j = 1 + p.retries ∧ env.PushContext p.pusher j ≠ none)) :
    ∃ r, p.run env fuel = some r ∧ r.tries = j ∧ r.err = env.PushContext p.pusher j := by
  have hM : addUint 1 p.retries = 1 + p.retries := by
    rw [addUint_one p.retries hretries, Nat.add_comm]
  rw [run_eq_retryLoop p env fuel hd hmax]
  have h := retryLoop_ends
    { operation := p.op env, latency := env.latency, Float64 := env.Float64,
      Float64_lt := env.Float64_lt, cancel := env.cancel }
    { BackOff := { backOffAfter p.retryDelay 0 with currentInterval := 0 }
      Notify := true
      MaxTries := addUint 1 p.retries
      MaxElapsedTime := DefaultMaxElapsedTime }
    p.retryDelay hd hmax D rfl hcancel hlat
    (by simp only [hM]; push_cast; simpa using hbudget)
    fuel
    { numTries := 1, now := 0, BackOff := backOffAfter p.retryDelay 0, draws := 0,
      notified := [], slept := [], trace := [] }
    j rfl (by simp) (le_refl _) hj1 (by simp only [hM]; exact hj2)
    (by
      intro n hn1 hn2
      simp only [op_eq]
      rcases hp : env.PushContext p.pusher n with _ | e
      · exact absurd hp (hfail n hn1 hn2)
      · exact ⟨e, rfl⟩)
    (by
      simp only [op_eq, hM]
      rcases hend with hok | ⟨hlast, hne⟩
      · left
        simp [hok]
      · right
        refine ⟨hlast, ?_⟩
        rcases hp : env.PushContext p.pusher j with _ | e
        · exact absurd hp hne
        · exact ⟨e, rfl⟩)
    (by simp only; omega)
  obtain ⟨r, hr, ht, he⟩ := h
  refine ⟨r, hr, ht, ?_⟩
  rw [he]
  simp only [op_eq]
  cases env.PushContext p.pusher j <;> rfl

/-- Within the 15 minutes that `Retry` allows, against an endpoint whose first
`1 + retries` pushes fail, `program.run` makes all its retries, each after a
wait. -/
theorem run_exhausts_retries (p : program) (env : RunEnv) (D : Nat)
    (hd : 0 ≤ p.retryDelay) (hmax : 30 * p.retryDelay < 2 ^ 53)
    (hretries : p.retries + 1 < 2 ^ 64)
    (hcancel : env.cancel = none) (hlat : ∀ n, env.latency n ≤ D)
    (hbudget : (p.retries : Int) * (D + (11 * p.retryDelay + 3)) ≤ DefaultMaxElapsedTime)
    (hfail : ∀ n, 1 ≤ n → n ≤ 1 + p.retries → env.PushContext p.pusher n ≠ none) :
    ∃ r, p.run env (p.retries + 1) = some r ∧ r.tries = 1 + p.retries ∧
      r.slept.length = p.retries := by
  obtain ⟨r, hr, ht, -⟩ := run_ends p env D (p.retries + 1) hd hmax hretries hcancel hlat
    hbudget (by omega) (1 + p.retries) (by omega) (le_refl _)
    (fun n hn1 hn2 => hfail n hn1 (by omega))
    (Or.inr ⟨rfl, hfail _ (by omega) (le_refl _)⟩)
  refine ⟨r, hr, ht, ?_⟩
  rcases run_waits_before_retries p env _ r hd hmax hr with ⟨h1, -⟩ | ⟨-, -, h3⟩
  · omega
  · exact absurd hcancel h3

/-- C5, refuted: with `retryDelay` 10s against an endpoint that always fails
and draws of 0.75, the run is push, wait 10.5s, push, wait 15.75s, push; the
delay before the second retry is 15.75s, which is not within 10% of the
doubled 20s. -/
theorem run_second_delay_not_doubled :
    program.run ⟨2, 10 * Second, samplePusher⟩ teapotForever 3 =
      some ⟨some (.msg "unexpected status code 418"), 3,
        [(.msg "unexpected status code 418", 10500000000),
          (.msg "unexpected status code 418", 15750000000)],
        [10500000000, 15750000000],
        [Step.attempt 1, Step.wait 10500000000, Step.attempt 2, Step.wait 15750000000,
          Step.attempt 3]⟩ ∧
    doublingInterval (10 * Second) 1 = 20000000000 ∧
    ¬ (9 * doublingInterval (10 * Second) 1 ≤ 10 * 15750000000 ∧
      10 * 15750000000 ≤ 11 * doublingInterval (10 * Second) 1) := by
  decide!

/-- C5, amended: let `retryDelay` be at least 0 and at most `2^53 / 30`
nanoseconds (about 3.47 days), so that `float64` holds the intervals exactly.
Then `program.run` returns within `1 + retries` iterations when `1 + retries`
does not wrap.  Whenever it returns, its pushes and waits alternate: push 1,
wait `slept[0]`, push 2, wait `slept[1]`, and so on up to the last push, so the
delay waited before retry `n + 1` is `slept[n]` (when the context is cancelled
during a wait, the trace ends with that wait).  That delay is within 10% of the
nominal interval `n`, up to three nanoseconds of `float64` rounding and of
cutting to whole nanoseconds; the nominal interval starts at `retryDelay`, is
multiplied by 1.5 after each delay and is capped at `10 * retryDelay`.  And the
retries do happen: when the context is never cancelled, every push takes at
most `D` nanoseconds, `retries * (D + 11 * retryDelay + 3)` stays within the 15
minutes `Retry` allows and the first `1 + retries` pushes fail, the run makes
`1 + retries` pushes and waits `retries` delays. -/
theorem run_delay_within_jitter (p : program) (env : RunEnv)
    (hd : 0 ≤ p.retryDelay) (hmax : 30 * p.retryDelay < 2 ^ 53) :
    (p.retries + 1 < 2 ^ 64 → ∃ r, p.run env (p.retries + 1) = some r) ∧
    (∀ fuel r, p.run env fuel = some r →
      (r.tries = r.slept.length + 1 ∧
        r.trace = attemptsAndWaits 1 r.slept ++ [Step.attempt r.tries]) ∨
      (r.tries = r.slept.length ∧ r.trace = attemptsAndWaits 1 r.slept ∧
        env.cancel ≠ none)) ∧
    (∀ fuel r, p.run env fuel = some r → ∀ n v, r.slept[n]? = some v →
      9 * nominalInterval p.retryDelay n - 10 ≤ 10 * v ∧
      10 * v ≤ 11 * nominalInterval p.retryDelay n + 30) ∧
    nominalInterval p.retryDelay 0 = p.retryDelay ∧
    (∀ n, nominalInterval p.retryDelay (n + 1) =
      min (nominalInterval p.retryDelay n * 3 / 2) (10 * p.retryDelay)) ∧
    (∀ D : Nat, p.retries + 1 < 2 ^ 64 → env.cancel = none → (∀ n, env.latency n ≤ D) →
      (p.retries : Int) * (D + (11 * p.retryDelay + 3)) ≤ DefaultMaxElapsedTime →
      (∀ n, 1 ≤ n → n ≤ 1 + p.retries → env.PushContext p.pusher n ≠ none) →
      ∃ r, p.run env (p.retries + 1) = some r ∧ r.tries = 1 + p.retries ∧
        r.slept.length = p.retries) := by
  refine ⟨run_total p env hd hmax, ?_, ?_, rfl, fun n => rfl, ?_⟩
  · intro fuel r hrun
    exact run_waits_before_retries p env fuel r hd hmax hrun
  · intro fuel r hrun n v hv
    rw [run_slept_get p env fuel r hd hmax hrun n v hv]
    obtain ⟨-, -, h3, h4⟩ :=
      jitteredDelay_bounds env.Float64 env.Float64_lt p.retryDelay hd hmax n
    exact ⟨h3, h4⟩
  · intro D hretries hcancel hlat hbudget hfail
    exact run_exhausts_retries p env D hd hmax hretries hcancel hlat hbudget hfail

/-- C5, amended, at a `retryDelay` of 10s, three retries and an endpoint that
always fails: the delay before the third retry is 23.625s, within 10% of the
nominal 22.5s, and the run makes its four pushes with three waits between
them. -/
theorem run_delay_within_jitter_witness :
    (9 * nominalInterval (10 * Second) 2 - 10 ≤ 10 * 23625000000 ∧
      10 * 23625000000 ≤ 11 * nominalInterval (10 * Second) 2 + 30) ∧
    (∃ r, program.run ⟨3, 10 * Second, samplePusher⟩ teapotForever (3 + 1) = some r ∧
      r.tries = 1 + 3 ∧ r.slept.length = 3) :=
  ⟨(run_delay_within_jitter ⟨3, 10 * Second, samplePusher⟩ teapotForever
      (by decide) (by decide)).2.2.1 4
      ⟨some (.msg "unexpected status code 418"), 4,
        [(.msg "unexpected status code 418", 10500000000),
          (.msg "unexpected status code 418", 15750000000),
          (.msg "unexpected status code 418", 23625000000)],
        [10500000000, 15750000000, 23625000000],
        [Step.attempt 1, Step.wait 10500000000, Step.attempt 2, Step.wait 15750000000,
          Step.attempt 3, Step.wait 23625000000, Step.attempt 4]⟩
      (by decide!) 2 23625000000 (by decide),
    (run_delay_within_jitter ⟨3, 10 * Second, samplePusher⟩ teapotForever
      (by decide) (by decide)).2.2.2.2.2 1000000 (by decide) rfl (fun _ => le_refl _)
      (by decide) (fun _ _ _ => Option.some_ne_none _)⟩

/-- C6, refuted: with `retryDelay` 10s against an endpoint that always fails
and draws of 0.75, the delay waited before the seventh retry is 105s, more than
ten times `retryDelay`. -/
theorem run_delay_exceeds_cap :
    (program.run ⟨7, 10 * Second, samplePusher⟩ teapotForever 8).map
        (fun r => (r.tries, r.trace)) =
      some (8,
        [Step.attempt 1, Step.wait 10500000000, Step.attempt 2, Step.wait 15750000000,
          Step.attempt 3, Step.wait 23625000000, Step.attempt 4, Step.wait 35437500000,
          Step.attempt 5, Step.wait 53156250000, Step.attempt 6, Step.wait 79734375000,
          Step.attempt 7, Step.wait 105000000000, Step.attempt 8]) ∧
    ¬ ((105000000000 : Int) ≤ 10 * (10 * Second)) := by
  decide!

/-- C6, amended: let `retryDelay` be at least 0 and at most `2^53 / 30`
nanoseconds (about 3.47 days), so that `float64` holds the intervals exactly.
Then `program.run` returns within `1 + retries` iterations when `1 + retries`
does not wrap.  Whenever it returns, its pushes and waits alternate: push 1,
wait `slept[0]`, push 2, wait `slept[1]`, and so on up to the last push, so
every retry comes after exactly one of the delays `slept` (when the context is
cancelled during a wait, the trace ends with that wait).  Every such delay is
at least 0 and at most `11 * retryDelay` plus three nanoseconds: the cap of
`10 * retryDelay`, the jitter of a tenth on top of it, and the rounding of
`float64`.  And the retries do happen: when the context is never cancelled,
every push takes at most `D` nanoseconds, `retries * (D + 11 * retryDelay + 3)`
stays within the 15 minutes `Retry` allows and the first `1 + retries` pushes
fail, the run makes `1 + retries` pushes and waits `retries` delays. -/
theorem run_delay_bounded (p : program) (env : RunEnv)
    (hd : 0 ≤ p.retryDelay) (hmax : 30 * p.retryDelay < 2 ^ 53) :
    (p.retries + 1 < 2 ^ 64 → ∃ r, p.run env (p.retries + 1) = some r) ∧
    (∀ fuel r, p.run env fuel = some r →
      (r.tries = r.slept.length + 1 ∧
        r.trace = attemptsAndWaits 1 r.slept ++ [Step.attempt r.tries]) ∨
      (r.tries = r.slept.length ∧ r.trace = attemptsAndWaits 1 r.slept ∧
        env.cancel ≠ none)) ∧
    (∀ fuel r, p.run env fuel = some r → ∀ v ∈ r.slept,
      0 ≤ v ∧ v ≤ 11 * p.retryDelay + 3) ∧
    (∀ D : Nat, p.retries + 1 < 2 ^ 64 → env.cancel = none → (∀ n, env.latency n ≤ D) →
      (p.retries : Int) * (D + (11 * p.retryDelay + 3)) ≤ DefaultMaxElapsedTime →
      (∀ n, 1 ≤ n → n ≤ 1 + p.retries → env.PushContext p.pusher n ≠ none) →
      ∃ r, p.run env (p.retries + 1) = some r ∧ r.tries = 1 + p.retries ∧
        r.slept.length = p.retries) := by
  refine ⟨run_total p env hd hmax, ?_, ?_, ?_⟩
  · intro fuel r hrun
    exact run_waits_before_retries p env fuel r hd hmax hrun
  · intro fuel r hrun v hv
    obtain ⟨n, hn⟩ := List.getElem?_of_mem hv
    rw [run_slept_get p env fuel r hd hmax hrun n v hn]
    obtain ⟨h1, h2, -, -⟩ :=
      jitteredDelay_bounds env.Float64 env.Float64_lt p.retryDelay hd hmax n
    exact ⟨h1, h2⟩
  · intro D hretries hcancel hlat hbudget hfail
    exact run_exhausts_retries p env D hd hmax hretries hcancel hlat hbudget hfail

/-- C6, amended, at a `retryDelay` of 10s, seven retries and an endpoint that
always fails, with every draw the largest value below 1: the delay before the
seventh retry is 110.000000001s, one nanosecond above eleven times
`retryDelay`, and the run makes its eight pushes with seven waits between
them. -/
theorem run_delay_bounded_witness :
    ((0 : Int) ≤ 110000000001 ∧ (110000000001 : Int) ≤ 11 * (10 * Second) + 3) ∧
    (∃ r, program.run ⟨7, 10 * Second, samplePusher⟩ teapotLargestDraw (7 + 1) = some r ∧
      r.tries = 1 + 7 ∧ r.slept.length = 7) :=
  ⟨(run_delay_bounded ⟨7, 10 * Second, samplePusher⟩ teapotLargestDraw
      (by decide) (by decide)).2.2.1 8
      ⟨some (.msg "unexpected status code 418"), 8,
        [(.msg "unexpected status code 418", 11000000001),
          (.msg "unexpected status code 418", 16500000001),
          (.msg "unexpected status code 418", 24750000001),
          (.msg "unexpected status code 418", 37125000001),
          (.msg "unexpected status code 418", 55687500001),
          (.msg "unexpected status code 418", 83531250001),
          (.msg "unexpected status code 418", 110000000001)],
        [11000000001, 16500000001, 24750000001, 37125000001, 55687500001, 83531250001,
          110000000001],
        [Step.attempt 1, Step.wait 11000000001, Step.attempt 2, Step.wait 16500000001,
          Step.attempt 3, Step.wait 24750000001, Step.attempt 4, Step.wait 37125000001,
          Step.attempt 5, Step.wait 55687500001, Step.attempt 6, Step.wait 83531250001,
          Step.attempt 7, Step.wait 110000000001, Step.attempt 8]⟩
      (by decide!) 110000000001 (by decide),
    (run_delay_bounded ⟨7, 10 * Second, samplePusher⟩ teapotLargestDraw
      (by decide) (by decide)).2.2.2 1000000 (by decide) rfl (fun _ => le_refl _)
      (by decide) (fun _ _ _ => Option.some_ne_none _)⟩

/-- C1, at the failing input: with two retries and a `retryDelay` of two hours
against an endpoint that always fails, `program.run` makes one push, not
three, and returns the error of that push without any wait: the first delay of
about two hours exceeds the 15 minutes that `Retry` allows by default, a limit
`program.run` does not lift.  The same loop without that limit
(`MaxElapsedTime` 0) makes the three pushes, after waits of 2.1 and 3.15
hours. -/
theorem run_single_attempt_with_long_delay :
    program.run ⟨2, 7200 * Second, samplePusher⟩ teapotForever 3 =
      some ⟨some (.msg "unexpected status code 418"), 1, [], [], [Step.attempt 1]⟩ ∧
    (retryLoop
      { operation := program.op ⟨2, 7200 * Second, samplePusher⟩ teapotForever,
        latency := teapotForever.latency, Float64 := teapotForever.Float64,
        Float64_lt := teapotForever.Float64_lt, cancel := teapotForever.cancel }
      { BackOff := backOffAfter (7200 * Second) 0, Notify := true, MaxTries := 3,
        MaxElapsedTime := 0 }
      3
      { numTries := 1, now := 0, BackOff := backOffAfter (7200 * Second) 0, draws := 0,
        notified := [], slept := [], trace := [] }).map (fun r => (r.tries, r.slept)) =
      some (3, [7560000000000, 11340000000000]) := by
  decide!

/-! ## registerFlags -/

/-- The characters of a rendered flag. -/
theorem toList_render (name value : String) :
    ("-" ++ name ++ "=" ++ value).toList = '-' :: (name.toList ++ '=' :: value.toList) := by
  simp [String.toList]

/-- Parsing one rendered flag of the program applies it and goes on. -/
theorem parseArgs_render_cons (c : Conversions) (fs : FlagSet) (hfs : fs.formal = definedFlags)
    (f : String × String) (hf : f.1 ∈ flagNames) (rest : List String) (o : programOptions) :
    fs.parseArgs c (("-" ++ f.1 ++ "=" ++ f.2) :: rest) o =
      match applyFlag c f o with
      | (o, some err) =>
        (o, rest, some (.wrap "invalid value %q for flag -%s: %v" [f.2, f.1] err))
      | (o, none) => fs.parseArgs c rest o := by
  obtain ⟨name, value⟩ := f
  simp only [flagNames, List.mem_cons, List.mem_singleton, List.not_mem_nil, or_false] at hf
  rcases hf with h | h | h | h | h | h | h | h | h <;> subst h
  all_goals rw [FlagSet.parseArgs, toList_render]
  all_goals simp [cutValue, FlagSet.lookup, hfs, definedFlags, applyFlag, Value.Set]

/-- What a flag that was applied without error has stored. -/
theorem applyFlag_ok (c : Conversions) (f : String × String) (o o1 : programOptions)
    (hf : f.1 ∈ flagNames) (h : applyFlag c f o = (o1, none)) :
    (f.1 = "gateway" ∧ o1 = { o with URL := f.2 }) ∨
    (f.1 = "cacert" ∧ o1 = { o with RootCAFile := f.2 }) ∨
    (f.1 = "cert" ∧ o1 = { o with CertFile := f.2 }) ∨
    (f.1 = "key" ∧ o1 = { o with KeyFile := f.2 }) ∨
    (f.1 = "job" ∧ o1 = { o with Job := f.2 }) ∨
    (f.1 = "instance" ∧ o1 = { o with Instance := f.2 }) ∨
    (f.1 = "metrics" ∧ o1 = { o with MetricsFile := f.2 }) ∨
    (f.1 = "retries" ∧ ∃ n, c.flagUint f.2 = .ok n ∧ o1 = { o with Retries := n }) ∨
    (f.1 = "retry_delay" ∧ ∃ d, c.ParseDuration f.2 = .ok d ∧ o1 = { o with RetryDelay := d }) := by
  obtain ⟨name, value⟩ := f
  simp only [flagNames, List.mem_cons, List.mem_singleton, List.not_mem_nil, or_false] at hf
  rcases hf with hn | hn | hn | hn | hn | hn | hn | hn | hn <;> subst hn
  · simp [applyFlag, definedFlags, Value.Set] at h
    simp [h]
  · simp [applyFlag, definedFlags, Value.Set] at h
    simp [h]
  · simp [applyFlag, definedFlags, Value.Set] at h
    simp [h]
  · simp [applyFlag, definedFlags, Value.Set] at h
    simp [h]
  · rcases hu : c.flagUint value with e | n
    · simp [applyFlag, definedFlags, Value.Set, hu] at h
    · simp [applyFlag, definedFlags, Value.Set, hu] at h
      simp [h]
  · rcases hu : c.ParseDuration value with e | d
    · simp [applyFlag, definedFlags, Value.Set, hu] at h
    · simp [applyFlag, definedFlags, Value.Set, hu] at h
      simp [h]
  · simp [applyFlag, definedFlags, Value.Set] at h
    simp [h]
  · simp [applyFlag, definedFlags, Value.Set] at h
    simp [h]
  · simp [applyFlag, definedFlags, Value.Set] at h
    simp [h]

/-- One option through the parsing of rendered flags.  `get` reads the option,
`R v a` says that the text `v` denotes the value `a`; when applying a flag
named `name` stores a value its text denotes and applying any other flag leaves
the option alone, the option ends up denoted by the last text given for `name`,
or unchanged. -/
theorem parseArgs_render_get {α : Type} (get : programOptions → α) (R : String → α → Prop)
    (name : String) (c : Conversions) (fs : FlagSet) (hfs : fs.formal = definedFlags)
    (hstep : ∀ f o o1, f.1 ∈ flagNames → applyFlag c f o = (o1, none) →
      (f.1 = name → R f.2 (get o1)) ∧ (f.1 ≠ name → get o1 = get o))
    (flags : List (String × String)) (hnames : ∀ f ∈ flags, f.1 ∈ flagNames)
    (o o' : programOptions) (rest : List String)
    (h : fs.parseArgs c (renderFlags flags) o = (o', rest, none)) :
    match lastValue flags name with
    | some v => R v (get o')
    | none => get o' = get o := by
  induction flags generalizing o with
  | nil =>
    simp only [renderFlags, List.map_nil, FlagSet.parseArgs] at h
    cases h
    simp [lastValue]
  | cons f flags ih =>
    have hf : f.1 ∈ flagNames := hnames f (List.mem_cons_self _ _)
    have hrest : ∀ g ∈ flags, g.1 ∈ flagNames := fun g hg => hnames g (List.mem_cons_of_mem _ hg)
    simp only [renderFlags, List.map_cons] at h
    rw [parseArgs_render_cons c fs hfs f hf] at h
    rcases happ : applyFlag c f o with ⟨o1, _ | err⟩
    swap
    · rw [happ] at h
      cases h
    · rw [happ] at h
      have ih' := ih hrest o1 h
      obtain ⟨hyes, hno⟩ := hstep f o o1 hf happ
      simp only [lastValue]
      rcases hl : lastValue flags name with _ | v
      · rw [hl] at ih'
        simp only at ih'
        by_cases hn : f.1 = name
        · simp only [hn, if_true]
          rw [ih']
          exact hyes hn
        · simp only [hn, if_false]
          rw [ih']
          exact hno hn
      · rw [hl] at ih'
        exact ih'

/-- Library function `setField` on a string field without default: the field
takes the text of the variable unless that text is empty. -/
theorem setField_plain (opts : Options) (key : String)
    (upd : String → programOptions → programOptions) (o : programOptions) :
    setField opts ⟨key, "", false, fun v o => .ok (upd v o)⟩ o =
      (if (opts.Environment (opts.Prefix ++ key)).getD "" = "" then o
        else upd ((opts.Environment (opts.Prefix ++ key)).getD "") o, none) := by
  rcases he : opts.Environment (opts.Prefix ++ key) with _ | v
  · simp [setField, getOr, he]
  · by_cases hv : v = "" <;> simp [setField, getOr, he, hv]

/-- Library function `setField` on a field with a default: the text converted
is that of the variable, or the default when the variable is unset or empty. -/
theorem setField_default (opts : Options) (key dflt : String) (hd : dflt ≠ "")
    (hk : opts.Prefix ++ key ≠ "")
    (set : String → programOptions → Except GoError programOptions) (o : programOptions) :
    setField opts ⟨key, dflt, true, set⟩ o =
      match set (getOr (opts.Prefix ++ key) dflt true opts.Environment).1 o with
      | .ok o => (o, none)
      | .error err => (o, some (.wrap "parse error on field: %v" [key] err)) := by
  have hne : (getOr (opts.Prefix ++ key) dflt true opts.Environment).1 ≠ "" := by
    rcases he : opts.Environment (opts.Prefix ++ key) with _ | v
    · simp [getOr, he, hd]
    · by_cases hv : v = "" <;> simp [getOr, he, hv, hd, hk]
  simp only [setField, ne_eq, hne, not_false_eq_true, if_true]

/-- A string field without default leaves alone what its store leaves alone. -/
theorem setField_plain_keeps {α : Type} (get : programOptions → α) (opts : Options)
    (key : String) (upd : String → programOptions → programOptions)
    (hupd : ∀ v o, get (upd v o) = get o) (o o1 : programOptions) (e : Option GoError)
    (h : setField opts ⟨key, "", false, fun v o => .ok (upd v o)⟩ o = (o1, e)) :
    get o1 = get o := by
  rw [setField_plain] at h
  obtain ⟨h1, -⟩ := Prod.mk.inj h
  rw [← h1]
  split
  · rfl
  · exact hupd _ _

/-- A converted field leaves alone what its store leaves alone. -/
theorem setField_mapped_keeps {α β : Type} (get : programOptions → α) (opts : Options)
    (key dflt : String) (hasDefault : Bool) (parse : String → Except GoError β)
    (upd : β → programOptions → programOptions)
    (hupd : ∀ v o, get (upd v o) = get o) (o o1 : programOptions) (e : Option GoError)
    (h : setField opts ⟨key, dflt, hasDefault, fun v o => (parse v).map fun n => upd n o⟩ o
      = (o1, e)) :
    get o1 = get o := by
  simp only [setField] at h
  split at h
  · rcases hp : parse (getOr (opts.Prefix ++ key) dflt hasDefault opts.Environment).1
      with err | n
    · simp only [hp, Except.map] at h
      obtain ⟨h1, -⟩ := Prod.mk.inj h
      rw [← h1]
    · simp only [hp, Except.map] at h
      obtain ⟨h1, -⟩ := Prod.mk.inj h
      rw [← h1]
      exact hupd _ _
  · obtain ⟨h1, -⟩ := Prod.mk.inj h
    rw [← h1]

/-- A string field without default, empty before, holds the text of its
variable afterwards, the empty text when the variable is unset. -/
theorem setField_plain_sets (get : programOptions → String) (opts : Options)
    (key : String) (upd : String → programOptions → programOptions)
    (hupd : ∀ v o, get (upd v o) = v) (o o1 : programOptions) (e : Option GoError)
    (hzero : get o = "")
    (h : setField opts ⟨key, "", false, fun v o => .ok (upd v o)⟩ o = (o1, e)) :
    get o1 = (opts.Environment (opts.Prefix ++ key)).getD "" := by
  rw [setField_plain] at h
  obtain ⟨h1, -⟩ := Prod.mk.inj h
  rw [← h1]
  split
  · rename_i hv
    rw [hzero, hv]
  · exact hupd _ _

/-- A converted field with a default, set without error, holds the conversion
of the text `getOr` chose. -/
theorem setField_mapped_sets {β : Type} (get : programOptions → β) (opts : Options)
    (key dflt : String) (hd : dflt ≠ "") (hk : opts.Prefix ++ key ≠ "")
    (parse : String → Except GoError β) (upd : β → programOptions → programOptions)
    (hupd : ∀ v o, get (upd v o) = v) (o o1 : programOptions)
    (h : setField opts ⟨key, dflt, true, fun v o => (parse v).map fun n => upd n o⟩ o
      = (o1, none)) :
    parse (getOr (opts.Prefix ++ key) dflt true opts.Environment).1 = .ok (get o1) := by
  rw [setField_default opts key dflt hd hk] at h
  rcases hp : parse (getOr (opts.Prefix ++ key) dflt true opts.Environment).1 with err | n
  · simp only [hp, Except.map] at h
    obtain ⟨-, h2⟩ := Prod.mk.inj h
    cases h2
  · simp only [hp, Except.map] at h
    obtain ⟨h1, -⟩ := Prod.mk.inj h
    rw [← h1, hupd]

/-- Fields that leave an option alone leave it alone together. -/
theorem doParse_keeps {α : Type} (get : programOptions → α) (opts : Options)
    (fields : List FieldParams)
    (hkeep : ∀ g ∈ fields, ∀ o o1 e, setField opts g o = (o1, e) → get o1 = get o)
    (o o' : programOptions) (errs : List GoError)
    (h : doParse opts fields o = (o', errs)) : get o' = get o := by
  induction fields generalizing o o' errs with
  | nil =>
    simp only [doParse] at h
    obtain ⟨h1, -⟩ := Prod.mk.inj h
    rw [← h1]
  | cons f fields ih =>
    have hrest : ∀ g ∈ fields, ∀ o o1 e, setField opts g o = (o1, e) → get o1 = get o :=
      fun g hg => hkeep g (List.mem_cons_of_mem _ hg)
    simp only [doParse] at h
    rcases hs : setField opts f o with ⟨o1, _ | err⟩
    · rw [hs] at h
      simp only at h
      rw [ih hrest o1 o' errs h]
      exact hkeep f (List.mem_cons_self _ _) o o1 none hs
    · rw [hs] at h
      simp only at h
      rcases hd : doParse opts fields o1 with ⟨o2, errs2⟩
      rw [hd] at h
      obtain ⟨h1, -⟩ := Prod.mk.inj h
      simp only at h1
      rw [← h1, ih hrest o1 o2 errs2 hd]
      exact hkeep f (List.mem_cons_self _ _) o o1 (some err) hs

/-- One option through `doParse` when no field fails: the fields before its own
and after it leave it alone, its own establishes `Q`. -/
theorem doParse_get {α : Type} (get : programOptions → α) (Q : α → Prop) (opts : Options)
    (before after : List FieldParams) (f : FieldParams)
    (hbefore : ∀ g ∈ before, ∀ o o1 e, setField opts g o = (o1, e) → get o1 = get o)
    (hafter : ∀ g ∈ after, ∀ o o1 e, setField opts g o = (o1, e) → get o1 = get o)
    (o0 o' : programOptions)
    (hf : ∀ o o1, get o = get o0 → setField opts f o = (o1, none) → Q (get o1))
    (h : doParse opts (before ++ f :: after) o0 = (o', [])) : Q (get o') := by
  induction before generalizing o0 with
  | nil =>
    simp only [List.nil_append, doParse] at h
    rcases hs : setField opts f o0 with ⟨o1, _ | err⟩
    · rw [hs] at h
      simp only at h
      rw [doParse_keeps get opts after hafter o1 o' [] h]
      exact hf o0 o1 rfl hs
    · rw [hs] at h
      simp only at h
      rcases hd : doParse opts after o1 with ⟨o2, errs2⟩
      rw [hd] at h
      obtain ⟨-, h2⟩ := Prod.mk.inj h
      cases h2
  | cons g before ih =>
    have hrest : ∀ g ∈ before, ∀ o o1 e, setField opts g o = (o1, e) → get o1 = get o :=
      fun g hg => hbefore g (List.mem_cons_of_mem _ hg)
    simp only [List.cons_append, doParse] at h
    rcases hs : setField opts g o0 with ⟨o1, _ | err⟩
    · rw [hs] at h
      simp only at h
      have hk := hbefore g (List.mem_cons_self _ _) o0 o1 none hs
      exact ih hrest o1 (fun o o2 hget hset => hf o o2 (by rw [hget, hk]) hset) h
    · rw [hs] at h
      simp only at h
      obtain ⟨-, h2⟩ := Prod.mk.inj h
      cases h2

/-- A key with the prefix of the program is not the empty text. -/
theorem prompush_key_ne (key : String) : "PROMPUSH_" ++ key ≠ "" := by
  intro h
  have hlen := congrArg String.length h
  rw [String.length_append] at hlen
  have h9 : "PROMPUSH_".length = 9 := by decide
  have h0 : "".length = 0 := by decide
  omega

/-- What `registerFlags` leaves when it returns no error: the nine flags
defined, each string option holding the text of its variable, and the retries
and the delay converted from the text of their variable or from the default. -/
theorem registerFlags_ok (c : Conversions) (environ : String → Option String)
    (o : programOptions) (fs : FlagSet)
    (h : programOptions.registerFlags c programOptions.zero NewFlagSet environ = (o, fs, none)) :
    fs.formal = definedFlags ∧
    o.URL = (environ "PROMPUSH_URL").getD "" ∧
    o.RootCAFile = (environ "PROMPUSH_CACERT_FILE").getD "" ∧
    o.CertFile = (environ "PROMPUSH_CERT_FILE").getD "" ∧
    o.KeyFile = (environ "PROMPUSH_KEY_FILE").getD "" ∧
    o.Job = (environ "PROMPUSH_JOB_NAME").getD "" ∧
    o.Instance = (environ "PROMPUSH_INSTANCE_NAME").getD "" ∧
    o.MetricsFile = (environ "PROMPUSH_METRICS_FILE").getD "" ∧
    c.envUint (getOr "PROMPUSH_RETRIES" "2" true environ).1 = .ok o.Retries ∧
    c.ParseDuration (getOr "PROMPUSH_RETRY_DELAY" "10s" true environ).1 = .ok o.RetryDelay := by
  simp only [programOptions.registerFlags, ParseWithOptions] at h
  rcases hd0 : doParse { Environment := environ, Prefix := "PROMPUSH_" }
    (programOptions.fields c) programOptions.zero with ⟨o0, errs⟩
  rw [hd0] at h
  cases errs with
  | cons err errs =>
    simp only at h
    obtain ⟨-, h2⟩ := Prod.mk.inj h
    obtain ⟨-, h3⟩ := Prod.mk.inj h2
    cases h3
  | nil =>
    simp only [FlagSet.StringVar, FlagSet.UintVar, FlagSet.DurationVar, FlagSet.Var,
      NewFlagSet] at h
    obtain ⟨h1, h2⟩ := Prod.mk.inj h
    obtain ⟨h3, -⟩ := Prod.mk.inj h2
    have ho : o = o0 := h1.symm
    subst ho
    have hd : doParse { Environment := environ, Prefix := "PROMPUSH_" }
      (programOptions.fields c) programOptions.zero = (o, []) := hd0
    simp only [programOptions.fields] at hd
    refine ⟨by rw [← h3]; rfl, ?_⟩
    have hURL := doParse_get (fun o => o.URL)
        (fun a => a = (environ "PROMPUSH_URL").getD "")
        { Environment := environ, Prefix := "PROMPUSH_" }
        []
        [⟨"CACERT_FILE", "", false, fun v o => .ok { o with RootCAFile := v }⟩,
          ⟨"CERT_FILE", "", false, fun v o => .ok { o with CertFile := v }⟩,
          ⟨"KEY_FILE", "", false, fun v o => .ok { o with KeyFile := v }⟩,
          ⟨"RETRIES", "2", true, fun v o => (c.envUint v).map fun n => { o with Retries := n }⟩,
          ⟨"RETRY_DELAY", "10s", true, fun v o => (c.ParseDuration v).map fun d => { o with RetryDelay := d }⟩,
          ⟨"JOB_NAME", "", false, fun v o => .ok { o with Job := v }⟩,
          ⟨"INSTANCE_NAME", "", false, fun v o => .ok { o with Instance := v }⟩,
          ⟨"METRICS_FILE", "", false, fun v o => .ok { o with MetricsFile := v }⟩]
        ⟨"URL", "", false, fun v o => .ok { o with URL := v }⟩
        (by
          intro g hg
          cases hg)
        (by
          intro g hg o o1 e hs
          simp only [List.mem_cons, List.mem_singleton, List.not_mem_nil, or_false] at hg
          rcases hg with rfl | rfl | rfl | rfl | rfl | rfl | rfl | rfl
          · exact setField_plain_keeps _ _ _ _ (by intro _ _; rfl) _ _ _ hs
          · exact setField_plain_keeps _ _ _ _ (by intro _ _; rfl) _ _ _ hs
          · exact setField_plain_keeps _ _ _ _ (by intro _ _; rfl) _ _ _ hs
          · exact setField_mapped_keeps _ _ _ _ _ _ _ (by intro _ _; rfl) _ _ _ hs
          · exact setField_mapped_keeps _ _ _ _ _ _ _ (by intro _ _; rfl) _ _ _ hs
          · exact setField_plain_keeps _ _ _ _ (by intro _ _; rfl) _ _ _ hs
          · exact setField_plain_keeps _ _ _ _ (by intro _ _; rfl) _ _ _ hs
          · exact setField_plain_keeps _ _ _ _ (by intro _ _; rfl) _ _ _ hs)
        programOptions.zero o
        (by
          intro o1 o2 hget hs
          exact setField_plain_sets (fun o => o.URL) _ _ _ (by intro _ _; rfl) _ _ _ hget hs)
        hd
    have hRootCAFile := doParse_get (fun o => o.RootCAFile)
        (fun a => a = (environ "PROMPUSH_CACERT_FILE").getD "")
        { Environment := environ, Prefix := "PROMPUSH_" }
        [⟨"URL", "", false, fun v o => .ok { o with URL := v }⟩]
        [⟨"CERT_FILE", "", false, fun v o => .ok { o with CertFile := v }⟩,
          ⟨"KEY_FILE", "", false, fun v o => .ok { o with KeyFile := v }⟩,
          ⟨"RETRIES", "2", true, fun v o => (c.envUint v).map fun n => { o with Retries := n }⟩,
          ⟨"RETRY_DELAY", "10s", true, fun v o => (c.ParseDuration v).map fun d => { o with RetryDelay := d }⟩,
          ⟨"JOB_NAME", "", false, fun v o => .ok { o with Job := v }⟩,
          ⟨"INSTANCE_NAME", "", false, fun v o => .ok { o with Instance := v }⟩,
          ⟨"METRICS_FILE", "", false, fun v o => .ok { o with MetricsFile := v }⟩]
        ⟨"CACERT_FILE", "", false, fun v o => .ok { o with RootCAFile := v }⟩
        (by
          intro g hg o o1 e hs
          simp only [List.mem_cons, List.mem_singleton, List.not_mem_nil, or_false] at hg
          subst hg
          exact setField_plain_keeps _ _ _ _ (by intro _ _; rfl) _ _ _ hs)
        (by
          intro g hg o o1 e hs
          simp only [List.mem_cons, List.mem_singleton, List.not_mem_nil, or_false] at hg
          rcases hg with rfl | rfl | rfl | rfl | rfl | rfl | rfl
          · exact setField_plain_keeps _ _ _ _ (by intro _ _; rfl) _ _ _ hs
          · exact setField_plain_keeps _ _ _ _ (by intro _ _; rfl) _ _ _ hs
          · exact setField_mapped_keeps _ _ _ _ _ _ _ (by intro _ _; rfl) _ _ _ hs
          · exact setField_mapped_keeps _ _ _ _ _ _ _ (by intro _ _; rfl) _ _ _ hs
          · exact setField_plain_keeps _ _ _ _ (by intro _ _; rfl) _ _ _ hs
          · exact setField_plain_keeps _ _ _ _ (by intro _ _; rfl) _ _ _ hs
          · exact setField_plain_keeps _ _ _ _ (by intro _ _; rfl) _ _ _ hs)
        programOptions.zero o
        (by
          intro o1 o2 hget hs
          exact setField_plain_sets (fun o => o.RootCAFile) _ _ _ (by intro _ _; rfl) _ _ _ hget hs)
        hd
    have hCertFile := doParse_get (fun o => o.CertFile)
        (fun a => a = (environ "PROMPUSH_CERT_FILE").getD "")
        { Environment := environ, Prefix := "PROMPUSH_" }
        [⟨"URL", "", false, fun v o => .ok { o with URL := v }⟩,
          ⟨"CACERT_FILE", "", false, fun v o => .ok { o with RootCAFile := v }⟩]
        [⟨"KEY_FILE", "", false, fun v o => .ok { o with KeyFile := v }⟩,
          ⟨"RETRIES", "2", true, fun v o => (c.envUint v).map fun n => { o with Retries := n }⟩,
          ⟨"RETRY_DELAY", "10s", true, fun v o => (c.ParseDuration v).map fun d => { o with RetryDelay := d }⟩,
          ⟨"JOB_NAME", "", false, fun v o => .ok { o with Job := v }⟩,
          ⟨"INSTANCE_NAME", "", false, fun v o => .ok { o with Instance := v }⟩,
          ⟨"METRICS_FILE", "", false, fun v o => .ok { o with MetricsFile := v }⟩]
        ⟨"CERT_FILE", "", false, fun v o => .ok { o with CertFile := v }⟩
        (by
          intro g hg o o1 e hs
          simp only [List.mem_cons, List.mem_singleton, List.not_mem_nil, or_false] at hg
          rcases hg with rfl | rfl
          · exact setField_plain_keeps _ _ _ _ (by intro _ _; rfl) _ _ _ hs
          · exact setField_plain_keeps _ _ _ _ (by intro _ _; rfl) _ _ _ hs)
        (by
          intro g hg o o1 e hs
          simp only [List.mem_cons, List.mem_singleton, List.not_mem_nil, or_false] at hg
          rcases hg with rfl | rfl | rfl | rfl | rfl | rfl
          · exact setField_plain_keeps _ _ _ _ (by intro _ _; rfl) _ _ _ hs
          · exact setField_mapped_keeps _ _ _ _ _ _ _ (by intro _ _; rfl) _ _ _ hs
          · exact setField_mapped_keeps _ _ _ _ _ _ _ (by intro _ _; rfl) _ _ _ hs
          · exact setField_plain_keeps _ _ _ _ (by intro _ _; rfl) _ _ _ hs
          · exact setField_plain_keeps _ _ _ _ (by intro _ _; rfl) _ _ _ hs
          · exact setField_plain_keeps _ _ _ _ (by intro _ _; rfl) _ _ _ hs)
        programOptions.zero o
        (by
          intro o1 o2 hget hs
          exact setField_plain_sets (fun o => o.CertFile) _ _ _ (by intro _ _; rfl) _ _ _ hget hs)
        hd
    have hKeyFile := doParse_get (fun o => o.KeyFile)
        (fun a => a = (environ "PROMPUSH_KEY_FILE").getD "")
        { Environment := environ, Prefix := "PROMPUSH_" }
        [⟨"URL", "", false, fun v o => .ok { o with URL := v }⟩,
          ⟨"CACERT_FILE", "", false, fun v o => .ok { o with RootCAFile := v }⟩,
          ⟨"CERT_FILE", "", false, fun v o => .ok { o with CertFile := v }⟩]
        [⟨"RETRIES", "2", true, fun v o => (c.envUint v).map fun n => { o with Retries := n }⟩,
          ⟨"RETRY_DELAY", "10s", true, fun v o => (c.ParseDuration v).map fun d => { o with RetryDelay := d }⟩,
          ⟨"JOB_NAME", "", false, fun v o => .ok { o with Job := v }⟩,
          ⟨"INSTANCE_NAME", "", false, fun v o => .ok { o with Instance := v }⟩,
          ⟨"METRICS_FILE", "", false, fun v o => .ok { o with MetricsFile := v }⟩]
        ⟨"KEY_FILE", "", false, fun v o => .ok { o with KeyFile := v }⟩
        (by
          intro g hg o o1 e hs
          simp only [List.mem_cons, List.mem_singleton, List.not_mem_nil, or_false] at hg
          rcases hg with rfl | rfl | rfl
          · exact setField_plain_keeps _ _ _ _ (by intro _ _; rfl) _ _ _ hs
          · exact setField_plain_keeps _ _ _ _ (by intro _ _; rfl) _ _ _ hs
          · exact setField_plain_keeps _ _ _ _ (by intro _ _; rfl) _ _ _ hs)
        (by
          intro g hg o o1 e hs
          simp only [List.mem_cons, List.mem_singleton, List.not_mem_nil, or_false] at hg
          rcases hg with rfl | rfl | rfl | rfl | rfl
          · exact setField_mapped_keeps _ _ _ _ _ _ _ (by intro _ _; rfl) _ _ _ hs
          · exact setField_mapped_keeps _ _ _ _ _ _ _ (by intro _ _; rfl) _ _ _ hs
          · exact setField_plain_keeps _ _ _ _ (by intro _ _; rfl) _ _ _ hs
          · exact setField_plain_keeps _ _ _ _ (by intro _ _; rfl) _ _ _ hs
          · exact setField_plain_keeps _ _ _ _ (by intro _ _; rfl) _ _ _ hs)
        programOptions.zero o
        (by
          intro o1 o2 hget hs
          exact setField_plain_sets (fun o => o.KeyFile) _ _ _ (by intro _ _; rfl) _ _ _ hget hs)
        hd
    have hRetries := doParse_get (fun o => o.Retries)
        (fun a => c.envUint (getOr "PROMPUSH_RETRIES" "2" true environ).1 = .ok a)
        { Environment := environ, Prefix := "PROMPUSH_" }
        [⟨"URL", "", false, fun v o => .ok { o with URL := v }⟩,
          ⟨"CACERT_FILE", "", false, fun v o => .ok { o with RootCAFile := v }⟩,
          ⟨"CERT_FILE", "", false, fun v o => .ok { o with CertFile := v }⟩,
          ⟨"KEY_FILE", "", false, fun v o => .ok { o with KeyFile := v }⟩]
        [⟨"RETRY_DELAY", "10s", true, fun v o => (c.ParseDuration v).map fun d => { o with RetryDelay := d }⟩,
          ⟨"JOB_NAME", "", false, fun v o => .ok { o with Job := v }⟩,
          ⟨"INSTANCE_NAME", "", false, fun v o => .ok { o with Instance := v }⟩,
          ⟨"METRICS_FILE", "", false, fun v o => .ok { o with MetricsFile := v }⟩]
        ⟨"RETRIES", "2", true, fun v o => (c.envUint v).map fun n => { o with Retries := n }⟩
        (by
          intro g hg o o1 e hs
          simp only [List.mem_cons, List.mem_singleton, List.not_mem_nil, or_false] at hg
          rcases hg with rfl | rfl | rfl | rfl
          · exact setField_plain_keeps _ _ _ _ (by intro _ _; rfl) _ _ _ hs
          · exact setField_plain_keeps _ _ _ _ (by intro _ _; rfl) _ _ _ hs
          · exact setField_plain_keeps _ _ _ _ (by intro _ _; rfl) _ _ _ hs
          · exact setField_plain_keeps _ _ _ _ (by intro _ _; rfl) _ _ _ hs)
        (by
          intro g hg o o1 e hs
          simp only [List.mem_cons, List.mem_singleton, List.not_mem_nil, or_false] at hg
          rcases hg with rfl | rfl | rfl | rfl
          · exact setField_mapped_keeps _ _ _ _ _ _ _ (by intro _ _; rfl) _ _ _ hs
          · exact setField_plain_keeps _ _ _ _ (by intro _ _; rfl) _ _ _ hs
          · exact setField_plain_keeps _ _ _ _ (by intro _ _; rfl) _ _ _ hs
          · exact setField_plain_keeps _ _ _ _ (by intro _ _; rfl) _ _ _ hs)
        programOptions.zero o
        (by
          intro o1 o2 _ hs
          exact setField_mapped_sets (fun o => o.Retries) _ "RETRIES" "2" (by decide)
            (prompush_key_ne "RETRIES") _ _ (by intro _ _; rfl) _ _ hs)
        hd
    have hRetryDelay := doParse_get (fun o => o.RetryDelay)
        (fun a => c.ParseDuration (getOr "PROMPUSH_RETRY_DELAY" "10s" true environ).1 = .ok a)
        { Environment := environ, Prefix := "PROMPUSH_" }
        [⟨"URL", "", false, fun v o => .ok { o with URL := v }⟩,
          ⟨"CACERT_FILE", "", false, fun v o => .ok { o with RootCAFile := v }⟩,
          ⟨"CERT_FILE", "", false, fun v o => .ok { o with CertFile := v }⟩,
          ⟨"KEY_FILE", "", false, fun v o => .ok { o with KeyFile := v }⟩,
          ⟨"RETRIES", "2", true, fun v o => (c.envUint v).map fun n => { o with Retries := n }⟩]
        [⟨"JOB_NAME", "", false, fun v o => .ok { o with Job := v }⟩,
          ⟨"INSTANCE_NAME", "", false, fun v o => .ok { o with Instance := v }⟩,
          ⟨"METRICS_FILE", "", false, fun v o => .ok { o with MetricsFile := v }⟩]
        ⟨"RETRY_DELAY", "10s", true, fun v o => (c.ParseDuration v).map fun d => { o with RetryDelay := d }⟩
        (by
          intro g hg o o1 e hs
          simp only [List.mem_cons, List.mem_singleton, List.not_mem_nil, or_false] at hg
          rcases hg with rfl | rfl | rfl | rfl | rfl
          · exact setField_plain_keeps _ _ _ _ (by intro _ _; rfl) _ _ _ hs
          · exact setField_plain_keeps _ _ _ _ (by intro _ _; rfl) _ _ _ hs
          · exact setField_plain_keeps _ _ _ _ (by intro _ _; rfl) _ _ _ hs
          · exact setField_plain_keeps _ _ _ _ (by intro _ _; rfl) _ _ _ hs
          · exact setField_mapped_keeps _ _ _ _ _ _ _ (by intro _ _; rfl) _ _ _ hs)
        (by
          intro g hg o o1 e hs
          simp only [List.mem_cons, List.mem_singleton, List.not_mem_nil, or_false] at hg
          rcases hg with rfl | rfl | rfl
          · exact setField_plain_keeps _ _ _ _ (by intro _ _; rfl) _ _ _ hs
          · exact setField_plain_keeps _ _ _ _ (by intro _ _; rfl) _ _ _ hs
          · exact setField_plain_keeps _ _ _ _ (by intro _ _; rfl) _ _ _ hs)
        programOptions.zero o
        (by
          intro o1 o2 _ hs
          exact setField_mapped_sets (fun o => o.RetryDelay) _ "RETRY_DELAY" "10s" (by decide)
            (prompush_key_ne "RETRY_DELAY") _ _ (by intro _ _; rfl) _ _ hs)
        hd
    have hJob := doParse_get (fun o => o.Job)
        (fun a => a = (environ "PROMPUSH_JOB_NAME").getD "")
        { Environment := environ, Prefix := "PROMPUSH_" }
        [⟨"URL", "", false, fun v o => .ok { o with URL := v }⟩,
          ⟨"CACERT_FILE", "", false, fun v o => .ok { o with RootCAFile := v }⟩,
          ⟨"CERT_FILE", "", false, fun v o => .ok { o with CertFile := v }⟩,
          ⟨"KEY_FILE", "", false, fun v o => .ok { o with KeyFile := v }⟩,
          ⟨"RETRIES", "2", true, fun v o => (c.envUint v).map fun n => { o with Retries := n }⟩,
          ⟨"RETRY_DELAY", "10s", true, fun v o => (c.ParseDuration v).map fun d => { o with RetryDelay := d }⟩]
        [⟨"INSTANCE_NAME", "", false, fun v o => .ok { o with Instance := v }⟩,
          ⟨"METRICS_FILE", "", false, fun v o => .ok { o with MetricsFile := v }⟩]
        ⟨"JOB_NAME", "", false, fun v o => .ok { o with Job := v }⟩
        (by
          intro g hg o o1 e hs
          simp only [List.mem_cons, List.mem_singleton, List.not_mem_nil, or_false] at hg
          rcases hg with rfl | rfl | rfl | rfl | rfl | rfl
          · exact setField_plain_keeps _ _ _ _ (by intro _ _; rfl) _ _ _ hs
          · exact setField_plain_keeps _ _ _ _ (by intro _ _; rfl) _ _ _ hs
          · exact setField_plain_keeps _ _ _ _ (by intro _ _; rfl) _ _ _ hs
          · exact setField_plain_keeps _ _ _ _ (by intro _ _; rfl) _ _ _ hs
          · exact setField_mapped_keeps _ _ _ _ _ _ _ (by intro _ _; rfl) _ _ _ hs
          · exact setField_mapped_keeps _ _ _ _ _ _ _ (by intro _ _; rfl) _ _ _ hs)
        (by
          intro g hg o o1 e hs
          simp only [List.mem_cons, List.mem_singleton, List.not_mem_nil, or_false] at hg
          rcases hg with rfl | rfl
          · exact setField_plain_keeps _ _ _ _ (by intro _ _; rfl) _ _ _ hs
          · exact setField_plain_keeps _ _ _ _ (by intro _ _; rfl) _ _ _ hs)
        programOptions.zero o
        (by
          intro o1 o2 hget hs
          exact setField_plain_sets (fun o => o.Job) _ _ _ (by intro _ _; rfl) _ _ _ hget hs)
        hd
    have hInstance := doParse_get (fun o => o.Instance)
        (fun a => a = (environ "PROMPUSH_INSTANCE_NAME").getD "")
        { Environment := environ, Prefix := "PROMPUSH_" }
        [⟨"URL", "", false, fun v o => .ok { o with URL := v }⟩,
          ⟨"CACERT_FILE", "", false, fun v o => .ok { o with RootCAFile := v }⟩,
          ⟨"CERT_FILE", "", false, fun v o => .ok { o with CertFile := v }⟩,
          ⟨"KEY_FILE", "", false, fun v o => .ok { o with KeyFile := v }⟩,
          ⟨"RETRIES", "2", true, fun v o => (c.envUint v).map fun n => { o with Retries := n }⟩,
          ⟨"RETRY_DELAY", "10s", true, fun v o => (c.ParseDuration v).map fun d => { o with RetryDelay := d }⟩,
          ⟨"JOB_NAME", "", false, fun v o => .ok { o with Job := v }⟩]
        [⟨"METRICS_FILE", "", false, fun v o => .ok { o with MetricsFile := v }⟩]
        ⟨"INSTANCE_NAME", "", false, fun v o => .ok { o with Instance := v }⟩
        (by
          intro g hg o o1 e hs
          simp only [List.mem_cons, List.mem_singleton, List.not_mem_nil, or_false] at hg
          rcases hg with rfl | rfl | rfl | rfl | rfl | rfl | rfl
          · exact setField_plain_keeps _ _ _ _ (by intro _ _; rfl) _ _ _ hs
          · exact setField_plain_keeps _ _ _ _ (by intro _ _; rfl) _ _ _ hs
          · exact setField_plain_keeps _ _ _ _ (by intro _ _; rfl) _ _ _ hs
          · exact setField_plain_keeps _ _ _ _ (by intro _ _; rfl) _ _ _ hs
          · exact setField_mapped_keeps _ _ _ _ _ _ _ (by intro _ _; rfl) _ _ _ hs
          · exact setField_mapped_keeps _ _ _ _ _ _ _ (by intro _ _; rfl) _ _ _ hs
          · exact setField_plain_keeps _ _ _ _ (by intro _ _; rfl) _ _ _ hs)
        (by
          intro g hg o o1 e hs
          simp only [List.mem_cons, List.mem_singleton, List.not_mem_nil, or_false] at hg
          subst hg
          exact setField_plain_keeps _ _ _ _ (by intro _ _; rfl) _ _ _ hs)
        programOptions.zero o
        (by
          intro o1 o2 hget hs
          exact setField_plain_sets (fun o => o.Instance) _ _ _ (by intro _ _; rfl) _ _ _ hget hs)
        hd
    have hMetricsFile := doParse_get (fun o => o.MetricsFile)
        (fun a => a = (environ "PROMPUSH_METRICS_FILE").getD "")
        { Environment := environ, Prefix := "PROMPUSH_" }
        [⟨"URL", "", false, fun v o => .ok { o with URL := v }⟩,
          ⟨"CACERT_FILE", "", false, fun v o => .ok { o with RootCAFile := v }⟩,
          ⟨"CERT_FILE", "", false, fun v o => .ok { o with CertFile := v }⟩,
          ⟨"KEY_FILE", "", false, fun v o => .ok { o with KeyFile := v }⟩,
          ⟨"RETRIES", "2", true, fun v o => (c.envUint v).map fun n => { o with Retries := n }⟩,
          ⟨"RETRY_DELAY", "10s", true, fun v o => (c.ParseDuration v).map fun d => { o with RetryDelay := d }⟩,
          ⟨"JOB_NAME", "", false, fun v o => .ok { o with Job := v }⟩,
          ⟨"INSTANCE_NAME", "", false, fun v o => .ok { o with Instance := v }⟩]
        []
        ⟨"METRICS_FILE", "", false, fun v o => .ok { o with MetricsFile := v }⟩
        (by
          intro g hg o o1 e hs
          simp only [List.mem_cons, List.mem_singleton, List.not_mem_nil, or_false] at hg
          rcases hg with rfl | rfl | rfl | rfl | rfl | rfl | rfl | rfl
          · exact setField_plain_keeps _ _ _ _ (by intro _ _; rfl) _ _ _ hs
          · exact setField_plain_keeps _ _ _ _ (by intro _ _; rfl) _ _ _ hs
          · exact setField_plain_keeps _ _ _ _ (by intro _ _; rfl) _ _ _ hs
          · exact setField_plain_keeps _ _ _ _ (by intro _ _; rfl) _ _ _ hs
          · exact setField_mapped_keeps _ _ _ _ _ _ _ (by intro _ _; rfl) _ _ _ hs
          · exact setField_mapped_keeps _ _ _ _ _ _ _ (by intro _ _; rfl) _ _ _ hs
          · exact setField_plain_keeps _ _ _ _ (by intro _ _; rfl) _ _ _ hs
          · exact setField_plain_keeps _ _ _ _ (by intro _ _; rfl) _ _ _ hs)
        (by
          intro g hg
          cases hg)
        programOptions.zero o
        (by
          intro o1 o2 hget hs
          exact setField_plain_sets (fun o => o.MetricsFile) _ _ _ (by intro _ _; rfl) _ _ _ hget hs)
        hd
    exact ⟨hURL, hRootCAFile, hCertFile, hKeyFile, hJob, hInstance, hMetricsFile, hRetries,
      hRetryDelay⟩

/-- C2, refuted: with `PROMPUSH_RETRIES` set to the empty text and no flag,
the options resolve without error and `Retries` is the default 2, although the
variable is set and its text does not denote 2 (it denotes no number). -/
theorem resolveOptions_empty_variable_ignored :
    emptyRetriesEnviron "PROMPUSH_RETRIES" = some "" ∧
    lastValue [] "retries" = none ∧
    (resolveOptions sampleConversions emptyRetriesEnviron (renderFlags [])).2 = none ∧
    (resolveOptions sampleConversions emptyRetriesEnviron (renderFlags [])).1.Retries = 2 ∧
    sampleConversions.envUint "" = .error (.msg "invalid syntax") := by
  refine ⟨rfl, rfl, ?_, ?_, rfl⟩ <;> decide!

/-- C2, amended: when the conversions read the defaults `2` and `10s` as 2 and
ten seconds, the flags supplied are flags of the program, each given as
`-name=value`, and `registerFlags` followed by `Parse` returns no error, then
every string option equals the value of the last occurrence of its flag when
the flag was supplied, otherwise the text of its `PROMPUSH_` variable when set,
otherwise the empty string; `Retries` and `RetryDelay` equal the conversion of
the last value of their flag when it was supplied, otherwise the conversion of
the text of their variable when it is set to a text that is not empty,
otherwise (variable unset or empty) the default, 2 and ten seconds. -/
theorem resolveOptions_precedence (c : Conversions) (environ : String → Option String)
    (flags : List (String × String)) (o : programOptions)
    (hdefR : c.envUint "2" = .ok 2) (hdefD : c.ParseDuration "10s" = .ok (10 * Second))
    (hnames : ∀ f ∈ flags, f.1 ∈ flagNames)
    (hrun : resolveOptions c environ (renderFlags flags) = (o, none)) :
    o.URL = stringOption flags environ "gateway" "PROMPUSH_URL" ∧
    o.RootCAFile = stringOption flags environ "cacert" "PROMPUSH_CACERT_FILE" ∧
    o.CertFile = stringOption flags environ "cert" "PROMPUSH_CERT_FILE" ∧
    o.KeyFile = stringOption flags environ "key" "PROMPUSH_KEY_FILE" ∧
    o.Job = stringOption flags environ "job" "PROMPUSH_JOB_NAME" ∧
    o.Instance = stringOption flags environ "instance" "PROMPUSH_INSTANCE_NAME" ∧
    o.MetricsFile = stringOption flags environ "metrics" "PROMPUSH_METRICS_FILE" ∧
    (match lastValue flags "retries" with
      | some v => c.flagUint v = .ok o.Retries
      | none =>
        match environ "PROMPUSH_RETRIES" with
        | some v => if v = "" then o.Retries = 2 else c.envUint v = .ok o.Retries
        | none => o.Retries = 2) ∧
    (match lastValue flags "retry_delay" with
      | some v => c.ParseDuration v = .ok o.RetryDelay
      | none =>
        match environ "PROMPUSH_RETRY_DELAY" with
        | some v => if v = "" then o.RetryDelay = 10 * Second
          else c.ParseDuration v = .ok o.RetryDelay
        | none => o.RetryDelay = 10 * Second) := by
  simp only [resolveOptions] at hrun
  rcases hreg : programOptions.registerFlags c programOptions.zero NewFlagSet environ
    with ⟨o0, fs, _ | err⟩
  · rw [hreg] at hrun
    simp only [FlagSet.Parse] at hrun
    rcases hparse : fs.parseArgs c (renderFlags flags) o0 with ⟨o1, rest, e⟩
    rw [hparse] at hrun
    obtain ⟨h1, h2⟩ := Prod.mk.inj hrun
    simp only at h1 h2
    subst h1
    subst h2
    obtain ⟨hfs, eURL, eCA, eCert, eKey, eJob, eInst, eMet, eRet, eDel⟩ :=
      registerFlags_ok c environ o0 fs hreg
    have sURL := parseArgs_render_get (fun o => o.URL) (fun v a => a = v) "gateway" c fs hfs
      (by
        intro f o o2 hf happ
        rcases applyFlag_ok c f o o2 hf happ with
          ⟨hn, ho⟩ | ⟨hn, ho⟩ | ⟨hn, ho⟩ | ⟨hn, ho⟩ | ⟨hn, ho⟩ | ⟨hn, ho⟩ | ⟨hn, ho⟩ |
          ⟨hn, n, hu, ho⟩ | ⟨hn, n, hu, ho⟩
        · simp [hn, ho]
        · simp [hn, ho]
        · simp [hn, ho]
        · simp [hn, ho]
        · simp [hn, ho]
        · simp [hn, ho]
        · simp [hn, ho]
        · simp [hn, ho, hu]
        · simp [hn, ho, hu])
      flags hnames o0 o1 rest hparse
    have sRootCAFile := parseArgs_render_get (fun o => o.RootCAFile) (fun v a => a = v) "cacert" c fs hfs
      (by
        intro f o o2 hf happ
        rcases applyFlag_ok c f o o2 hf happ with
          ⟨hn, ho⟩ | ⟨hn, ho⟩ | ⟨hn, ho⟩ | ⟨hn, ho⟩ | ⟨hn, ho⟩ | ⟨hn, ho⟩ | ⟨hn, ho⟩ |
          ⟨hn, n, hu, ho⟩ | ⟨hn, n, hu, ho⟩
        · simp [hn, ho]
        · simp [hn, ho]
        · simp [hn, ho]
        · simp [hn, ho]
        · simp [hn, ho]
        · simp [hn, ho]
        · simp [hn, ho]
        · simp [hn, ho, hu]
        · simp [hn, ho, hu])
      flags hnames o0 o1 rest hparse
    have sCertFile := parseArgs_render_get (fun o => o.CertFile) (fun v a => a = v) "cert" c fs hfs
      (by
        intro f o o2 hf happ
        rcases applyFlag_ok c f o o2 hf happ with
          ⟨hn, ho⟩ | ⟨hn, ho⟩ | ⟨hn, ho⟩ | ⟨hn, ho⟩ | ⟨hn, ho⟩ | ⟨hn, ho⟩ | ⟨hn, ho⟩ |
          ⟨hn, n, hu, ho⟩ | ⟨hn, n, hu, ho⟩
        · simp [hn, ho]
        · simp [hn, ho]
        · simp [hn, ho]
        · simp [hn, ho]
        · simp [hn, ho]
        · simp [hn, ho]
        · simp [hn, ho]
        · simp [hn, ho, hu]
        · simp [hn, ho, hu])
      flags hnames o0 o1 rest hparse
    have sKeyFile := parseArgs_render_get (fun o => o.KeyFile) (fun v a => a = v) "key" c fs hfs
      (by
        intro f o o2 hf happ
        rcases applyFlag_ok c f o o2 hf happ with
          ⟨hn, ho⟩ | ⟨hn, ho⟩ | ⟨hn, ho⟩ | ⟨hn, ho⟩ | ⟨hn, ho⟩ | ⟨hn, ho⟩ | ⟨hn, ho⟩ |
          ⟨hn, n, hu, ho⟩ | ⟨hn, n, hu, ho⟩
        · simp [hn, ho]
        · simp [hn, ho]
        · simp [hn, ho]
        · simp [hn, ho]
        · simp [hn, ho]
        · simp [hn, ho]
        · simp [hn, ho]
        · simp [hn, ho, hu]
        · simp [hn, ho, hu])
      flags hnames o0 o1 rest hparse
    have sJob := parseArgs_render_get (fun o => o.Job) (fun v a => a = v) "job" c fs hfs
      (by
        intro f o o2 hf happ
        rcases applyFlag_ok c f o o2 hf happ with
          ⟨hn, ho⟩ | ⟨hn, ho⟩ | ⟨hn, ho⟩ | ⟨hn, ho⟩ | ⟨hn, ho⟩ | ⟨hn, ho⟩ | ⟨hn, ho⟩ |
          ⟨hn, n, hu, ho⟩ | ⟨hn, n, hu, ho⟩
        · simp [hn, ho]
        · simp [hn, ho]
        · simp [hn, ho]
        · simp [hn, ho]
        · simp [hn, ho]
        · simp [hn, ho]
        · simp [hn, ho]
        · simp [hn, ho, hu]
        · simp [hn, ho, hu])
      flags hnames o0 o1 rest hparse
    have sInstance := parseArgs_render_get (fun o => o.Instance) (fun v a => a = v) "instance" c fs hfs
      (by
        intro f o o2 hf happ
        rcases applyFlag_ok c f o o2 hf happ with
          ⟨hn, ho⟩ | ⟨hn, ho⟩ | ⟨hn, ho⟩ | ⟨hn, ho⟩ | ⟨hn, ho⟩ | ⟨hn, ho⟩ | ⟨hn, ho⟩ |
          ⟨hn, n, hu, ho⟩ | ⟨hn, n, hu, ho⟩
        · simp [hn, ho]
        · simp [hn, ho]
        · simp [hn, ho]
        · simp [hn, ho]
        · simp [hn, ho]
        · simp [hn, ho]
        · simp [hn, ho]
        · simp [hn, ho, hu]
        · simp [hn, ho, hu])
      flags hnames o0 o1 rest hparse
    have sMetricsFile := parseArgs_render_get (fun o => o.MetricsFile) (fun v a => a = v) "metrics" c fs hfs
      (by
        intro f o o2 hf happ
        rcases applyFlag_ok c f o o2 hf happ with
          ⟨hn, ho⟩ | ⟨hn, ho⟩ | ⟨hn, ho⟩ | ⟨hn, ho⟩ | ⟨hn, ho⟩ | ⟨hn, ho⟩ | ⟨hn, ho⟩ |
          ⟨hn, n, hu, ho⟩ | ⟨hn, n, hu, ho⟩
        · simp [hn, ho]
        · simp [hn, ho]
        · simp [hn, ho]
        · simp [hn, ho]
        · simp [hn, ho]
        · simp [hn, ho]
        · simp [hn, ho]
        · simp [hn, ho, hu]
        · simp [hn, ho, hu])
      flags hnames o0 o1 rest hparse
    have sRetries := parseArgs_render_get (fun o => o.Retries)
      (fun v a => c.flagUint v = .ok a) "retries" c fs hfs
      (by
        intro f o o2 hf happ
        rcases applyFlag_ok c f o o2 hf happ with
          ⟨hn, ho⟩ | ⟨hn, ho⟩ | ⟨hn, ho⟩ | ⟨hn, ho⟩ | ⟨hn, ho⟩ | ⟨hn, ho⟩ | ⟨hn, ho⟩ |
          ⟨hn, n, hu, ho⟩ | ⟨hn, n, hu, ho⟩
        · simp [hn, ho]
        · simp [hn, ho]
        · simp [hn, ho]
        · simp [hn, ho]
        · simp [hn, ho]
        · simp [hn, ho]
        · simp [hn, ho]
        · simp [hn, ho, hu]
        · simp [hn, ho, hu])
      flags hnames o0 o1 rest hparse
    have sRetryDelay := parseArgs_render_get (fun o => o.RetryDelay)
      (fun v a => c.ParseDuration v = .ok a) "retry_delay" c fs hfs
      (by
        intro f o o2 hf happ
        rcases applyFlag_ok c f o o2 hf happ with
          ⟨hn, ho⟩ | ⟨hn, ho⟩ | ⟨hn, ho⟩ | ⟨hn, ho⟩ | ⟨hn, ho⟩ | ⟨hn, ho⟩ | ⟨hn, ho⟩ |
          ⟨hn, n, hu, ho⟩ | ⟨hn, n, hu, ho⟩
        · simp [hn, ho]
        · simp [hn, ho]
        · simp [hn, ho]
        · simp [hn, ho]
        · simp [hn, ho]
        · simp [hn, ho]
        · simp [hn, ho]
        · simp [hn, ho, hu]
        · simp [hn, ho, hu])
      flags hnames o0 o1 rest hparse
    refine ⟨?_, ?_, ?_, ?_, ?_, ?_, ?_, ?_, ?_⟩
    · simp only [stringOption]
      rcases hl : lastValue flags "gateway" with _ | v
      · rw [hl] at sURL
        simp only at sURL
        rw [sURL, eURL]
        cases environ "PROMPUSH_URL" <;> rfl
      · rw [hl] at sURL
        exact sURL
    · simp only [stringOption]
      rcases hl : lastValue flags "cacert" with _ | v
      · rw [hl] at sRootCAFile
        simp only at sRootCAFile
        rw [sRootCAFile, eCA]
        cases environ "PROMPUSH_CACERT_FILE" <;> rfl
      · rw [hl] at sRootCAFile
        exact sRootCAFile
    · simp only [stringOption]
      rcases hl : lastValue flags "cert" with _ | v
      · rw [hl] at sCertFile
        simp only at sCertFile
        rw [sCertFile, eCert]
        cases environ "PROMPUSH_CERT_FILE" <;> rfl
      · rw [hl] at sCertFile
        exact sCertFile
    · simp only [stringOption]
      rcases hl : lastValue flags "key" with _ | v
      · rw [hl] at sKeyFile
        simp only at sKeyFile
        rw [sKeyFile, eKey]
        cases environ "PROMPUSH_KEY_FILE" <;> rfl
      · rw [hl] at sKeyFile
        exact sKeyFile
    · simp only [stringOption]
      rcases hl : lastValue flags "job" with _ | v
      · rw [hl] at sJob
        simp only at sJob
        rw [sJob, eJob]
        cases environ "PROMPUSH_JOB_NAME" <;> rfl
      · rw [hl] at sJob
        exact sJob
    · simp only [stringOption]
      rcases hl : lastValue flags "instance" with _ | v
      · rw [hl] at sInstance
        simp only at sInstance
        rw [sInstance, eInst]
        cases environ "PROMPUSH_INSTANCE_NAME" <;> rfl
      · rw [hl] at sInstance
        exact sInstance
    · simp only [stringOption]
      rcases hl : lastValue flags "metrics" with _ | v
      · rw [hl] at sMetricsFile
        simp only at sMetricsFile
        rw [sMetricsFile, eMet]
        cases environ "PROMPUSH_METRICS_FILE" <;> rfl
      · rw [hl] at sMetricsFile
        exact sMetricsFile
    · rcases hl : lastValue flags "retries" with _ | v
      · rw [hl] at sRetries
        simp only at sRetries ⊢
        rw [sRetries]
        rcases he : environ "PROMPUSH_RETRIES" with _ | text
        · simp [getOr, he] at eRet
          rw [hdefR] at eRet
          exact (Except.ok.inj eRet).symm
        · by_cases ht : text = ""
          · simp only [ht, if_true]
            simp [getOr, he, ht] at eRet
            rw [hdefR] at eRet
            exact (Except.ok.inj eRet).symm
          · simp only [ht, if_false]
            simpa [getOr, he, ht] using eRet
      · rw [hl] at sRetries
        exact sRetries
    · rcases hl : lastValue flags "retry_delay" with _ | v
      · rw [hl] at sRetryDelay
        simp only at sRetryDelay ⊢
        rw [sRetryDelay]
        rcases he : environ "PROMPUSH_RETRY_DELAY" with _ | text
        · simp [getOr, he] at eDel
          rw [hdefD] at eDel
          exact (Except.ok.inj eDel).symm
        · by_cases ht : text = ""
          · simp only [ht, if_true]
            simp [getOr, he, ht] at eDel
            rw [hdefD] at eDel
            exact (Except.ok.inj eDel).symm
          · simp only [ht, if_false]
            simpa [getOr, he, ht] using eDel
      · rw [hl] at sRetryDelay
        exact sRetryDelay
  · rw [hreg] at hrun
    obtain ⟨-, h2⟩ := Prod.mk.inj hrun
    cases h2

/-- C2, amended, at the environment of the case "env only" of
`TestProgramOptionsRegisterFlags` with the flags `-gateway` and `-retries`
supplied: the flags win, the other options keep the environment's values or
the defaults. -/
theorem resolveOptions_precedence_witness :
    ("http://localhost:1234" : String) =
      stringOption [("gateway", "http://localhost:1234"), ("retries", "100")] testEnviron
        "gateway" "PROMPUSH_URL" ∧
    ("/not/found" : String) =
      stringOption [("gateway", "http://localhost:1234"), ("retries", "100")] testEnviron
        "metrics" "PROMPUSH_METRICS_FILE" ∧
    sampleConversions.flagUint "100" = .ok 100 ∧
    sampleConversions.ParseDuration "4h" = .ok (14400 * Second) :=
  have h := resolveOptions_precedence sampleConversions testEnviron
    [("gateway", "http://localhost:1234"), ("retries", "100")]
    { programOptions.zero with
      URL := "http://localhost:1234", Retries := 100, RetryDelay := 14400 * Second,
      MetricsFile := "/not/found" }
    rfl rfl (by decide) (by decide!)
  ⟨h.1, h.2.2.2.2.2.2.1, h.2.2.2.2.2.2.2.1, h.2.2.2.2.2.2.2.2⟩

end Prompush
